import Mathlib

/-! # SpheCow: dynamical models for spherical galaxies and dark matter haloes

A shallow embedding of the SpheCow model hierarchy. The C++ type `double` is
read as the real numbers (with `+∞` as the top element of `EReal` where the
source returns `std::numeric_limits<double>::infinity()`), `pow(x,3)` with an
integer literal exponent is the natural power, `pow(x,y)` with a real exponent
is `Real.rpow`, and `sqrt`, `log`, `fabs` are `Real.sqrt`, `Real.log`,
absolute value. A C++ object with virtual member functions is a structure
holding one closure per virtual function.
-/

-- The structures of this file are plain records; the injectivity and `sizeOf`
-- lemmas of their constructors are not used anywhere.
set_option genInjectivity false
set_option genSizeOf false

noncomputable section

namespace SpheCow

/-- The constant `M_PI` of `<cmath>`. -/
def M_PI : ℝ := Real.pi

/-- The constant `M_SQRT2` of `<cmath>`. -/
def M_SQRT2 : ℝ := Real.sqrt 2

/-! ## GaussLegendre.hpp -/

/-- The three integrators declared in `GaussLegendre.hpp`. Their bodies are
not part of the sources at hand, so an integrator is taken as a parameter:
`integrate_0_infty X rb`, `integrate_0_r X r rb`, `integrate_r_infty X r rb`. -/
structure GaussLegendre where
  integrate_0_infty : (ℝ → ℝ) → ℝ → ℝ
  integrate_0_r : (ℝ → ℝ) → ℝ → ℝ → ℝ
  integrate_r_infty : (ℝ → ℝ) → ℝ → ℝ → ℝ

/-- A one-node stand-in integrator for concrete examples: every integral is
estimated by the value of the integrand at the anchoring radius. -/
def GaussLegendre.onePoint : GaussLegendre :=
  GaussLegendre.mk (fun X rb => X rb) (fun X r _ => X r) (fun X r _ => X r)

/-! ## Model.hpp, Model.cpp -/

/-- The pure virtual interface of `class Model` together with the protected
member `_gl`. -/
structure Model where
  _gl : GaussLegendre
  scale_radius : ℝ
  total_mass : EReal
  density : ℝ → ℝ
  derivative_density : ℝ → ℝ
  second_derivative_density : ℝ → ℝ
  mass : ℝ → ℝ
  potential : ℝ → ℝ
  surface_density : ℝ → ℝ
  derivative_surface_density : ℝ → ℝ

namespace Model

/-- `Model::density_slope`. -/
def density_slope (m : Model) (r : ℝ) : ℝ :=
  -r * m.derivative_density r / m.density r

/-- `Model::circular_velocity`. -/
def circular_velocity (m : Model) (r : ℝ) : ℝ :=
  m.mass r / r

/-- `Model::potential_difference`. -/
def potential_difference (m : Model) (r1 r2 : ℝ) : ℝ :=
  let eps := r2 - r1
  if eps > 1e-4 * m.scale_radius then m.potential r1 - m.potential r2
  else
    let M := m.mass r1
    let rho := m.density r1
    M / (r1 * r1) * eps + (2 * M_PI * rho - M / r1 ^ 3) * eps * eps

/-- `Model::isotropic_distribution_function` (the base class implementation). -/
def isotropic_distribution_function (m : Model) (r : ℝ) : ℝ :=
  let integrand : ℝ → ℝ := fun u =>
    let M := m.mass u
    let rho := m.density u
    let drho := m.derivative_density u
    let d2rho := m.second_derivative_density u
    let Delta := u * u / M * (d2rho + drho * (2 / u - 4 * M_PI * rho * u * u / M))
    Delta / Real.sqrt |m.potential_difference r u|
  1 / (2 * M_SQRT2 * M_PI * M_PI) * m._gl.integrate_r_infty integrand r m.scale_radius

/-- `Model::osipkov_merritt_radial_dispersion`. -/
def osipkov_merritt_radial_dispersion (m : Model) (r ra : ℝ) : ℝ :=
  let integrand : ℝ → ℝ := fun u =>
    let rhoQ := m.density u * (1 + u * u / (ra * ra))
    rhoQ * m.mass u / (u * u)
  m._gl.integrate_r_infty integrand r m.scale_radius / (1 + r * r / (ra * ra)) / m.density r

/-- `Model::osipkov_merritt_tangential_dispersion`. -/
def osipkov_merritt_tangential_dispersion (m : Model) (r ra : ℝ) : ℝ :=
  1 / (1 + r * r / (ra * ra)) * m.osipkov_merritt_radial_dispersion r ra

end Model

/-! ## DensityModel.cpp

The default implementations that `DensityModel` layers on the primitives of a
concrete profile; each takes the virtual functions it calls as arguments. -/

namespace DensityModel

/-- `DensityModel::total_mass`. -/
def total_mass (gl : GaussLegendre) (scale_radius : ℝ) (density : ℝ → ℝ) : ℝ :=
  4 * M_PI * gl.integrate_0_infty (fun u => density u * (u * u)) scale_radius

/-- `DensityModel::mass`. -/
def mass (gl : GaussLegendre) (scale_radius : ℝ) (density : ℝ → ℝ) (r : ℝ) : ℝ :=
  4 * M_PI * gl.integrate_0_r (fun u => density u * (u * u)) r scale_radius

/-- `DensityModel::surface_density`. -/
def surface_density (gl : GaussLegendre) (scale_radius : ℝ) (density : ℝ → ℝ) (R : ℝ) : ℝ :=
  2 * gl.integrate_r_infty (fun u => density u * u / Real.sqrt ((u - R) * (u + R))) R scale_radius

/-- `DensityModel::derivative_surface_density`. -/
def derivative_surface_density (gl : GaussLegendre) (scale_radius : ℝ)
    (density derivative_density : ℝ → ℝ) (R : ℝ) : ℝ :=
  2 / R * gl.integrate_r_infty
    (fun u => (density u + derivative_density u * u) * u / Real.sqrt ((u - R) * (u + R)))
    R scale_radius

end DensityModel

/-! ## PlummerModel.cpp -/

/-- The data members of `class PlummerModel`. -/
structure PlummerModel where
  _Mtot : ℝ
  _c : ℝ
  _gl : GaussLegendre

namespace PlummerModel

/-- The constructor `PlummerModel::PlummerModel`. -/
def new (Mtot c : ℝ) (gl : GaussLegendre) : PlummerModel :=
  PlummerModel.mk Mtot c gl

/-- `PlummerModel::scale_radius`. -/
def scale_radius (p : PlummerModel) : ℝ := p._c

/-- `PlummerModel::density`. -/
def density (p : PlummerModel) (r : ℝ) : ℝ :=
  let dimf := p._Mtot / p._c ^ 3
  let t := r / p._c
  let z := Real.sqrt (1 + t * t)
  dimf * 3 / (4 * M_PI) / z ^ 5

/-- `PlummerModel::derivative_density`. -/
def derivative_density (p : PlummerModel) (r : ℝ) : ℝ :=
  let dimf := p._Mtot / p._c ^ 4
  let t := r / p._c
  let z := Real.sqrt (1 + t * t);
  -dimf * 15 / (4 * M_PI) * t / z ^ 7

/-- `PlummerModel::second_derivative_density`. -/
def second_derivative_density (p : PlummerModel) (r : ℝ) : ℝ :=
  let dimf := p._Mtot / p._c ^ 5
  let t := r / p._c
  let z := Real.sqrt (1 + t * t)
  dimf * 15 / (4 * M_PI) * (6 * t * t - 1) / z ^ 9

/-- `PlummerModel::mass`. -/
def mass (p : PlummerModel) (r : ℝ) : ℝ :=
  let dimf := p._Mtot
  let t := r / p._c
  let z := Real.sqrt (1 + t * t)
  dimf * (t / z) ^ 3

/-- `PlummerModel::total_mass`. -/
def total_mass (p : PlummerModel) : ℝ := p._Mtot

/-- `PlummerModel::potential`. -/
def potential (p : PlummerModel) (r : ℝ) : ℝ :=
  let dimf := p._Mtot / p._c
  let t := r / p._c
  dimf / Real.sqrt (1 + t * t)

/-- The `Model` view of a Plummer model: its own overrides, and the
`DensityModel` defaults for the surface density. -/
def toModel (p : PlummerModel) : Model :=
  Model.mk p._gl p.scale_radius (p.total_mass : ℝ) p.density p.derivative_density
    p.second_derivative_density p.mass p.potential
    (DensityModel.surface_density p._gl p.scale_radius p.density)
    (DensityModel.derivative_surface_density p._gl p.scale_radius p.density p.derivative_density)

end PlummerModel

/-! ## GammaModel.cpp -/

/-- The data members of `class GammaModel`. -/
structure GammaModel where
  _Mtot : ℝ
  _b : ℝ
  _gamma : ℝ
  _rhob : ℝ
  _gl : GaussLegendre

namespace GammaModel

/-- The constructor `GammaModel::GammaModel`. -/
def new (Mtot b gamma : ℝ) (gl : GaussLegendre) : GammaModel :=
  GammaModel.mk Mtot b gamma (Mtot / b ^ 3 * (3 - gamma) / (4 * M_PI)) gl

/-- `GammaModel::scale_radius`. -/
def scale_radius (g : GammaModel) : ℝ := g._b

/-- `GammaModel::density`. -/
def density (g : GammaModel) (r : ℝ) : ℝ :=
  let t := r / g._b
  g._rhob / (t ^ g._gamma * (1 + t) ^ (4 - g._gamma))

/-- `GammaModel::derivative_density`. -/
def derivative_density (g : GammaModel) (r : ℝ) : ℝ :=
  let t := r / g._b;
  -(g._rhob / g._b) * (4 * t + g._gamma) / (t ^ (g._gamma + 1) * (1 + t) ^ (5 - g._gamma))

/-- `GammaModel::second_derivative_density`. -/
def second_derivative_density (g : GammaModel) (r : ℝ) : ℝ :=
  let t := r / g._b
  g._rhob / (g._b * g._b) * (20 * t * t + 10 * t * g._gamma + g._gamma * (1 + g._gamma))
    / (t ^ (g._gamma + 2) * (1 + t) ^ (6 - g._gamma))

/-- `GammaModel::mass`. -/
def mass (g : GammaModel) (r : ℝ) : ℝ :=
  let t := r / g._b
  g._Mtot * (t / (1 + t)) ^ (3 - g._gamma)

/-- `GammaModel::potential`. -/
def potential (g : GammaModel) (r : ℝ) : ℝ :=
  let dimf := g._Mtot / g._b
  let t := r / g._b
  let eps : ℝ := 1e-3
  if |g._gamma - 2| > eps then
    dimf * 1 / (2 - g._gamma) * (1 - (t / (1 + t)) ^ (2 - g._gamma))
  else
    let w := 2 - g._gamma
    let q := Real.log (t / (1 + t))
    dimf * (-q - 0.5 * w * q * q - w * w / 6 * q * q * q)

/-- The `Model` view of a gamma model: its own overrides, and the
`DensityModel` defaults for the total mass and the surface density. -/
def toModel (g : GammaModel) : Model :=
  Model.mk g._gl g.scale_radius
    ((DensityModel.total_mass g._gl g.scale_radius g.density : ℝ) : EReal)
    g.density g.derivative_density g.second_derivative_density g.mass g.potential
    (DensityModel.surface_density g._gl g.scale_radius g.density)
    (DensityModel.derivative_surface_density g._gl g.scale_radius g.density g.derivative_density)

end GammaModel

/-! ## NFWModel.cpp -/

/-- The data members of `class NFWModel`. -/
structure NFWModel where
  _Mvir : ℝ
  _rs : ℝ
  _c : ℝ
  _rvir : ℝ
  _rhoff : ℝ
  _gl : GaussLegendre

namespace NFWModel

/-- The constructor `NFWModel::NFWModel`. -/
def new (Mvir rs c : ℝ) (gl : GaussLegendre) : NFWModel :=
  NFWModel.mk Mvir rs c (rs * c) (1 / (4 * M_PI * (Real.log (1 + c) - c / (1 + c)))) gl

/-- `NFWModel::scale_radius`. -/
def scale_radius (n : NFWModel) : ℝ := n._rs

/-- `NFWModel::density`. -/
def density (n : NFWModel) (r : ℝ) : ℝ :=
  let dimf := n._Mvir / n._rs ^ 3
  let t := r / n._rs
  let z := 1 + t
  dimf * n._rhoff / (t * z * z)

/-- `NFWModel::mass`. -/
def mass (n : NFWModel) (r : ℝ) : ℝ :=
  let dimf := n._Mvir
  let t := r / n._rs
  dimf * n._rhoff * 4 * M_PI * (Real.log (1 + t) - t / (1 + t))

/-- `NFWModel::total_mass`: the source returns
`std::numeric_limits<double>::infinity()`. -/
def total_mass (_n : NFWModel) : EReal := ⊤

end NFWModel

/-! ## BPLModel.cpp -/

/-- The data members of `class BPLModel`. -/
structure BPLModel where
  _Mtot : ℝ
  _rb : ℝ
  _beta : ℝ
  _gamma : ℝ
  _rhoff : ℝ
  _gl : GaussLegendre

namespace BPLModel

/-- The constructor `BPLModel::BPLModel`. -/
def new (Mtot rb beta gamma : ℝ) (gl : GaussLegendre) : BPLModel :=
  BPLModel.mk Mtot rb beta gamma ((beta - 3) * (3 - gamma) / (beta - gamma) / (4 * M_PI)) gl

/-- `BPLModel::scale_radius`. -/
def scale_radius (b : BPLModel) : ℝ := b._rb

/-- `BPLModel::density`. -/
def density (b : BPLModel) (r : ℝ) : ℝ :=
  let dimf := b._Mtot / b._rb ^ 3
  let t := r / b._rb
  let eta := if t ≤ 1 then b._gamma else b._beta
  dimf * b._rhoff * t ^ (-eta)

/-- `BPLModel::derivative_density`. -/
def derivative_density (b : BPLModel) (r : ℝ) : ℝ :=
  let dimf := b._Mtot / b._rb ^ 4
  let t := r / b._rb
  let eta := if t ≤ 1 then b._gamma else b._beta;
  -dimf * b._rhoff * eta * t ^ (-eta - 1)

/-- `BPLModel::second_derivative_density`. -/
def second_derivative_density (b : BPLModel) (r : ℝ) : ℝ :=
  let dimf := b._Mtot / b._rb ^ 5
  let t := r / b._rb
  let eta := if t ≤ 1 then b._gamma else b._beta
  dimf * b._rhoff * eta * (eta + 1) * t ^ (-eta - 2)

/-- `BPLModel::mass`. -/
def mass (b : BPLModel) (r : ℝ) : ℝ :=
  let dimf := b._Mtot
  let t := r / b._rb
  if t ≤ 1 then
    dimf * b._rhoff * (4 * M_PI) / (3 - b._gamma) * t ^ (3 - b._gamma)
  else
    if |b._beta - 3| < 1e-5 then
      dimf * b._rhoff * (4 * M_PI) * (1 / (3 - b._gamma) + Real.log t)
    else
      dimf * b._rhoff * (4 * M_PI) / (b._beta - 3)
        * ((b._beta - b._gamma) / (3 - b._gamma) - t ^ (3 - b._beta))

/-- `BPLModel::total_mass`. -/
def total_mass (b : BPLModel) : ℝ := b._Mtot

/-- `BPLModel::potential`. -/
def potential (b : BPLModel) (r : ℝ) : ℝ :=
  let dimf := b._Mtot / b._rb
  let t := r / b._rb
  if t ≤ 1 then
    if |b._gamma - 2| < 1e-5 then
      dimf * b._rhoff * (4 * M_PI) * ((b._beta - 1) / (b._beta - 2) - Real.log t)
    else
      dimf * b._rhoff * (4 * M_PI) / (2 - b._gamma)
        * ((b._beta - b._gamma) / (b._beta - 2) - t ^ (2 - b._gamma) / (3 - b._gamma))
  else
    if |b._beta - 3| < 1e-5 then
      dimf * b._rhoff * (4 * M_PI) / t * ((4 - b._gamma) / (3 - b._gamma) + Real.log t)
    else
      dimf * b._rhoff * (4 * M_PI) / (b._beta - 3) / t
        * ((b._beta - b._gamma) / (3 - b._gamma) - t ^ (3 - b._beta) / (b._beta - 2))

/-- The `Model` view of a broken power-law model: its own overrides, and the
`DensityModel` defaults for the surface density. -/
def toModel (b : BPLModel) : Model :=
  Model.mk b._gl b.scale_radius (b.total_mass : ℝ) b.density b.derivative_density
    b.second_derivative_density b.mass b.potential
    (DensityModel.surface_density b._gl b.scale_radius b.density)
    (DensityModel.derivative_surface_density b._gl b.scale_radius b.density b.derivative_density)

/-- `BPLModel::isotropic_distribution_function`, the override that adds the
jump term to `DensityModel::isotropic_distribution_function` (inherited
unchanged from `Model`). -/
def isotropic_distribution_function (b : BPLModel) (r : ℝ) : ℝ :=
  if r ≤ b._rb then
    let ff := -1 / (b._rb * b._rb) * (b._beta - b._gamma) * (3 - b._gamma)
      / (8 * M_SQRT2 * M_PI * M_PI * M_PI)
    let jump := ff / Real.sqrt (b.toModel.potential_difference r b._rb)
    b.toModel.isotropic_distribution_function r + jump
  else
    b.toModel.isotropic_distribution_function r

end BPLModel

/-! ## IsochroneModel.cpp -/

/-- The data members of `class IsochroneModel`. -/
structure IsochroneModel where
  _Mtot : ℝ
  _b : ℝ
  _gl : GaussLegendre

namespace IsochroneModel

/-- The constructor `IsochroneModel::IsochroneModel`. -/
def new (Mtot b : ℝ) (gl : GaussLegendre) : IsochroneModel :=
  IsochroneModel.mk Mtot b gl

/-- `IsochroneModel::scale_radius`. -/
def scale_radius (m : IsochroneModel) : ℝ := m._b

/-- `IsochroneModel::density`. -/
def density (m : IsochroneModel) (r : ℝ) : ℝ :=
  let dimf := m._Mtot / m._b ^ 3
  let t := r / m._b
  let t2 := t * t
  let u := Real.sqrt (1 + t2)
  let p1 := 1 + 2 * u
  let p2 := 4 * M_PI * u ^ 3 * (1 + u) ^ 2
  dimf * p1 / p2

/-- `IsochroneModel::mass`. -/
def mass (m : IsochroneModel) (r : ℝ) : ℝ :=
  let dimf := m._Mtot
  let t := r / m._b
  let t2 := t * t
  let u := Real.sqrt (1 + t2)
  dimf * (-2 + (2 + t2) / u) / t

/-- `IsochroneModel::derivative_density`. -/
def derivative_density (m : IsochroneModel) (r : ℝ) : ℝ :=
  let dimf := m._Mtot / m._b ^ 4
  let t := r / m._b
  let t2 := t * t
  let u := Real.sqrt (1 + t2)
  let p1 := t * (11 + 8 * t2 + 9 * u)
  let p2 := 4 * M_PI * u ^ 5 * (1 + u) ^ 3;
  -dimf * p1 / p2

/-- `IsochroneModel::second_derivative_density`. -/
def second_derivative_density (m : IsochroneModel) (r : ℝ) : ℝ :=
  let dimf := m._Mtot / m._b ^ 5
  let t := r / m._b
  let t2 := t * t
  let u := Real.sqrt (1 + t2)
  let p1 := 5 * (-4 + 13 * t2 + 14 * t2 * t2 + 4 * u * (-1 + 4 * t2 + 2 * t2 * t2))
  let p2 := 4 * M_PI * u ^ 7 * (1 + u) ^ 4
  dimf * p1 / p2

end IsochroneModel

/-! ## Auxiliary functions for the isochrone mass integral

These two functions do not occur in the source; they are proof devices. -/

/-- The quantity `u = sqrt(1 + (r/b)^2)` of the isochrone formulas, as a
function of `r`. -/
def isochroneU (b r : ℝ) : ℝ := Real.sqrt (1 + r / b * (r / b))

/-- A primitive of `4 pi r^2 rho(r)` for the isochrone density that is smooth on
the whole real line; it agrees with `IsochroneModel::mass` for `r ≠ 0`. -/
def isochronePrimitive (Mtot b r : ℝ) : ℝ :=
  Mtot * (r / b * (2 / (1 + isochroneU b r) - 1 / isochroneU b r))

/-- The function `lgamma` of `<cmath>`: the logarithm of the absolute value of
the gamma function. -/
def lgamma (x : ℝ) : ℝ := Real.log |Real.Gamma x|

/-! ## ZhaoModel.cpp -/

/-- The data members of `class ZhaoModel`. -/
structure ZhaoModel where
  _Mtot : ℝ
  _rb : ℝ
  _alpha : ℝ
  _beta : ℝ
  _gamma : ℝ
  _rhoff : ℝ
  _gl : GaussLegendre

namespace ZhaoModel

/-- The constructor `ZhaoModel::ZhaoModel`. -/
def new (Mtot rb alpha beta gamma : ℝ) (gl : GaussLegendre) : ZhaoModel :=
  let lg1 := lgamma ((beta - gamma) / alpha)
  let lg2 := lgamma ((beta - 3) / alpha)
  let lg3 := lgamma ((3 - gamma) / alpha)
  ZhaoModel.mk Mtot rb alpha beta gamma (alpha * Real.exp (lg1 - lg2 - lg3) / (4 * M_PI)) gl

/-- `ZhaoModel::scale_radius`. -/
def scale_radius (m : ZhaoModel) : ℝ := m._rb

/-- `ZhaoModel::density`. -/
def density (m : ZhaoModel) (r : ℝ) : ℝ :=
  let dimf := m._Mtot / m._rb ^ 3
  let t := r / m._rb
  let z := t ^ m._alpha
  let q := (m._beta - m._gamma) / m._alpha
  dimf * m._rhoff * t ^ (-m._gamma) * (1 + z) ^ (-q)

/-- `ZhaoModel::derivative_density`. -/
def derivative_density (m : ZhaoModel) (r : ℝ) : ℝ :=
  let dimf := m._Mtot / m._rb ^ 4
  let t := r / m._rb
  let z := t ^ m._alpha
  let q := (m._beta - m._gamma) / m._alpha
  let v1 := t ^ (-m._gamma - 1)
  let v2 := (1 + z) ^ (-q - 1)
  let v3 := m._beta * z + m._gamma;
  -dimf * m._rhoff * v1 * v2 * v3

/-- `ZhaoModel::second_derivative_density`. -/
def second_derivative_density (m : ZhaoModel) (r : ℝ) : ℝ :=
  let dimf := m._Mtot / m._rb ^ 5
  let t := r / m._rb
  let z := t ^ m._alpha
  let q := (m._beta - m._gamma) / m._alpha
  let v1 := t ^ (-m._gamma - 2)
  let v2 := (1 + z) ^ (-q - 2)
  let v3 := m._gamma * (m._gamma + 1)
    + z * ((1 + m._alpha) * m._gamma + m._beta * (1 - m._alpha + 2 * m._gamma))
    + z * z * m._beta * (m._beta + 1)
  dimf * m._rhoff * v1 * v2 * v3

/-- `ZhaoModel::total_mass`. -/
def total_mass (m : ZhaoModel) : ℝ := m._Mtot

end ZhaoModel

/-! ## NukerModel.cpp -/

/-- The data members of `class NukerModel`. -/
structure NukerModel where
  _Mtot : ℝ
  _Rb : ℝ
  _alpha : ℝ
  _beta : ℝ
  _gamma : ℝ
  _Sigmab : ℝ
  _gl : GaussLegendre

namespace NukerModel

/-- The constructor `NukerModel::NukerModel`. -/
def new (Mtot Rb alpha beta gamma : ℝ) (gl : GaussLegendre) : NukerModel :=
  let lg1 := lgamma ((beta - gamma) / alpha)
  let lg2 := lgamma ((beta - 2) / alpha)
  let lg3 := lgamma ((2 - gamma) / alpha)
  NukerModel.mk Mtot Rb alpha beta gamma
    (Mtot / (Rb * Rb) * Real.exp (lg1 - lg2 - lg3) * alpha
      / (2 : ℝ) ^ ((beta - gamma) / alpha) / (2 * M_PI)) gl

/-- `NukerModel::scale_radius`. -/
def scale_radius (m : NukerModel) : ℝ := m._Rb

/-- `NukerModel::surface_density`. -/
def surface_density (m : NukerModel) (R : ℝ) : ℝ :=
  let t := R / m._Rb
  let z := t ^ m._alpha
  let q := (m._beta - m._gamma) / m._alpha
  m._Sigmab * t ^ (-m._gamma) * ((1 + z) / 2) ^ (-q)

/-- `NukerModel::derivative_surface_density`. -/
def derivative_surface_density (m : NukerModel) (R : ℝ) : ℝ :=
  let t := R / m._Rb
  let z := t ^ m._alpha
  let q := (m._beta - m._gamma) / m._alpha
  let ff := -(2 : ℝ) ^ q * m._Sigmab / m._Rb
  ff * t ^ (-1 - m._gamma) * (1 + z) ^ (-1 - q) * (m._beta * z + m._gamma)

/-- `NukerModel::second_derivative_surface_density`. -/
def second_derivative_surface_density (m : NukerModel) (R : ℝ) : ℝ :=
  let t := R / m._Rb
  let z := t ^ m._alpha
  let q := (m._beta - m._gamma) / m._alpha
  let ff := (2 : ℝ) ^ q * m._Sigmab / (m._Rb * m._Rb)
  let v1 := t ^ (-2 - m._gamma)
  let v2 := (1 + z) ^ (-2 - q)
  let v3 := z * z * m._beta * (1 + m._beta)
    + z * (m._beta - m._alpha * m._beta + m._gamma + m._alpha * m._gamma
        + 2 * m._beta * m._gamma)
    + m._gamma * (1 + m._gamma)
  ff * v1 * v2 * v3

/-- `NukerModel::third_derivative_surface_density`. -/
def third_derivative_surface_density (m : NukerModel) (R : ℝ) : ℝ :=
  let t := R / m._Rb
  let z := t ^ m._alpha
  let ff := -(2 : ℝ) ^ ((m._beta - m._gamma) / m._alpha) * m._Sigmab / m._Rb ^ 3
  let v1 := t ^ (-3 - m._gamma)
  let v2 := (1 + z) ^ (-3 - (m._beta - m._gamma) / m._alpha)
  let v3a := z * z * z * m._beta * (1 + m._beta) * (2 + m._beta)
  let v3b := z * z * (m._beta * (1 - m._alpha) * (4 + m._alpha + 3 * m._beta)
    + m._gamma * (2 + m._alpha * m._alpha + 3 * m._alpha * (1 + m._beta)
        + 3 * m._beta * (2 + m._beta)))
  let v3c := z * (-(1 + m._alpha) * (-4 + m._alpha - 3 * m._gamma) * m._gamma
    + m._beta * (2 + m._alpha * m._alpha - 3 * m._alpha * (1 + m._gamma)
        + 3 * m._gamma * (2 + m._gamma)))
  let v3d := m._gamma * (1 + m._gamma) * (2 + m._gamma)
  let v3 := v3a + v3b + v3c + v3d
  ff * v1 * v2 * v3

end NukerModel

/-! ## HypervirialModel.cpp -/

/-- The data members of `class HypervirialModel`. -/
structure HypervirialModel where
  _Mtot : ℝ
  _rs : ℝ
  _p : ℝ
  _gl : GaussLegendre

namespace HypervirialModel

/-- The constructor `HypervirialModel::HypervirialModel`. -/
def new (Mtot rs p : ℝ) (gl : GaussLegendre) : HypervirialModel :=
  HypervirialModel.mk Mtot rs p gl

/-- `HypervirialModel::scale_radius`. -/
def scale_radius (m : HypervirialModel) : ℝ := m._rs

/-- `HypervirialModel::density`. -/
def density (m : HypervirialModel) (r : ℝ) : ℝ :=
  let dimf := m._Mtot / m._rs ^ 3
  let t := r / m._rs
  let tp := t ^ m._p
  let v1 := t ^ (m._p - 2)
  let v2 := (1 + tp) ^ (-2 - 1 / m._p)
  let v := v1 * v2
  dimf * (m._p + 1) / (4 * M_PI) * v

/-- `HypervirialModel::derivative_density`. -/
def derivative_density (m : HypervirialModel) (r : ℝ) : ℝ :=
  let dimf := m._Mtot / m._rs ^ 4
  let t := r / m._rs
  let tp := t ^ m._p
  let v1 := t ^ (m._p - 3)
  let v2 := (1 + tp) ^ (-3 - 1 / m._p)
  let v3 := 2 - m._p + (3 + m._p) * tp
  let v := v1 * v2 * v3;
  -dimf * (m._p + 1) / (4 * M_PI) * v

/-- `HypervirialModel::second_derivative_density`. -/
def second_derivative_density (m : HypervirialModel) (r : ℝ) : ℝ :=
  let dimf := m._Mtot / m._rs ^ 5
  let t := r / m._rs
  let tp := t ^ m._p
  let v1 := t ^ (m._p - 4)
  let v2 := (1 + tp) ^ (-4 - 1 / m._p)
  let p2 := m._p * m._p
  let v3 := (6 - 5 * m._p + p2) + (17 - 3 * m._p - 4 * p2) * tp
    + (12 + 7 * m._p + p2) * tp * tp
  let v := v1 * v2 * v3
  dimf * (m._p + 1) / (4 * M_PI) * v

/-- `HypervirialModel::mass`. -/
def mass (m : HypervirialModel) (r : ℝ) : ℝ :=
  let dimf := m._Mtot
  let t := r / m._rs
  let q := 1 + t ^ (-m._p)
  dimf / q ^ (1 + 1 / m._p)

/-- `HypervirialModel::total_mass`. -/
def total_mass (m : HypervirialModel) : ℝ := m._Mtot

end HypervirialModel

/-! ## SurfaceDensityModel.cpp -/

namespace SurfaceDensityModel

/-- `SurfaceDensityModel::total_mass`. -/
def total_mass (gl : GaussLegendre) (scale_radius : ℝ) (surface_density : ℝ → ℝ) : ℝ :=
  2 * M_PI * gl.integrate_0_infty (fun u => surface_density u * u) scale_radius

end SurfaceDensityModel

/-! ## SigmoidSurfaceDensityModel.cpp -/

/-- The data members of `class SigmoidSurfaceDensityModel`. -/
structure SigmoidSurfaceDensityModel where
  _Mtot : ℝ
  _Rb : ℝ
  _alpha : ℝ
  _beta : ℝ
  _gamma : ℝ
  _Sigmac : ℝ
  _gl : GaussLegendre

namespace SigmoidSurfaceDensityModel

/-- `SigmoidSurfaceDensityModel::scale_radius`. -/
def scale_radius (m : SigmoidSurfaceDensityModel) : ℝ := m._Rb

/-- `SigmoidSurfaceDensityModel::surface_density`. -/
def surface_density (m : SigmoidSurfaceDensityModel) (R : ℝ) : ℝ :=
  let t := R / m._Rb
  let l := m._alpha * Real.log t
  let l2 := l * l
  let s := Real.sqrt (1 + l2)
  let e := Real.exp (-(m._beta - m._gamma) / (2 * m._alpha) * s)
  let ff := m._Sigmac
  ff * e / t ^ (0.5 * (m._beta + m._gamma))

/-- `SigmoidSurfaceDensityModel::derivative_surface_density`. -/
def derivative_surface_density (m : SigmoidSurfaceDensityModel) (R : ℝ) : ℝ :=
  let t := R / m._Rb
  let l := m._alpha * Real.log t
  let l2 := l * l
  let s := Real.sqrt (1 + l2)
  let e := Real.exp (-(m._beta - m._gamma) / (2 * m._alpha) * s)
  let ff := -m._Sigmac / m._Rb
  let v := (m._beta - m._gamma) * l + (m._beta + m._gamma) * s
  ff * e / (2 * s) / t ^ ((m._beta + m._gamma + 2) / 2) * v

/-- `SigmoidSurfaceDensityModel::second_derivative_surface_density`. -/
def second_derivative_surface_density (m : SigmoidSurfaceDensityModel) (R : ℝ) : ℝ :=
  let t := R / m._Rb
  let l := m._alpha * Real.log t
  let l2 := l * l
  let s := Real.sqrt (1 + l2)
  let e := Real.exp (-(m._beta - m._gamma) / (2 * m._alpha) * s)
  let ff := m._Sigmac / (m._Rb * m._Rb)
  let v1 := 2 * m._alpha * (m._gamma - m._beta)
  let v2 := 2 * (m._beta - m._gamma) * (m._beta + m._gamma + 1) * l * (1 + l2)
  let v3 := (m._beta + m._gamma) * (m._beta + m._gamma + 2) * s
  let v4 := 2 * (m._beta * (m._beta + 1) + m._gamma * (m._gamma + 1)) * l2 * s
  let v := v1 + v2 + v3 + v4
  ff * e / (4 * s * s * s) / t ^ (0.5 * (m._beta + m._gamma) + 2) * v

/-- `SigmoidSurfaceDensityModel::third_derivative_surface_density`. -/
def third_derivative_surface_density (m : SigmoidSurfaceDensityModel) (R : ℝ) : ℝ :=
  let t := R / m._Rb
  let l := m._alpha * Real.log t
  let l2 := l * l
  let s := Real.sqrt (1 + l2)
  let e := Real.exp (-(m._beta - m._gamma) / (2 * m._alpha) * s)
  let ff := -m._Sigmac / (m._Rb * m._Rb * m._Rb)
  let v1 := (m._beta - m._gamma)
    * (16 + 7 * m._beta * m._beta + 2 * m._beta * (12 + 5 * m._gamma)
        + m._gamma * (24 + 7 * m._gamma)) * l ^ 3
  let v2 := 4 * (m._beta - m._gamma)
    * (m._beta * m._beta + (1 + m._gamma) * (2 + m._gamma) + m._beta * (3 + m._gamma)) * l ^ 5
  let v3 := 4 * (2 + m._beta + m._gamma)
    * (m._beta * (m._beta + 1) + m._gamma * (m._gamma + 1) - m._beta * m._gamma) * l ^ 4 * s
  let v4 := (2 + m._beta + m._gamma)
    * (6 * m._alpha * (m._gamma - m._beta)
        + (m._beta + m._gamma) * (4 + m._beta + m._gamma) * s)
  let v5 := (2 + m._beta + m._gamma) * l * l
    * (6 * m._alpha * (-m._beta + m._gamma)
        + (m._beta * (8 + 5 * m._beta) - 2 * (-4 + m._beta) * m._gamma
            + 5 * m._gamma * m._gamma) * s)
  let v6 := (m._beta - m._gamma) * l
    * (8 + 3 * m._beta * m._beta + 6 * m._beta * (2 + m._gamma) + 3 * m._gamma * (4 + m._gamma)
        - 6 * m._alpha * (2 * m._alpha + (m._beta - m._gamma) * s))
  let v := v1 + v2 + v3 + v4 + v5 + v6
  ff * e / (8 * s ^ 5) / t ^ (0.5 * (m._beta + m._gamma) + 3) * v

/-- `SigmoidSurfaceDensityModel::total_mass`, inherited from `SurfaceDensityModel`. -/
def total_mass (m : SigmoidSurfaceDensityModel) : ℝ :=
  SurfaceDensityModel.total_mass m._gl m.scale_radius m.surface_density

/-- The constructor `SigmoidSurfaceDensityModel::SigmoidSurfaceDensityModel`: the
prefactor is first set to one, then to `Mtot` over the total mass found with
prefactor one. -/
def new (Mtot Rb alpha beta gamma : ℝ) (gl : GaussLegendre) : SigmoidSurfaceDensityModel :=
  let m0 := SigmoidSurfaceDensityModel.mk Mtot Rb alpha beta gamma 1 gl
  SigmoidSurfaceDensityModel.mk Mtot Rb alpha beta gamma (Mtot / m0.total_mass) gl

end SigmoidSurfaceDensityModel

/-! ## Auxiliary functions for the sigmoid profiles

These functions do not occur in the source; they are proof devices. -/

/-- The quantity `l = alpha * log(R/Rb)` of the sigmoid formulas. -/
def sigmoidL (alpha Rb R : ℝ) : ℝ := alpha * Real.log (R / Rb)

/-- The quantity `s = sqrt(1 + l^2)` of the sigmoid formulas. -/
def sigmoidS (alpha Rb R : ℝ) : ℝ := Real.sqrt (1 + sigmoidL alpha Rb R * sigmoidL alpha Rb R)

/-- The factor `exp(-(beta-gamma)/(2 alpha) s)` of the sigmoid formulas. -/
def sigmoidE (alpha beta gamma Rb R : ℝ) : ℝ :=
  Real.exp (-(beta - gamma) / (2 * alpha) * sigmoidS alpha Rb R)

/-! ## BurkertModel.cpp -/

/-- The data members of `class BurkertModel`. -/
structure BurkertModel where
  _rhos : ℝ
  _rs : ℝ
  _gl : GaussLegendre

namespace BurkertModel

/-- The constructor `BurkertModel::BurkertModel`. -/
def new (rhos rs : ℝ) (gl : GaussLegendre) : BurkertModel :=
  BurkertModel.mk rhos rs gl

/-- `BurkertModel::scale_radius`: the source returns the member `_rhos`. -/
def scale_radius (m : BurkertModel) : ℝ := m._rhos

/-- `BurkertModel::density`. -/
def density (m : BurkertModel) (r : ℝ) : ℝ :=
  let dimf := m._rhos
  let t := r / m._rs
  let t2 := t * t
  let z := (1 + t) * (1 + t2)
  dimf / z

/-- `BurkertModel::derivative_density`. -/
def derivative_density (m : BurkertModel) (r : ℝ) : ℝ :=
  let dimf := m._rhos / m._rs
  let t := r / m._rs
  let t2 := t * t
  let z := (1 + t) * (1 + t2);
  -dimf * (1 + 2 * t + 3 * t2) / (z * z)

/-- `BurkertModel::second_derivative_density`. -/
def second_derivative_density (m : BurkertModel) (r : ℝ) : ℝ :=
  let dimf := m._rhos / (m._rs * m._rs)
  let t := r / m._rs
  let t2 := t * t
  let z := (1 + t) * (1 + t2)
  dimf * 4 * t2 * (3 + 4 * t + 3 * t2) / z ^ 3

/-- `BurkertModel::mass`. -/
def mass (m : BurkertModel) (r : ℝ) : ℝ :=
  let dimf := m._rhos * m._rs ^ 3
  let t := r / m._rs
  let t2 := t * t
  dimf * M_PI * (2 * Real.log (1 + t) + Real.log (1 + t2) - 2 * Real.arctan t)

/-- `BurkertModel::potential`. -/
def potential (m : BurkertModel) (r : ℝ) : ℝ :=
  let dimf := m._rhos * (m._rs * m._rs)
  let t := r / m._rs
  let t2 := t * t
  let u := (1 + t) / t
  let v := (1 - t) / t
  dimf * M_PI * (M_PI - 2 * u * Real.arctan t + 2 * u * Real.log (1 + t) + v * Real.log (1 + t2))

end BurkertModel

/-! ## Auxiliary function for the gamma model potential

This function does not occur in the source as a function; it is the local
variable `q` of `GammaModel::potential`, used as a proof device. -/

/-- The quantity `q = log(t/(1+t))`, `t = r/b`, of `GammaModel::potential`. -/
def gammaQ (b r : ℝ) : ℝ := Real.log (r / b / (1 + r / b))

/-! ## Model.cpp: the outcome of `potential_difference` -/

namespace Model

/-- `Model::potential_difference` with the outcome of its divisions made
explicit. The body has no test on the order of the radii and no exit; the only
way it can fail to return an ordinary number is a division by zero, in
`M/(r1*r1)` or in `M/pow(r1,3)`, which in floating point gives an infinity or a
NaN. That outcome is `none`; an ordinary number `x` is `some x`. -/
def potential_difference_value (m : Model) (r1 r2 : ℝ) : Option ℝ :=
  let eps := r2 - r1
  if eps > 1e-4 * m.scale_radius then some (m.potential r1 - m.potential r2)
  else
    let M := m.mass r1
    let rho := m.density r1
    if r1 * r1 = 0 ∨ r1 ^ 3 = 0 then none
    else some (M / (r1 * r1) * eps + (2 * M_PI * rho - M / r1 ^ 3) * eps * eps)

end Model

/-! ## Model.cpp: the Osipkov-Merritt distribution function -/

namespace Model

/-- The integrand of `Model::osipkov_merritt_distribution_function`: the lambda
`integrand`, with the captured `r` and `ra` as arguments. -/
def osipkov_merritt_distribution_function_integrand (m : Model) (r ra : ℝ) (u : ℝ) : ℝ :=
  let M := m.mass u
  let rho := m.density u
  let drho := m.derivative_density u
  let d2rho := m.second_derivative_density u
  let z := 1 + u * u / (ra * ra)
  let drhoQ := 2 * u / (ra * ra) * rho + z * drho
  let d2rhoQ := 2 * rho / (ra * ra) + 4 * u / (ra * ra) * drho + z * d2rho
  let DeltaQ := u * u / M * (d2rhoQ + drhoQ * (2 / u - 4 * M_PI * rho * u * u / M))
  DeltaQ / Real.sqrt |m.potential_difference r u|

/-- `Model::osipkov_merritt_distribution_function` (the base class implementation). -/
def osipkov_merritt_distribution_function (m : Model) (r ra : ℝ) : ℝ :=
  1 / (2 * M_SQRT2 * M_PI * M_PI)
    * m._gl.integrate_r_infty (m.osipkov_merritt_distribution_function_integrand r ra) r
        m.scale_radius

/-- The pseudo-density `rho_Q(u) = (1 + u^2/ra^2) rho(u)` of the documentation in
`Model.hpp`. -/
def pseudo_density (m : Model) (ra u : ℝ) : ℝ :=
  (1 + u ^ 2 / ra ^ 2) * m.density u

/-- The first derivative of the pseudo-density, expressed through `density` and
`derivative_density`. -/
def derivative_pseudo_density (m : Model) (ra u : ℝ) : ℝ :=
  2 * u / ra ^ 2 * m.density u + (1 + u ^ 2 / ra ^ 2) * m.derivative_density u

/-- The second derivative of the pseudo-density, expressed through `density`,
`derivative_density` and `second_derivative_density`. -/
def second_derivative_pseudo_density (m : Model) (ra u : ℝ) : ℝ :=
  2 * m.density u / ra ^ 2 + 4 * u / ra ^ 2 * m.derivative_density u
    + (1 + u ^ 2 / ra ^ 2) * m.second_derivative_density u

/-- The integrand as the documentation in `Model.hpp` writes it, for comparison
with the code: `Delta_Q(u) / sqrt(|Psi(r) - Psi(u)|)` with
`Delta_Q = u^2/M [rho_Q'' + rho_Q' (2/u - 4 pi rho_Q u^2/M)]`. -/
def osipkov_merritt_integrand_documented (m : Model) (r ra u : ℝ) : ℝ :=
  u ^ 2 / m.mass u
      * (m.second_derivative_pseudo_density ra u
          + m.derivative_pseudo_density ra u
            * (2 / u - 4 * Real.pi * m.pseudo_density ra u * u ^ 2 / m.mass u))
    / Real.sqrt |m.potential r - m.potential u|

end Model

/-! ## The table search of the Einasto and Sersic constructors -/

/-- The search loop shared by the constructors of `EinastoModel` and
`SersicModel`:
`for (j = 0; j < fuel; j++) { file >> nf >> df; if (fabs(x - nf) < 1e-9) { d = df; dset = true; break; } }`.
The file is the list of the pairs `(nf, df)` still to be read; `last` holds the
current content of the variables `nf`, `df`: `none` before the first successful
extraction, and unchanged by an extraction at the end of the file. The result
is `some df` when the loop leaves with `dset = true`, `none` otherwise. -/
def tableSearch (x : ℝ) : ℕ → List (ℝ × ℝ) → Option (ℝ × ℝ) → Option ℝ
  | 0, _, _ => none
  | j + 1, [], none => tableSearch x j [] none
  | j + 1, [], some e => if |x - e.1| < 1e-9 then some e.2 else tableSearch x j [] (some e)
  | j + 1, e :: rest, _ => if |x - e.1| < 1e-9 then some e.2 else tableSearch x j rest (some e)

/-! ## EinastoModel.cpp -/

/-- The data members of `class EinastoModel`. -/
structure EinastoModel where
  _Mtot : ℝ
  _rh : ℝ
  _n : ℝ
  _d : ℝ
  _rho0 : ℝ
  _gl : GaussLegendre

namespace EinastoModel

/-- The constructor `EinastoModel::EinastoModel`, with the content of the file
`Einastod.txt` as the argument `table`. The result `none` is the call
`exit(1)` after the message on `std::cerr`. -/
def new (table : List (ℝ × ℝ)) (Mtot rh n : ℝ) (gl : GaussLegendre) : Option EinastoModel :=
  match tableSearch n 14990 table none with
  | none => none
  | some d =>
    some (EinastoModel.mk Mtot rh n d
      (Mtot / rh ^ 3 * d ^ (3 * n) / (4 * M_PI * n * Real.Gamma (3 * n))) gl)

/-- `EinastoModel::scale_radius`. -/
def scale_radius (m : EinastoModel) : ℝ := m._rh

/-- `EinastoModel::total_mass`. -/
def total_mass (m : EinastoModel) : ℝ := m._Mtot

end EinastoModel

/-! ## SersicModel.cpp -/

/-- The data members of `class SersicModel`. -/
structure SersicModel where
  _Mtot : ℝ
  _Reff : ℝ
  _m : ℝ
  _b : ℝ
  _Sigma0 : ℝ
  _gl : GaussLegendre

namespace SersicModel

/-- The part of the constructor `SersicModel::SersicModel` that determines `_b`:
the search in the file `Sersicb.txt` (the argument `table`), and when the
index is not found the approximation for `m < 1` or the one for `m ≥ 1`. -/
def constant_b (table : List (ℝ × ℝ)) (m : ℝ) : ℝ :=
  match tableSearch m 9990 table none with
  | some bf => bf
  | none =>
    let m2 := m * m
    if m < 1 then
      (1 / Real.sqrt 2 - 0.45807 * m + 1.83247 * m2 - 1.2556 * m2 * m + 0.85239 * m2 * m2)
        ^ (1 / m)
    else
      2 * m - 1 / 3 + 4 / (405 * m) + 46 / (25515 * m2) + 131 / (1148175 * m * m2)
        - 2194697 / (30690717750 * m2 * m2)

/-- The constructor `SersicModel::SersicModel`, with the content of the file
`Sersicb.txt` as the argument `table`. -/
def new (table : List (ℝ × ℝ)) (Mtot Reff m : ℝ) (gl : GaussLegendre) : SersicModel :=
  SersicModel.mk Mtot Reff m (constant_b table m)
    (Mtot / (Reff * Reff) * constant_b table m ^ (2 * m)
      / (2 * M_PI * m * Real.Gamma (2 * m))) gl

/-- `SersicModel::scale_radius`. -/
def scale_radius (s : SersicModel) : ℝ := s._Reff

/-- `SersicModel::surface_density`. -/
def surface_density (s : SersicModel) (R : ℝ) : ℝ :=
  let t := R / s._Reff
  let z := t ^ (1 / s._m)
  s._Sigma0 * Real.exp (-s._b * z)

/-- `SersicModel::total_mass`. -/
def total_mass (s : SersicModel) : ℝ := s._Mtot

end SersicModel

/-! ## GaussLegendre: the choice of the number of nodes -/

/-- Modelled from the spec: the file `GaussLegendre.cpp` with the constructor
`GaussLegendre::GaussLegendre(int num)` is not part of the sources at hand. The
node counts of the stored rules are the powers of two from `8` to `512`. -/
def GaussLegendre.storedNodeCounts : List ℕ := [8, 16, 32, 64, 128, 256, 512]

/-- Modelled from the spec: the constructor `GaussLegendre::GaussLegendre(int num)`
is not part of the sources at hand. Given a requested integer `n`, the rule used
is the smallest stored power-of-two rule with `N ≥ n`, with floor `8` and
ceiling `512`; a request above `512` is an error (`none`). -/
def GaussLegendre.nodeCount (n : ℤ) : Option ℕ :=
  GaussLegendre.storedNodeCounts.find? (fun N => decide (n ≤ (N : ℤ)))

/-! ## DensityModel.cpp: the potential -/

namespace DensityModel

/-- `DensityModel::potential`; the virtual function `mass` it calls is the
argument `mass`. -/
def potential (gl : GaussLegendre) (scale_radius : ℝ) (density mass : ℝ → ℝ) (r : ℝ) : ℝ :=
  mass r / r + 4 * M_PI * gl.integrate_r_infty (fun u => density u * u) r scale_radius

end DensityModel

namespace ZhaoModel

/-- The `Model` view of a Zhao model: its own overrides, and the `DensityModel`
defaults for the mass, the potential and the surface density. -/
def toModel (m : ZhaoModel) : Model :=
  Model.mk m._gl m.scale_radius (m.total_mass : ℝ) m.density m.derivative_density
    m.second_derivative_density
    (DensityModel.mass m._gl m.scale_radius m.density)
    (DensityModel.potential m._gl m.scale_radius m.density
      (DensityModel.mass m._gl m.scale_radius m.density))
    (DensityModel.surface_density m._gl m.scale_radius m.density)
    (DensityModel.derivative_surface_density m._gl m.scale_radius m.density m.derivative_density)

end ZhaoModel

/-! ## SigmoidDensityModel.cpp -/

/-- The data members of `class SigmoidDensityModel`. -/
structure SigmoidDensityModel where
  _Mtot : ℝ
  _rb : ℝ
  _alpha : ℝ
  _beta : ℝ
  _gamma : ℝ
  _rhoc : ℝ
  _gl : GaussLegendre

namespace SigmoidDensityModel

/-- `SigmoidDensityModel::scale_radius`. -/
def scale_radius (m : SigmoidDensityModel) : ℝ := m._rb

/-- `SigmoidDensityModel::density`. -/
def density (m : SigmoidDensityModel) (r : ℝ) : ℝ :=
  let t := r / m._rb
  let l := m._alpha * Real.log t
  let l2 := l * l
  let s := Real.sqrt (1 + l2)
  let e := Real.exp (-(m._beta - m._gamma) / (2 * m._alpha) * s)
  let ff := m._rhoc
  ff * e / t ^ (0.5 * (m._beta + m._gamma))

/-- `SigmoidDensityModel::derivative_density`. -/
def derivative_density (m : SigmoidDensityModel) (r : ℝ) : ℝ :=
  let t := r / m._rb
  let l := m._alpha * Real.log t
  let l2 := l * l
  let s := Real.sqrt (1 + l2)
  let e := Real.exp (-(m._beta - m._gamma) / (2 * m._alpha) * s)
  let ff := -m._rhoc / m._rb
  let v := (m._beta - m._gamma) * l + (m._beta + m._gamma) * s
  ff * e / (2 * s) / t ^ ((m._beta + m._gamma + 2) / 2) * v

/-- `SigmoidDensityModel::second_derivative_density`. -/
def second_derivative_density (m : SigmoidDensityModel) (r : ℝ) : ℝ :=
  let t := r / m._rb
  let l := m._alpha * Real.log t
  let l2 := l * l
  let s := Real.sqrt (1 + l2)
  let e := Real.exp (-(m._beta - m._gamma) / (2 * m._alpha) * s)
  let ff := m._rhoc / (m._rb * m._rb)
  let v1 := 2 * m._alpha * (m._gamma - m._beta)
  let v2 := 2 * (m._beta - m._gamma) * (m._beta + m._gamma + 1) * l * (1 + l2)
  let v3 := (m._beta + m._gamma) * (m._beta + m._gamma + 2) * s
  let v4 := 2 * (m._beta * (m._beta + 1) + m._gamma * (m._gamma + 1)) * l2 * s
  let v := v1 + v2 + v3 + v4
  ff * e / (4 * s * s * s) / t ^ (0.5 * (m._beta + m._gamma) + 2) * v

/-- `SigmoidDensityModel::total_mass`, inherited from `DensityModel`. -/
def total_mass (m : SigmoidDensityModel) : ℝ :=
  DensityModel.total_mass m._gl m.scale_radius m.density

/-- The constructor `SigmoidDensityModel::SigmoidDensityModel`: the prefactor
`_rhoc` is first set to one, then to `Mtot` over the total mass found with
prefactor one. -/
def new (Mtot rb alpha beta gamma : ℝ) (gl : GaussLegendre) : SigmoidDensityModel :=
  let m0 := SigmoidDensityModel.mk Mtot rb alpha beta gamma 1 gl
  SigmoidDensityModel.mk Mtot rb alpha beta gamma (Mtot / m0.total_mass) gl

/-- The `Model` view of a sigmoid density model: its own overrides, and the
`DensityModel` defaults for the total mass, the mass, the potential and the
surface density. -/
def toModel (m : SigmoidDensityModel) : Model :=
  Model.mk m._gl m.scale_radius (m.total_mass : ℝ) m.density m.derivative_density
    m.second_derivative_density
    (DensityModel.mass m._gl m.scale_radius m.density)
    (DensityModel.potential m._gl m.scale_radius m.density
      (DensityModel.mass m._gl m.scale_radius m.density))
    (DensityModel.surface_density m._gl m.scale_radius m.density)
    (DensityModel.derivative_surface_density m._gl m.scale_radius m.density m.derivative_density)

end SigmoidDensityModel

/-! ## HernquistModel.cpp -/

/-- The data members of `class HernquistModel`. -/
structure HernquistModel where
  _Mtot : ℝ
  _b : ℝ
  _gl : GaussLegendre

namespace HernquistModel

/-- The constructor `HernquistModel::HernquistModel`. -/
def new (Mtot b : ℝ) (gl : GaussLegendre) : HernquistModel :=
  HernquistModel.mk Mtot b gl

/-- `HernquistModel::density`. -/
def density (h : HernquistModel) (r : ℝ) : ℝ :=
  let dimf := h._Mtot / h._b ^ 3
  let t := r / h._b
  let z := 1 + t
  dimf * (0.5 / M_PI) / (t * z * z * z)

/-- `HernquistModel::derivative_density`. -/
def derivative_density (h : HernquistModel) (r : ℝ) : ℝ :=
  let dimf := h._Mtot / h._b ^ 4
  let t := r / h._b
  let z := 1 + t;
  -dimf * (0.5 / M_PI) * (1 + 4 * t) / (t * t * z ^ 4)

/-- `HernquistModel::second_derivative_density`. -/
def second_derivative_density (h : HernquistModel) (r : ℝ) : ℝ :=
  let dimf := h._Mtot / h._b ^ 5
  let t := r / h._b
  let z := 1 + t
  dimf / M_PI * (1 + 5 * t + 10 * t * t) / (t * t * t * z ^ 5)

/-- `HernquistModel::mass`. -/
def mass (h : HernquistModel) (r : ℝ) : ℝ :=
  let dimf := h._Mtot
  let t := r / h._b
  let z := 1 + t
  dimf * (t / z) ^ 2

/-- `HernquistModel::potential`. -/
def potential (h : HernquistModel) (r : ℝ) : ℝ :=
  let dimf := h._Mtot / h._b
  let t := r / h._b
  dimf / (1 + t)

end HernquistModel

/-! ## JaffeModel.cpp -/

/-- The data members of `class JaffeModel`. -/
structure JaffeModel where
  _Mtot : ℝ
  _b : ℝ
  _gl : GaussLegendre

namespace JaffeModel

/-- The constructor `JaffeModel::JaffeModel`. -/
def new (Mtot b : ℝ) (gl : GaussLegendre) : JaffeModel :=
  JaffeModel.mk Mtot b gl

/-- `JaffeModel::density`. -/
def density (j : JaffeModel) (r : ℝ) : ℝ :=
  let dimf := j._Mtot / j._b ^ 3
  let t := r / j._b
  let z := 1 + t
  dimf / (4 * M_PI) / (t * t * z * z)

/-- `JaffeModel::derivative_density`. -/
def derivative_density (j : JaffeModel) (r : ℝ) : ℝ :=
  let dimf := j._Mtot / j._b ^ 4
  let t := r / j._b
  let z := 1 + t;
  -dimf / (2 * M_PI) * (1 + 2 * t) / (t * z) ^ 3

/-- `JaffeModel::second_derivative_density`. -/
def second_derivative_density (j : JaffeModel) (r : ℝ) : ℝ :=
  let dimf := j._Mtot / j._b ^ 5
  let t := r / j._b
  let z := 1 + t
  dimf / (2 * M_PI) * (3 + 10 * t + 10 * t * t) / (t * z) ^ 4

/-- `JaffeModel::mass`. -/
def mass (j : JaffeModel) (r : ℝ) : ℝ :=
  let dimf := j._Mtot
  let t := r / j._b
  dimf * t / (1 + t)

/-- `JaffeModel::potential`. -/
def potential (j : JaffeModel) (r : ℝ) : ℝ :=
  let dimf := j._Mtot / j._b
  let t := r / j._b
  dimf * Real.log (1 + 1 / t)

end JaffeModel

/-! ## SersicModel.cpp: the derivatives of the surface density -/

namespace SersicModel

/-- `SersicModel::derivative_surface_density`. -/
def derivative_surface_density (s : SersicModel) (R : ℝ) : ℝ :=
  let t := R / s._Reff
  let z := t ^ (1 / s._m)
  let ef := Real.exp (-s._b * z)
  let ff := -(s._Sigma0 * s._b) / (s._m * s._Reff)
  ff * ef * (z / t)

/-- `SersicModel::second_derivative_surface_density`. -/
def second_derivative_surface_density (s : SersicModel) (R : ℝ) : ℝ :=
  let t := R / s._Reff
  let z := t ^ (1 / s._m)
  let ef := Real.exp (-s._b * z)
  let ff := (s._Sigma0 * s._b) / (s._m * s._Reff) ^ 2
  ff * ef * (z / t / t) * (-1 + s._m + s._b * z)

/-- `SersicModel::third_derivative_surface_density`. -/
def third_derivative_surface_density (s : SersicModel) (R : ℝ) : ℝ :=
  let t := R / s._Reff
  let z := t ^ (1 / s._m)
  let ef := Real.exp (-s._b * z)
  let ff := -(s._Sigma0 * s._b) / (s._m * s._Reff) ^ 3
  ff * ef * (z / t / t / t)
    * (1 - 3 * s._m + 2 * s._m * s._m + 3 * s._b * (s._m - 1) * z + s._b * s._b * z * z)

end SersicModel

/-! ## DeVaucouleursModel.cpp -/

/-- The data members of `class DeVaucouleursModel`. -/
structure DeVaucouleursModel where
  _Mtot : ℝ
  _Reff : ℝ
  _b : ℝ
  _Sigmaff : ℝ
  _gl : GaussLegendre

namespace DeVaucouleursModel

/-- The constructor `DeVaucouleursModel::DeVaucouleursModel`. -/
def new (Mtot Reff : ℝ) (gl : GaussLegendre) : DeVaucouleursModel :=
  DeVaucouleursModel.mk Mtot Reff 7.669249442500804
    ((7.669249442500804 : ℝ) ^ (8 : ℝ) / (40320 * M_PI)) gl

/-- `DeVaucouleursModel::surface_density`. -/
def surface_density (d : DeVaucouleursModel) (R : ℝ) : ℝ :=
  let dimf := d._Mtot / d._Reff ^ 2
  let t := R / d._Reff
  let z := t ^ (0.25 : ℝ)
  dimf * d._Sigmaff * Real.exp (-d._b * z)

/-- `DeVaucouleursModel::derivative_surface_density`. -/
def derivative_surface_density (d : DeVaucouleursModel) (R : ℝ) : ℝ :=
  let dimf := d._Mtot / d._Reff ^ 3
  let t := R / d._Reff
  let z := t ^ (0.25 : ℝ)
  let v1 := Real.exp (-d._b * z)
  let v2 := d._b / 4 * (z / t);
  -dimf * d._Sigmaff * v1 * v2

/-- `DeVaucouleursModel::second_derivative_surface_density`. -/
def second_derivative_surface_density (d : DeVaucouleursModel) (R : ℝ) : ℝ :=
  let dimf := d._Mtot / d._Reff ^ 4
  let t := R / d._Reff
  let t2 := t * t
  let z := t ^ (0.25 : ℝ)
  let v1 := Real.exp (-d._b * z)
  let v2 := d._b * (3 + d._b * z) / 16 * (z / t2)
  dimf * d._Sigmaff * v1 * v2

/-- `DeVaucouleursModel::third_derivative_surface_density`. -/
def third_derivative_surface_density (d : DeVaucouleursModel) (R : ℝ) : ℝ :=
  let dimf := d._Mtot / d._Reff ^ 5
  let t := R / d._Reff
  let t3 := t * t * t
  let z := t ^ (0.25 : ℝ)
  let v1 := Real.exp (-d._b * z)
  let v2 := d._b * (21 + 9 * d._b * z + d._b * d._b * z * z) / 64 * (z / t3);
  -dimf * d._Sigmaff * v1 * v2

end DeVaucouleursModel

/-! ## SurfaceDensityModel.cpp: the mass and the potential -/

namespace SurfaceDensityModel

/-- `SurfaceDensityModel::mass`; the function `atan` is `Real.arctan`. -/
def mass (gl : GaussLegendre) (scale_radius : ℝ) (derivative_surface_density : ℝ → ℝ)
    (r : ℝ) : ℝ :=
  let integrand1 : ℝ → ℝ := fun u => derivative_surface_density u * u * u
  let ans1 := -M_PI * gl.integrate_0_r integrand1 r scale_radius
  let integrand2 : ℝ → ℝ := fun u =>
    let t := Real.sqrt ((u - r) * (u + r))
    derivative_surface_density u * (u * u * Real.arctan (r / t) - r * t)
  let ans2 := -2 * gl.integrate_r_infty integrand2 r scale_radius
  ans1 + ans2

/-- `SurfaceDensityModel::potential`. -/
def potential (gl : GaussLegendre) (scale_radius : ℝ) (derivative_surface_density : ℝ → ℝ)
    (r : ℝ) : ℝ :=
  let integrand1 : ℝ → ℝ := fun u => derivative_surface_density u * u * u
  let ans1 := -M_PI / r * gl.integrate_0_r integrand1 r scale_radius
  let integrand2 : ℝ → ℝ := fun u =>
    let t := Real.sqrt ((u - r) * (u + r))
    derivative_surface_density u * (u * u * Real.arctan (r / t) + r * t)
  let ans2 := -2 / r * gl.integrate_r_infty integrand2 r scale_radius
  ans1 + ans2

end SurfaceDensityModel

/-! ## Concrete models used in the examples -/

/-- The Plummer model of the concrete scenario: `PlummerModel(3.0, 7.0, gl)`. -/
def plummerScenario : PlummerModel := PlummerModel.new 3 7 GaussLegendre.onePoint

/-- The gamma model `GammaModel(1.0, 1.0, 1.0, gl)`. -/
def gammaUnit : GammaModel := GammaModel.new 1 1 1 GaussLegendre.onePoint

/-- The gamma model `GammaModel(16.0, 1.0, 1.0, gl)`. -/
def gammaSixteen : GammaModel := GammaModel.new 16 1 1 GaussLegendre.onePoint

/-- The broken power-law model `BPLModel(1.0, 1.0, 4.0, 1.0, gl)`: unit mass and
break radius, outer slope `4`, inner slope `1`. -/
def bplExample : BPLModel := BPLModel.new 1 1 4 1 GaussLegendre.onePoint

/-- The isochrone model `IsochroneModel(1.0, 1.0, gl)`. -/
def isochroneUnit : IsochroneModel := IsochroneModel.new 1 1 GaussLegendre.onePoint

/-- The Zhao model `ZhaoModel(1.0, 1.0, 1.0, 4.0, 1.0, gl)`. -/
def zhaoExample : ZhaoModel := ZhaoModel.new 1 1 1 4 1 GaussLegendre.onePoint

/-- The Nuker model `NukerModel(1.0, 1.0, 1.0, 3.0, 1.0, gl)`. -/
def nukerExample : NukerModel := NukerModel.new 1 1 1 3 1 GaussLegendre.onePoint

/-- The hypervirial model `HypervirialModel(1.0, 1.0, 1.0, gl)`. -/
def hypervirialExample : HypervirialModel := HypervirialModel.new 1 1 1 GaussLegendre.onePoint

/-- The sigmoid surface density model `SigmoidSurfaceDensityModel(1, 1, 1, 3, 1, gl)`. -/
def sigmoidSurfaceExample : SigmoidSurfaceDensityModel :=
  SigmoidSurfaceDensityModel.new 1 1 1 3 1 GaussLegendre.onePoint

/-- The Burkert model `BurkertModel(1.0, 1.0, gl)`. -/
def burkertUnit : BurkertModel := BurkertModel.new 1 1 GaussLegendre.onePoint

/-- The gamma model `GammaModel(1.0, 1.0, 2.0005, gl)`, whose slope lies within
`1e-3` of `2`. -/
def gammaNearTwo : GammaModel := GammaModel.new 1 1 2.0005 GaussLegendre.onePoint

/-- The gamma model `GammaModel(1.0, 1.0, 2.0, gl)`. -/
def gammaTwo : GammaModel := GammaModel.new 1 1 2 GaussLegendre.onePoint

/-- The broken power-law model `BPLModel(1.0, 1.0, 3.000001, 1.0, gl)`, whose outer
slope lies within `1e-5` of `3`. -/
def bplNearThree : BPLModel := BPLModel.new 1 1 3.000001 1 GaussLegendre.onePoint

/-- The Plummer model `PlummerModel(1.0, 1.0, gl)`. -/
def plummerUnit : PlummerModel := PlummerModel.new 1 1 GaussLegendre.onePoint

/-- The Burkert model `BurkertModel(2.0, 3.0, gl)`. -/
def burkertTwoThree : BurkertModel := BurkertModel.new 2 3 GaussLegendre.onePoint

/-- A short table for `SersicModel`. -/
def sersicShortTable : List (ℝ × ℝ) := [(1, 1.678), (4, 7.669)]

/-- The sigmoid density model with prefactor one, `rb = 1`, `alpha = 1`,
`beta = 4`, `gamma = 1`. -/
def sigmoidDensityExample : SigmoidDensityModel :=
  SigmoidDensityModel.mk 1 1 1 4 1 1 GaussLegendre.onePoint

/-- A one-line table for `SersicModel`: the index `4` with the constant of the
de Vaucouleurs model. -/
def sersicFourTable : List (ℝ × ℝ) := [(4, 7.669249442500804)]

/-! ## Theorems -/

/-- C1: `Model::potential_difference(r1, r2)` is `potential(r1) - potential(r2)`
when `r2 - r1 > 1e-4 * scale_radius()`, and otherwise the second-order Taylor
expression `M(r1)/r1^2 * eps + (2 pi rho(r1) - M(r1)/r1^3) * eps^2` with
`eps = r2 - r1`. -/
theorem potential_difference_branches (m : Model) (r1 r2 : ℝ) :
    (r2 - r1 > 1e-4 * m.scale_radius →
      m.potential_difference r1 r2 = m.potential r1 - m.potential r2) ∧
    (¬ (r2 - r1 > 1e-4 * m.scale_radius) →
      m.potential_difference r1 r2 =
        m.mass r1 / r1 ^ 2 * (r2 - r1)
          + (2 * Real.pi * m.density r1 - m.mass r1 / r1 ^ 3) * (r2 - r1) ^ 2) := by
  constructor
  · intro h
    dsimp only [Model.potential_difference]
    rw [if_pos h]
  · intro h
    dsimp only [Model.potential_difference]
    rw [if_neg h]
    dsimp only [M_PI]
    ring

/-- Both branches of C1 on the Plummer scenario: radii `7` and `8` are far
apart, radii `7` and `7` are not. -/
theorem potential_difference_branches_witness :
    ((8 : ℝ) - 7 > 1e-4 * plummerScenario.toModel.scale_radius ∧
      plummerScenario.toModel.potential_difference 7 8 =
        plummerScenario.toModel.potential 7 - plummerScenario.toModel.potential 8) ∧
    (¬ ((7 : ℝ) - 7 > 1e-4 * plummerScenario.toModel.scale_radius) ∧
      plummerScenario.toModel.potential_difference 7 7 =
        plummerScenario.toModel.mass 7 / 7 ^ 2 * (7 - 7)
          + (2 * Real.pi * plummerScenario.toModel.density 7
              - plummerScenario.toModel.mass 7 / 7 ^ 3) * (7 - 7) ^ 2) := by
  have h1 : (8 : ℝ) - 7 > 1e-4 * plummerScenario.toModel.scale_radius := by
    dsimp only [plummerScenario, PlummerModel.toModel, PlummerModel.new, PlummerModel.scale_radius]
    norm_num
  have h2 : ¬ ((7 : ℝ) - 7 > 1e-4 * plummerScenario.toModel.scale_radius) := by
    dsimp only [plummerScenario, PlummerModel.toModel, PlummerModel.new, PlummerModel.scale_radius]
    norm_num
  exact ⟨⟨h1, (potential_difference_branches plummerScenario.toModel 7 8).1 h1⟩,
    ⟨h2, (potential_difference_branches plummerScenario.toModel 7 7).2 h2⟩⟩

/-- C2: for a `GammaModel` with `b > 0`, the mass inside the scale radius is
`Mtot * (1/2)^(3 - gamma)`. -/
theorem gamma_mass_at_scale_radius (Mtot b gamma : ℝ) (gl : GaussLegendre) (hb : 0 < b) :
    (GammaModel.new Mtot b gamma gl).mass (GammaModel.new Mtot b gamma gl).scale_radius
      = Mtot * (1 / 2 : ℝ) ^ (3 - gamma) := by
  dsimp only [GammaModel.mass, GammaModel.new, GammaModel.scale_radius]
  rw [div_self hb.ne']
  norm_num

/-- C2 at `Mtot = 1`, `b = 1`, `gamma = 1`: the mass inside radius `1` is `0.25`. -/
theorem gamma_mass_at_scale_radius_witness :
    (0 : ℝ) < 1 ∧ gammaUnit.mass gammaUnit.scale_radius = 0.25 := by
  refine ⟨one_pos, ?_⟩
  have h := gamma_mass_at_scale_radius 1 1 1 GaussLegendre.onePoint one_pos
  dsimp only [gammaUnit]
  rw [h]
  have e : (3 : ℝ) - 1 = ((2 : ℕ) : ℝ) := by norm_num
  rw [e, Real.rpow_natCast]
  norm_num

/-- C3: `NFWModel::total_mass()` is `+∞` for every choice of the constructor
parameters. -/
theorem nfw_total_mass_infinite (Mvir rs c : ℝ) (gl : GaussLegendre) :
    (NFWModel.new Mvir rs c gl).total_mass = ⊤ := rfl

/-- Decimal bounds on the square root of two. -/
theorem sqrt_two_bounds : (1.41421 : ℝ) < Real.sqrt 2 ∧ Real.sqrt 2 < (1.41422 : ℝ) := by
  constructor
  · rw [Real.lt_sqrt (by norm_num)]
    norm_num
  · rw [Real.sqrt_lt' (by norm_num)]
    norm_num

set_option maxHeartbeats 1600000 in
/-- C4: for a `PlummerModel` with `c > 0`, the density at the scale length is
`3 Mtot / (4 pi c^3) / 2^(5/2)`. -/
theorem plummer_density_at_scale_length (Mtot c : ℝ) (gl : GaussLegendre) (hc : 0 < c) :
    (PlummerModel.new Mtot c gl).density c
      = 3 * Mtot / (4 * Real.pi * c ^ 3) / (2 : ℝ) ^ ((5 : ℝ) / 2) := by
  -- The fifth power of the square root of two is `2^(5/2)`.
  have sqrt_two_pow_five :
      Real.sqrt 2 ^ 5 = (2 : ℝ) ^ ((5 : ℝ) / 2) := by
    rw [Real.sqrt_eq_rpow, ← Real.rpow_natCast, ← Real.rpow_mul (by norm_num)]
    norm_num
  dsimp only [PlummerModel.density, PlummerModel.new, M_PI]
  rw [div_self hc.ne']
  have h2 : (1 : ℝ) + 1 * 1 = 2 := by norm_num
  rw [h2, sqrt_two_pow_five]
  have hpi := Real.pi_pos
  have hp : (0 : ℝ) < (2 : ℝ) ^ ((5 : ℝ) / 2) := Real.rpow_pos_of_pos (by norm_num) _
  field_simp
  ring

/-- C4 on the Plummer scenario `Mtot = 3`, `c = 7`: the density at `7` is
`3/(4 pi 343) * 3 / 2^2.5`. -/
theorem plummer_density_at_scale_length_witness :
    (0 : ℝ) < 7 ∧
      plummerScenario.density 7 = 3 / (4 * Real.pi * 343) * 3 / (2 : ℝ) ^ (2.5 : ℝ) := by
  refine ⟨by norm_num, ?_⟩
  have h := plummer_density_at_scale_length 3 7 GaussLegendre.onePoint (by norm_num)
  dsimp only [plummerScenario]
  rw [h]
  have e : (2.5 : ℝ) = (5 : ℝ) / 2 := by norm_num
  rw [e]
  have hpi := Real.pi_pos
  have hp : (0 : ℝ) < (2 : ℝ) ^ ((5 : ℝ) / 2) := Real.rpow_pos_of_pos (by norm_num) _
  field_simp
  ring

/-- C5: for a `PlummerModel` with `c > 0`, the mass inside the scale length is
`Mtot * (1/sqrt 2)^3`. -/
theorem plummer_mass_at_scale_length (Mtot c : ℝ) (gl : GaussLegendre) (hc : 0 < c) :
    (PlummerModel.new Mtot c gl).mass c = Mtot * (1 / Real.sqrt 2) ^ 3 := by
  dsimp only [PlummerModel.mass, PlummerModel.new]
  rw [div_self hc.ne']
  norm_num

/-- C5 on the Plummer scenario `Mtot = 3`, `c = 7`: the mass inside `7` is
`3 (1/sqrt 2)^3`, which lies in `[1.06065, 1.06075]`. -/
theorem plummer_mass_at_scale_length_witness :
    (0 : ℝ) < 7 ∧ plummerScenario.mass 7 = 3 * (1 / Real.sqrt 2) ^ 3 ∧
      (1.06065 : ℝ) ≤ plummerScenario.mass 7 ∧ plummerScenario.mass 7 ≤ (1.06075 : ℝ) := by
  have h : plummerScenario.mass 7 = 3 * (1 / Real.sqrt 2) ^ 3 :=
    plummer_mass_at_scale_length 3 7 GaussLegendre.onePoint (by norm_num)
  obtain ⟨hlo, hhi⟩ := sqrt_two_bounds
  have hs : Real.sqrt 2 ^ 2 = 2 := Real.sq_sqrt (by norm_num)
  have hpos : (0 : ℝ) < Real.sqrt 2 := by linarith
  have hval : plummerScenario.mass 7 = 3 * Real.sqrt 2 / 4 := by
    rw [h]
    field_simp
    nlinarith [hs]
  refine ⟨by norm_num, h, ?_, ?_⟩
  · rw [hval]
    linarith
  · rw [hval]
    linarith

set_option maxHeartbeats 1600000 in
/-- Decimal bounds on the density of the Plummer scenario at `r = 7`. -/
theorem plummerScenario_density_bounds :
    (3.6905e-4 : ℝ) ≤ plummerScenario.density 7 ∧ plummerScenario.density 7 ≤ (3.6915e-4 : ℝ) := by
  -- The fifth power of the square root of two is four times the square root of two.
  have sqrt_two_pow_five_eq :
      Real.sqrt 2 ^ 5 = 4 * Real.sqrt 2 := by
    have h : Real.sqrt 2 ^ 2 = 2 := Real.sq_sqrt (by norm_num)
    calc Real.sqrt 2 ^ 5 = (Real.sqrt 2 ^ 2) ^ 2 * Real.sqrt 2 := by ring
      _ = 4 * Real.sqrt 2 := by rw [h]; norm_num
  -- The density of the Plummer scenario at `r = 7` in closed form.
  have plummerScenario_density_closed :
      plummerScenario.density 7 = 9 / (5488 * (Real.pi * Real.sqrt 2)) := by
    dsimp only [plummerScenario, PlummerModel.density, PlummerModel.new, M_PI]
    have h1 : (7 : ℝ) / 7 = 1 := by norm_num
    have h2 : (1 : ℝ) + 1 * 1 = 2 := by norm_num
    rw [h1, h2, sqrt_two_pow_five_eq]
    have hpi := Real.pi_pos
    have hs : (0 : ℝ) < Real.sqrt 2 := Real.sqrt_pos.mpr (by norm_num)
    field_simp
    ring
  obtain ⟨hlo, hhi⟩ := sqrt_two_bounds
  have hpl := Real.pi_gt_d6
  have hph := Real.pi_lt_d6
  have hpi := Real.pi_pos
  have hs : (0 : ℝ) < Real.sqrt 2 := by linarith
  have hP_lo : (4.4428 : ℝ) < Real.pi * Real.sqrt 2 := by nlinarith
  have hP_hi : Real.pi * Real.sqrt 2 < (4.4430 : ℝ) := by nlinarith
  have hpos : (0 : ℝ) < 5488 * (Real.pi * Real.sqrt 2) := by positivity
  rw [plummerScenario_density_closed]
  constructor
  · rw [le_div_iff₀ hpos]
    nlinarith
  · rw [div_le_iff₀ hpos]
    nlinarith

/-- C6 (as amended): for `PlummerModel(3.0, 7.0)` the density at `r = 7` is
about `3.691e-4`: it lies in `[3.6905e-4, 3.6915e-4]`. -/
theorem plummer_scenario_density_value :
    (3.6905e-4 : ℝ) ≤ plummerScenario.density 7 ∧ plummerScenario.density 7 ≤ (3.6915e-4 : ℝ) :=
  plummerScenario_density_bounds

/-- C6 as stated fails: for `PlummerModel(3.0, 7.0)` the density at `r = 7` does
not lie in `[1.9785e-4, 1.9795e-4]`. -/
theorem plummer_scenario_density_not_1979 :
    ¬ ((1.9785e-4 : ℝ) ≤ plummerScenario.density 7 ∧
        plummerScenario.density 7 ≤ (1.9795e-4 : ℝ)) := by
  rintro ⟨_, h⟩
  have h1 := plummerScenario_density_bounds.1
  norm_num at h h1
  linarith

/-- C7 at a failing input: for `GammaModel(16, 1, 1)` the mass inside `r = 1` is
`4`, `Model::circular_velocity(1)` returns `4 = mass(1)/1`, whereas the
documented circular velocity `sqrt(mass(1)/1)` is `2`. -/
theorem circular_velocity_omits_sqrt :
    gammaSixteen.toModel.circular_velocity 1 = 4 ∧
      Real.sqrt (gammaSixteen.toModel.mass 1 / 1) = 2 ∧
      gammaSixteen.toModel.circular_velocity 1
        ≠ Real.sqrt (gammaSixteen.toModel.mass 1 / 1) := by
  have hm : gammaSixteen.toModel.mass 1 = 4 := by
    dsimp only [gammaSixteen, GammaModel.toModel, GammaModel.mass, GammaModel.new]
    have e : (3 : ℝ) - 1 = ((2 : ℕ) : ℝ) := by norm_num
    rw [e, Real.rpow_natCast]
    norm_num
  have hc : gammaSixteen.toModel.circular_velocity 1 = 4 := by
    dsimp only [Model.circular_velocity]
    rw [hm]
    norm_num
  have hs : Real.sqrt (gammaSixteen.toModel.mass 1 / 1) = 2 := by
    rw [hm, div_one]
    have e : (4 : ℝ) = 2 ^ 2 := by norm_num
    rw [e, Real.sqrt_sq (by norm_num)]
  refine ⟨hc, hs, ?_⟩
  rw [hc, hs]
  norm_num

/-- C8: for `r ≥ 0` and anisotropy radius `ra > 0`, the Osipkov-Merritt
tangential dispersion is `ra^2/(r^2 + ra^2)` times the radial dispersion. -/
theorem osipkov_merritt_tangential_eq (m : Model) (r ra : ℝ) (hr : 0 ≤ r) (hra : 0 < ra) :
    m.osipkov_merritt_tangential_dispersion r ra
      = ra ^ 2 / (r ^ 2 + ra ^ 2) * m.osipkov_merritt_radial_dispersion r ra := by
  dsimp only [Model.osipkov_merritt_tangential_dispersion]
  have h1 : r ^ 2 + ra ^ 2 ≠ 0 := by positivity
  have h2 : ra * ra ≠ 0 := by positivity
  have h3 : (1 : ℝ) + r * r / (ra * ra) ≠ 0 := by
    have : 0 ≤ r * r / (ra * ra) := by positivity
    linarith
  congr 1
  field_simp
  ring

/-- C8 on the Plummer scenario at `r = 7`, `ra = 2`. -/
theorem osipkov_merritt_tangential_eq_witness :
    (0 : ℝ) ≤ 7 ∧ (0 : ℝ) < 2 ∧
      plummerScenario.toModel.osipkov_merritt_tangential_dispersion 7 2
        = 2 ^ 2 / (7 ^ 2 + 2 ^ 2)
          * plummerScenario.toModel.osipkov_merritt_radial_dispersion 7 2 :=
  ⟨by norm_num, by norm_num,
    osipkov_merritt_tangential_eq plummerScenario.toModel 7 2 (by norm_num) (by norm_num)⟩

/-- The density prefactor of a broken power-law model with `gamma < 3 < beta`
does not vanish. -/
theorem bpl_rhoff_ne_zero (beta gamma : ℝ) (hg : gamma < 3) (hb : 3 < beta) :
    (beta - 3) * (3 - gamma) / (beta - gamma) / (4 * M_PI) ≠ 0 := by
  have h1 : beta - 3 ≠ 0 := by linarith
  have h2 : 3 - gamma ≠ 0 := by linarith
  have h3 : beta - gamma ≠ 0 := by linarith
  have h4 : (4 : ℝ) * M_PI ≠ 0 := by
    dsimp only [M_PI]
    positivity
  exact div_ne_zero (div_ne_zero (mul_ne_zero h1 h2) h3) h4

set_option maxHeartbeats 1600000 in
/-- C9: for a `BPLModel` with `Mtot > 0`, `rb > 0`, `gamma < 3 < beta`, the
isotropic distribution function is the generic Eddington value for `r > rb`, and
that value plus `J / sqrt(potential_difference(r, rb))` for `r ≤ rb`, where
`J = -(beta-gamma)(3-gamma)/(8 sqrt2 pi^3 rb^2)` equals
`1/(2 sqrt2 pi^2) * rb^2/mass(rb)` times the jump of `derivative_density`
across the break (right limit minus left limit). -/
theorem bpl_isotropic_distribution_function_jump (Mtot rb beta gamma : ℝ) (gl : GaussLegendre)
    (hM : 0 < Mtot) (hrb : 0 < rb) (hg : gamma < 3) (hb : 3 < beta) :
    (∀ r : ℝ, rb < r →
      (BPLModel.new Mtot rb beta gamma gl).isotropic_distribution_function r
        = (BPLModel.new Mtot rb beta gamma gl).toModel.isotropic_distribution_function r) ∧
    (∀ r : ℝ, r ≤ rb →
      (BPLModel.new Mtot rb beta gamma gl).isotropic_distribution_function r
        = (BPLModel.new Mtot rb beta gamma gl).toModel.isotropic_distribution_function r
          + (-(beta - gamma) * (3 - gamma) / (8 * Real.sqrt 2 * Real.pi ^ 3 * rb ^ 2))
            / Real.sqrt ((BPLModel.new Mtot rb beta gamma gl).toModel.potential_difference r rb)) ∧
    (∃ Lp Lm : ℝ,
      Filter.Tendsto (BPLModel.new Mtot rb beta gamma gl).derivative_density
        (nhdsWithin rb (Set.Ioi rb)) (nhds Lp) ∧
      Filter.Tendsto (BPLModel.new Mtot rb beta gamma gl).derivative_density
        (nhdsWithin rb (Set.Iio rb)) (nhds Lm) ∧
      -(beta - gamma) * (3 - gamma) / (8 * Real.sqrt 2 * Real.pi ^ 3 * rb ^ 2)
        = 1 / (2 * Real.sqrt 2 * Real.pi ^ 2)
          * (rb ^ 2 / (BPLModel.new Mtot rb beta gamma gl).mass rb) * (Lp - Lm)) := by
  -- A single power law `A * eta * (r/rb)^(-eta-1)` tends to `A * eta` at the
  -- break radius.
  have power_law_tendsto_at_break : ∀ (A eta rb : ℝ) (hrb : 0 < rb),
      Filter.Tendsto (fun r : ℝ => A * eta * (r / rb) ^ (-eta - 1)) (nhds rb)
      (nhds (A * eta)) := by
    intro A eta rb hrb
    have hc : ContinuousAt (fun r : ℝ => A * eta * (r / rb) ^ (-eta - 1)) rb := by
      apply ContinuousAt.mul continuousAt_const
      apply ContinuousAt.rpow_const
      · exact (continuous_id.div_const rb).continuousAt
      · left
        rw [div_self hrb.ne']
        exact one_ne_zero
    have ht := hc.tendsto
    simp only [div_self hrb.ne', Real.one_rpow, mul_one] at ht
    exact ht
  have hpi := Real.pi_pos
  have hs2 : (0 : ℝ) < Real.sqrt 2 := Real.sqrt_pos.mpr (by norm_num)
  have hpi0 : Real.pi ≠ 0 := hpi.ne'
  have hs0 : Real.sqrt 2 ≠ 0 := hs2.ne'
  have hrb0 : rb ≠ 0 := hrb.ne'
  have hM0 : Mtot ≠ 0 := hM.ne'
  refine ⟨?_, ?_, ?_⟩
  · intro r hr
    dsimp only [BPLModel.isotropic_distribution_function, BPLModel.new]
    rw [if_neg (not_le.mpr hr)]
  · intro r hr
    have hJ : -1 / (rb * rb) * (beta - gamma) * (3 - gamma)
          / (8 * Real.sqrt 2 * Real.pi * Real.pi * Real.pi)
        = -(beta - gamma) * (3 - gamma) / (8 * Real.sqrt 2 * Real.pi ^ 3 * rb ^ 2) := by
      rw [div_mul_eq_mul_div, div_mul_eq_mul_div, div_div,
        div_eq_div_iff (by positivity) (by positivity)]
      ring
    dsimp only [BPLModel.isotropic_distribution_function]
    have hr' : r ≤ (BPLModel.new Mtot rb beta gamma gl)._rb := hr
    rw [if_pos hr']
    dsimp only [BPLModel.new, M_SQRT2, M_PI]
    rw [hJ]
  · have hff := bpl_rhoff_ne_zero beta gamma hg hb
    generalize hF : (beta - 3) * (3 - gamma) / (beta - gamma) / (4 * M_PI) = F at hff
    refine ⟨-(Mtot / rb ^ 4) * F * beta, -(Mtot / rb ^ 4) * F * gamma, ?_, ?_, ?_⟩
    · have ht := (power_law_tendsto_at_break (-(Mtot / rb ^ 4) * F) beta rb hrb).mono_left
        (nhdsWithin_le_nhds (s := Set.Ioi rb))
      refine ht.congr' ?_
      refine eventually_nhdsWithin_of_forall ?_
      intro r hr
      have h1 : ¬ (r / rb ≤ 1) := by
        rw [not_le, lt_div_iff₀ hrb]
        simpa using hr
      dsimp only [BPLModel.derivative_density, BPLModel.new]
      simp only [hF]
      rw [if_neg h1]
    · have ht := (power_law_tendsto_at_break (-(Mtot / rb ^ 4) * F) gamma rb hrb).mono_left
        (nhdsWithin_le_nhds (s := Set.Iio rb))
      refine ht.congr' ?_
      refine eventually_nhdsWithin_of_forall ?_
      intro r hr
      have h1 : r / rb ≤ 1 := by
        rw [div_le_iff₀ hrb]
        have : r < rb := hr
        linarith
      dsimp only [BPLModel.derivative_density, BPLModel.new]
      simp only [hF]
      rw [if_pos h1]
    · dsimp only [BPLModel.mass, BPLModel.new]
      simp only [hF]
      dsimp only [M_PI]
      rw [div_self hrb.ne', if_pos le_rfl, Real.one_rpow]
      have h3 : (3 : ℝ) - gamma ≠ 0 := by linarith
      field_simp
      ring

/-- C9 on the broken power-law model with `Mtot = 1`, `rb = 1`, `beta = 4`,
`gamma = 1`. -/
theorem bpl_isotropic_distribution_function_jump_witness :
    (0 : ℝ) < 1 ∧ (0 : ℝ) < 1 ∧ (1 : ℝ) < 3 ∧ (3 : ℝ) < 4 ∧
    ((∀ r : ℝ, 1 < r →
      bplExample.isotropic_distribution_function r
        = bplExample.toModel.isotropic_distribution_function r) ∧
    (∀ r : ℝ, r ≤ 1 →
      bplExample.isotropic_distribution_function r
        = bplExample.toModel.isotropic_distribution_function r
          + (-((4 : ℝ) - 1) * (3 - 1) / (8 * Real.sqrt 2 * Real.pi ^ 3 * 1 ^ 2))
            / Real.sqrt (bplExample.toModel.potential_difference r 1)) ∧
    (∃ Lp Lm : ℝ,
      Filter.Tendsto bplExample.derivative_density (nhdsWithin 1 (Set.Ioi 1)) (nhds Lp) ∧
      Filter.Tendsto bplExample.derivative_density (nhdsWithin 1 (Set.Iio 1)) (nhds Lm) ∧
      -((4 : ℝ) - 1) * (3 - 1) / (8 * Real.sqrt 2 * Real.pi ^ 3 * 1 ^ 2)
        = 1 / (2 * Real.sqrt 2 * Real.pi ^ 2)
          * (1 ^ 2 / bplExample.mass 1) * (Lp - Lm))) :=
  ⟨by norm_num, by norm_num, by norm_num, by norm_num,
    bpl_isotropic_distribution_function_jump 1 1 4 1 GaussLegendre.onePoint
      (by norm_num) (by norm_num) (by norm_num) (by norm_num)⟩

/-- The square of `isochroneU`. -/
theorem isochroneU_sq (b r : ℝ) : isochroneU b r ^ 2 = 1 + r / b * (r / b) :=
  Real.sq_sqrt (by nlinarith [mul_self_nonneg (r / b)])

/-- `isochroneU` is positive. -/
theorem isochroneU_pos (b r : ℝ) : 0 < isochroneU b r :=
  Real.sqrt_pos.mpr (by nlinarith [mul_self_nonneg (r / b)])

/-- The derivative of `isochroneU`. -/
theorem isochroneU_hasDerivAt (b r : ℝ) (hb : b ≠ 0) :
    HasDerivAt (isochroneU b) (r / b / (b * isochroneU b r)) r := by
  have h1 : HasDerivAt (fun x : ℝ => 1 + x / b * (x / b))
      (1 / b * (r / b) + r / b * (1 / b)) r := by
    have hx : HasDerivAt (fun x : ℝ => x / b) (1 / b) r := (hasDerivAt_id r).div_const b
    exact (hx.mul hx).const_add 1
  have h2 : HasDerivAt (isochroneU b)
      ((1 / b * (r / b) + r / b * (1 / b)) / (2 * isochroneU b r)) r :=
    h1.sqrt (by nlinarith [mul_self_nonneg (r / b)])
  have hpos := isochroneU_pos b r
  refine h2.congr_deriv ?_
  generalize isochroneU b r = u at hpos
  field_simp
  ring

set_option maxHeartbeats 1600000 in
/-- C10: for an `IsochroneModel` with `b > 0` and every `r > 0`, the closed-form
mass is the volume integral of the density,
`mass(r) = 4 pi ∫_0^r density(u) u^2 du`; equivalently the derivative of `mass`
at `r` is `4 pi r^2 density(r)` and `mass` tends to `0` at `0+`. -/
theorem isochrone_mass_is_volume_integral (Mtot b : ℝ) (gl : GaussLegendre) (hb : 0 < b)
    (r : ℝ) (hr : 0 < r) :
    (IsochroneModel.new Mtot b gl).mass r
        = 4 * Real.pi * ∫ u in (0 : ℝ)..r, (IsochroneModel.new Mtot b gl).density u * u ^ 2 ∧
      HasDerivAt (IsochroneModel.new Mtot b gl).mass
        (4 * Real.pi * r ^ 2 * (IsochroneModel.new Mtot b gl).density r) r ∧
      Filter.Tendsto (IsochroneModel.new Mtot b gl).mass (nhdsWithin 0 (Set.Ioi 0)) (nhds 0) := by
  -- `isochroneU` is continuous.
  have isochroneU_continuous : ∀ (b : ℝ),
      Continuous (isochroneU b) := by
    intro b
    unfold isochroneU
    fun_prop
  -- The derivative of `isochronePrimitive` is `(Mtot/b) t^2 (1+2u) / (u^3 (1+u)^2)`.
  have isochronePrimitive_hasDerivAt : ∀ (Mtot b r : ℝ) (hb : b ≠ 0),
      HasDerivAt (isochronePrimitive Mtot b)
      (Mtot / b * (r / b) ^ 2 * (1 + 2 * isochroneU b r)
      / (isochroneU b r ^ 3 * (1 + isochroneU b r) ^ 2)) r := by
    intro Mtot b r hb
    have hu := isochroneU_hasDerivAt b r hb
    have hpos := isochroneU_pos b r
    have hu2 := isochroneU_sq b r
    have hx : HasDerivAt (fun x : ℝ => x / b) (1 / b) r := (hasDerivAt_id r).div_const b
    have h1 : HasDerivAt (fun x : ℝ => 2 / (1 + isochroneU b x))
        (-(2 * (r / b / (b * isochroneU b r))) / (1 + isochroneU b r) ^ 2) r := by
      have := (hasDerivAt_const r (2 : ℝ)).div (hu.const_add 1) (by positivity)
      convert this using 1
      ring
    have h2 : HasDerivAt (fun x : ℝ => 1 / isochroneU b x)
        (-(r / b / (b * isochroneU b r)) / isochroneU b r ^ 2) r := by
      have := (hasDerivAt_const r (1 : ℝ)).div hu hpos.ne'
      convert this using 1
      ring
    have h3 := (hx.mul (h1.sub h2)).const_mul Mtot
    have key : Mtot * (1 / b * (2 / (1 + isochroneU b r) - 1 / isochroneU b r)
          + r / b * (-(2 * (r / b / (b * isochroneU b r))) / (1 + isochroneU b r) ^ 2
              - -(r / b / (b * isochroneU b r)) / isochroneU b r ^ 2))
        - Mtot / b * (r / b) ^ 2 * (1 + 2 * isochroneU b r)
            / (isochroneU b r ^ 3 * (1 + isochroneU b r) ^ 2)
        = Mtot / b * (isochroneU b r ^ 2 - (1 + r / b * (r / b)))
            / (isochroneU b r * (1 + isochroneU b r) ^ 2) := by
      field_simp
      ring
    have hz : Mtot / b * (isochroneU b r ^ 2 - (1 + r / b * (r / b)))
        / (isochroneU b r * (1 + isochroneU b r) ^ 2) = 0 := by
      rw [hu2, sub_self, mul_zero, zero_div]
    have e := sub_eq_zero.mp (key.trans hz)
    rw [← e]
    exact h3
  -- For `r ≠ 0` and `b ≠ 0` the closed-form `IsochroneModel::mass` is the
  -- primitive.
  have isochrone_mass_eq_primitive : ∀ (Mtot b r : ℝ) (gl : GaussLegendre) (hb : b ≠ 0) (hr : r ≠ 0),
      (IsochroneModel.new Mtot b gl).mass r = isochronePrimitive Mtot b r := by
    intro Mtot b r gl hb hr
    have hpos := isochroneU_pos b r
    have hu2 := isochroneU_sq b r
    have key : Mtot * (-2 + (2 + r / b * (r / b)) / isochroneU b r) / (r / b)
        - Mtot * (r / b * (2 / (1 + isochroneU b r) - 1 / isochroneU b r))
        = 2 * Mtot * b * (1 + r / b * (r / b) - isochroneU b r ^ 2)
            / (isochroneU b r * r * (1 + isochroneU b r)) := by
      field_simp
      ring
    have hz : 2 * Mtot * b * (1 + r / b * (r / b) - isochroneU b r ^ 2)
        / (isochroneU b r * r * (1 + isochroneU b r)) = 0 := by
      rw [hu2, sub_self, mul_zero, zero_div]
    have e := sub_eq_zero.mp (key.trans hz)
    dsimp only [IsochroneModel.mass, IsochroneModel.new, isochronePrimitive]
    exact e
  -- For `b ≠ 0`, `4 pi rho(r) r^2` for the isochrone density is the derivative
  -- of the primitive.
  have isochrone_shell_eq : ∀ (Mtot b r : ℝ) (gl : GaussLegendre) (hb : b ≠ 0),
      4 * Real.pi * ((IsochroneModel.new Mtot b gl).density r * r ^ 2)
      = Mtot / b * (r / b) ^ 2 * (1 + 2 * isochroneU b r)
      / (isochroneU b r ^ 3 * (1 + isochroneU b r) ^ 2) := by
    intro Mtot b r gl hb
    have hpos := isochroneU_pos b r
    have hpi := Real.pi_pos
    dsimp only [IsochroneModel.density, IsochroneModel.new, M_PI]
    change 4 * Real.pi * (Mtot / b ^ 3 * (1 + 2 * isochroneU b r)
        / (4 * Real.pi * isochroneU b r ^ 3 * (1 + isochroneU b r) ^ 2) * r ^ 2) = _
    field_simp
    ring
  -- The isochrone density is continuous in the radius.
  have isochrone_density_continuous : ∀ (Mtot b : ℝ) (gl : GaussLegendre),
      Continuous (IsochroneModel.new Mtot b gl).density := by
    intro Mtot b gl
    have hu := isochroneU_continuous b
    have hpi := Real.pi_pos
    have h : (IsochroneModel.new Mtot b gl).density = fun r => Mtot / b ^ 3 * (1 + 2 * isochroneU b r)
        / (4 * Real.pi * isochroneU b r ^ 3 * (1 + isochroneU b r) ^ 2) := rfl
    rw [h]
    apply Continuous.div
    · fun_prop
    · fun_prop
    · intro r
      have hpos := isochroneU_pos b r
      positivity
  have hb0 : b ≠ 0 := hb.ne'
  have hderiv : ∀ x : ℝ, HasDerivAt (isochronePrimitive Mtot b)
      (4 * Real.pi * ((IsochroneModel.new Mtot b gl).density x * x ^ 2)) x := by
    intro x
    rw [isochrone_shell_eq Mtot b x gl hb0]
    exact isochronePrimitive_hasDerivAt Mtot b x hb0
  have hcont : Continuous (fun x : ℝ =>
      4 * Real.pi * ((IsochroneModel.new Mtot b gl).density x * x ^ 2)) := by
    have := isochrone_density_continuous Mtot b gl
    fun_prop
  have hzero : isochronePrimitive Mtot b 0 = 0 := by
    simp [isochronePrimitive]
  refine ⟨?_, ?_, ?_⟩
  · have hint := intervalIntegral.integral_eq_sub_of_hasDerivAt
      (fun x _ => hderiv x) (hcont.intervalIntegrable 0 r)
    rw [intervalIntegral.integral_const_mul, hzero, sub_zero] at hint
    rw [hint]
    exact isochrone_mass_eq_primitive Mtot b r gl hb0 hr.ne'
  · have h := hderiv r
    have heq : (IsochroneModel.new Mtot b gl).mass =ᶠ[nhds r] isochronePrimitive Mtot b := by
      filter_upwards [isOpen_ne.mem_nhds hr.ne'] with x hx
      exact isochrone_mass_eq_primitive Mtot b x gl hb0 hx
    have h' := h.congr_of_eventuallyEq heq
    convert h' using 1
    ring
  · have hc : ContinuousAt (isochronePrimitive Mtot b) 0 := (hderiv 0).continuousAt
    have ht := hc.tendsto.mono_left (nhdsWithin_le_nhds (s := Set.Ioi (0 : ℝ)))
    rw [hzero] at ht
    refine ht.congr' ?_
    refine eventually_nhdsWithin_of_forall ?_
    intro x hx
    have hx0 : x ≠ 0 := ne_of_gt hx
    exact (isochrone_mass_eq_primitive Mtot b x gl hb0 hx0).symm

/-- C10 on the isochrone model with `Mtot = 1`, `b = 1` at `r = 1`. -/
theorem isochrone_mass_is_volume_integral_witness :
    (0 : ℝ) < 1 ∧ (0 : ℝ) < 1 ∧
    (isochroneUnit.mass 1
        = 4 * Real.pi * ∫ u in (0 : ℝ)..1, isochroneUnit.density u * u ^ 2 ∧
      HasDerivAt isochroneUnit.mass (4 * Real.pi * 1 ^ 2 * isochroneUnit.density 1) 1 ∧
      Filter.Tendsto isochroneUnit.mass (nhdsWithin 0 (Set.Ioi 0)) (nhds 0)) :=
  ⟨by norm_num, by norm_num,
    isochrone_mass_is_volume_integral 1 1 GaussLegendre.onePoint (by norm_num) 1 (by norm_num)⟩

set_option maxHeartbeats 1600000 in
/-- C16: for an `IsochroneModel` with `b > 0` and every `r > 0`,
`derivative_density(r)` is the derivative of `density` at `r` and
`second_derivative_density(r)` is the derivative of `derivative_density` at `r`. -/
theorem isochrone_density_derivatives (Mtot b : ℝ) (gl : GaussLegendre) (hb : 0 < b)
    (r : ℝ) (_hr : 0 < r) :
    HasDerivAt (IsochroneModel.new Mtot b gl).density
        ((IsochroneModel.new Mtot b gl).derivative_density r) r ∧
      HasDerivAt (IsochroneModel.new Mtot b gl).derivative_density
        ((IsochroneModel.new Mtot b gl).second_derivative_density r) r := by
  -- The isochrone density as a rational function of `isochroneU`.
  have isochrone_density_eq : ∀ (Mtot b : ℝ) (gl : GaussLegendre),
      (IsochroneModel.new Mtot b gl).density = fun x => Mtot / b ^ 3 * (1 + 2 * isochroneU b x)
      / (4 * Real.pi * isochroneU b x ^ 3 * (1 + isochroneU b x) ^ 2) := by
    intro Mtot b gl
    exact rfl
  -- The isochrone density derivative with the numerator expressed through
  -- `isochroneU`.
  have isochrone_derivative_density_eq : ∀ (Mtot b : ℝ) (gl : GaussLegendre) (x : ℝ),
      (IsochroneModel.new Mtot b gl).derivative_density x
      = -(Mtot / b ^ 4) * (x / b * (8 * isochroneU b x ^ 2 + 9 * isochroneU b x + 3))
      / (4 * Real.pi * isochroneU b x ^ 5 * (1 + isochroneU b x) ^ 3) := by
    intro Mtot b gl x
    have hu2 := isochroneU_sq b x
    have e : 11 + 8 * (x / b * (x / b)) + 9 * isochroneU b x
        = 8 * isochroneU b x ^ 2 + 9 * isochroneU b x + 3 := by
      rw [hu2]
      ring
    rw [← e]
    rfl
  -- The isochrone second density derivative with the numerator expressed through
  -- `isochroneU`.
  have isochrone_second_derivative_density_eq : ∀ (Mtot b : ℝ) (gl : GaussLegendre) (x : ℝ),
      (IsochroneModel.new Mtot b gl).second_derivative_density x
      = Mtot / b ^ 5 * (5 * (8 * isochroneU b x ^ 5 + 14 * isochroneU b x ^ 4
      - 15 * isochroneU b x ^ 2 - 12 * isochroneU b x - 3))
      / (4 * Real.pi * isochroneU b x ^ 7 * (1 + isochroneU b x) ^ 4) := by
    intro Mtot b gl x
    have hu2 := isochroneU_sq b x
    have ht : x / b * (x / b) = isochroneU b x ^ 2 - 1 := by linarith
    have e : 5 * (-4 + 13 * (x / b * (x / b)) + 14 * (x / b * (x / b)) * (x / b * (x / b))
          + 4 * isochroneU b x * (-1 + 4 * (x / b * (x / b))
            + 2 * (x / b * (x / b)) * (x / b * (x / b))))
        = 5 * (8 * isochroneU b x ^ 5 + 14 * isochroneU b x ^ 4
            - 15 * isochroneU b x ^ 2 - 12 * isochroneU b x - 3) := by
      rw [ht]
      ring
    rw [← e]
    rfl
  have hb0 : b ≠ 0 := hb.ne'
  have hpi := Real.pi_pos
  have hpi0 : Real.pi ≠ 0 := hpi.ne'
  have hU := isochroneU_hasDerivAt b r hb0
  have hpos := isochroneU_pos b r
  have hu2 := isochroneU_sq b r
  have hden : ∀ n m : ℕ, HasDerivAt
      (fun x => 4 * Real.pi * isochroneU b x ^ n * (1 + isochroneU b x) ^ m)
      (4 * Real.pi * (↑n * isochroneU b r ^ (n - 1) * (r / b / (b * isochroneU b r)))
          * (1 + isochroneU b r) ^ m
        + 4 * Real.pi * isochroneU b r ^ n
          * (↑m * (1 + isochroneU b r) ^ (m - 1) * (r / b / (b * isochroneU b r)))) r := by
    intro n m
    have h1 := ((hU.pow n).const_mul (4 * Real.pi)).mul ((hU.const_add 1).pow m)
    refine h1.congr_deriv ?_
    ring
  constructor
  · rw [isochrone_density_eq, isochrone_derivative_density_eq]
    have hnum : HasDerivAt (fun x => Mtot / b ^ 3 * (1 + 2 * isochroneU b x))
        (Mtot / b ^ 3 * (2 * (r / b / (b * isochroneU b r)))) r :=
      ((hU.const_mul 2).const_add 1).const_mul _
    have h := hnum.div (hden 3 2) (by positivity)
    refine h.congr_deriv ?_
    generalize isochroneU b r = u at hpos
    field_simp
    ring
  · have hfun : (IsochroneModel.new Mtot b gl).derivative_density
        = fun x => -(Mtot / b ^ 4) * (x / b * (8 * isochroneU b x ^ 2 + 9 * isochroneU b x + 3))
          / (4 * Real.pi * isochroneU b x ^ 5 * (1 + isochroneU b x) ^ 3) := by
      funext x
      exact isochrone_derivative_density_eq Mtot b gl x
    rw [hfun, isochrone_second_derivative_density_eq]
    have hx : HasDerivAt (fun x : ℝ => x / b) (1 / b) r := (hasDerivAt_id r).div_const b
    have hpoly : HasDerivAt (fun x => 8 * isochroneU b x ^ 2 + 9 * isochroneU b x + 3)
        (8 * (↑(2 : ℕ) * isochroneU b r ^ (2 - 1) * (r / b / (b * isochroneU b r)))
          + 9 * (r / b / (b * isochroneU b r))) r :=
      ((((hU.pow 2).const_mul 8).add (hU.const_mul 9)).add_const 3)
    have hnum := (hx.mul hpoly).const_mul (-(Mtot / b ^ 4))
    have h := hnum.div (hden 5 3) (by positivity)
    have ht : (r / b) ^ 2 = isochroneU b r ^ 2 - 1 := by
      rw [hu2]
      ring
    generalize isochroneU b r = u at hpos ht h
    have h' : HasDerivAt
        (fun x => -(Mtot / b ^ 4) * (x / b * (8 * isochroneU b x ^ 2 + 9 * isochroneU b x + 3))
          / (4 * Real.pi * isochroneU b x ^ 5 * (1 + isochroneU b x) ^ 3))
        (-(Mtot / b ^ 5) * ((8 * u ^ 2 + 9 * u + 3) / (4 * Real.pi * u ^ 5 * (1 + u) ^ 3)
          + (r / b) ^ 2 * (-(48 * u ^ 3 + 87 * u ^ 2 + 60 * u + 15)
            / (4 * Real.pi * u ^ 6 * (1 + u) ^ 4)) / u)) r := by
      refine h.congr_deriv ?_
      field_simp
      ring
    refine h'.congr_deriv ?_
    rw [ht]
    field_simp
    ring

/-- C16 on the isochrone model with `Mtot = 1`, `b = 1` at `r = 1`. -/
theorem isochrone_density_derivatives_witness :
    (0 : ℝ) < 1 ∧ (0 : ℝ) < 1 ∧
    (HasDerivAt isochroneUnit.density (isochroneUnit.derivative_density 1) 1 ∧
      HasDerivAt isochroneUnit.derivative_density
        (isochroneUnit.second_derivative_density 1) 1) :=
  ⟨by norm_num, by norm_num,
    isochrone_density_derivatives 1 1 GaussLegendre.onePoint (by norm_num) 1 (by norm_num)⟩

/-- The derivative of the power `(x/rb)^a` of the scaled radius. -/
theorem scaled_rpow_hasDerivAt (rb a r : ℝ) (hrb : 0 < rb) (hr : 0 < r) :
    HasDerivAt (fun x : ℝ => (x / rb) ^ a) (a * (r / rb) ^ a / r) r := by
  have ht : 0 < r / rb := div_pos hr hrb
  have hx : HasDerivAt (fun x : ℝ => x / rb) (1 / rb) r := (hasDerivAt_id r).div_const rb
  have h := hx.rpow_const (p := a) (Or.inl ht.ne')
  refine h.congr_deriv ?_
  rw [Real.rpow_sub_one ht.ne']
  field_simp
  ring

/-- The derivative of a double power law `(x/rb)^a * (1 + (x/rb)^alpha)^k` of the
scaled radius, written with the same two powers. -/
theorem double_power_hasDerivAt (rb alpha a k r : ℝ) (hrb : 0 < rb) (hr : 0 < r) :
    HasDerivAt (fun x : ℝ => (x / rb) ^ a * (1 + (x / rb) ^ alpha) ^ k)
      ((r / rb) ^ a * (1 + (r / rb) ^ alpha) ^ k * (a + (a + alpha * k) * (r / rb) ^ alpha)
        / (r * (1 + (r / rb) ^ alpha))) r := by
  have ht : 0 < r / rb := div_pos hr hrb
  have hz : 0 < (r / rb) ^ alpha := Real.rpow_pos_of_pos ht _
  have h1z : 0 < 1 + (r / rb) ^ alpha := by linarith
  have hA := scaled_rpow_hasDerivAt rb a r hrb hr
  have hZ := scaled_rpow_hasDerivAt rb alpha r hrb hr
  have hB := (hZ.const_add 1).rpow_const (p := k) (Or.inl h1z.ne')
  have h := hA.mul hB
  refine h.congr_deriv ?_
  rw [Real.rpow_sub_one h1z.ne']
  generalize (r / rb) ^ a = A
  generalize (1 + (r / rb) ^ alpha) ^ k = B
  generalize (r / rb) ^ alpha = z at hz h1z
  field_simp
  ring

/-- C15: for a `ZhaoModel` with `rb > 0`, `alpha > 0` and every `r > 0`,
`derivative_density(r)` is the derivative of `density` at `r` and
`second_derivative_density(r)` is the derivative of `derivative_density` at `r`. -/
theorem zhao_density_derivatives (Mtot rb alpha beta gamma : ℝ) (gl : GaussLegendre)
    (hrb : 0 < rb) (ha : 0 < alpha) (r : ℝ) (hr : 0 < r) :
    HasDerivAt (ZhaoModel.new Mtot rb alpha beta gamma gl).density
        ((ZhaoModel.new Mtot rb alpha beta gamma gl).derivative_density r) r ∧
      HasDerivAt (ZhaoModel.new Mtot rb alpha beta gamma gl).derivative_density
        ((ZhaoModel.new Mtot rb alpha beta gamma gl).second_derivative_density r) r := by
  have ht : 0 < r / rb := div_pos hr hrb
  have hz : 0 < (r / rb) ^ alpha := Real.rpow_pos_of_pos ht _
  have h1z : 0 < 1 + (r / rb) ^ alpha := by linarith
  have ha0 : alpha ≠ 0 := ha.ne'
  have hrb0 : rb ≠ 0 := hrb.ne'
  have hr0 : r ≠ 0 := hr.ne'
  generalize hF : (ZhaoModel.new Mtot rb alpha beta gamma gl)._rhoff = F
  constructor
  · have h := (double_power_hasDerivAt rb alpha (-gamma) (-((beta - gamma) / alpha)) r hrb
      hr).const_mul (Mtot / rb ^ 3 * F)
    have hfun : (ZhaoModel.new Mtot rb alpha beta gamma gl).density
        = fun x => Mtot / rb ^ 3 * F
          * ((x / rb) ^ (-gamma) * (1 + (x / rb) ^ alpha) ^ (-((beta - gamma) / alpha))) := by
      funext x
      dsimp only [ZhaoModel.density]
      simp only [hF]
      dsimp only [ZhaoModel.new]
      ring
    rw [hfun]
    refine h.congr_deriv ?_
    dsimp only [ZhaoModel.derivative_density]
    simp only [hF]
    dsimp only [ZhaoModel.new]
    rw [Real.rpow_sub_one ht.ne', Real.rpow_sub_one h1z.ne']
    generalize (r / rb) ^ (-gamma) = A
    generalize (1 + (r / rb) ^ alpha) ^ (-((beta - gamma) / alpha)) = B
    generalize (r / rb) ^ alpha = z at hz h1z
    field_simp
    ring
  · have hZ := scaled_rpow_hasDerivAt rb alpha r hrb hr
    have hP : HasDerivAt (fun x : ℝ => beta * (x / rb) ^ alpha + gamma)
        (beta * (alpha * (r / rb) ^ alpha / r)) r := (hZ.const_mul beta).add_const gamma
    have h := ((double_power_hasDerivAt rb alpha (-gamma - 1) (-((beta - gamma) / alpha) - 1) r
      hrb hr).mul hP).const_mul (-(Mtot / rb ^ 4) * F)
    have hfun : (ZhaoModel.new Mtot rb alpha beta gamma gl).derivative_density
        = fun x => -(Mtot / rb ^ 4) * F
          * ((x / rb) ^ (-gamma - 1) * (1 + (x / rb) ^ alpha) ^ (-((beta - gamma) / alpha) - 1)
            * (beta * (x / rb) ^ alpha + gamma)) := by
      funext x
      dsimp only [ZhaoModel.derivative_density]
      simp only [hF]
      dsimp only [ZhaoModel.new]
      ring
    rw [hfun]
    refine h.congr_deriv ?_
    dsimp only [ZhaoModel.second_derivative_density]
    simp only [hF]
    dsimp only [ZhaoModel.new]
    have e1 : -gamma - 2 = (-gamma - 1) - 1 := by ring
    have e2 : -((beta - gamma) / alpha) - 2 = (-((beta - gamma) / alpha) - 1) - 1 := by ring
    rw [e1, e2, Real.rpow_sub_one ht.ne' (-gamma - 1),
      Real.rpow_sub_one h1z.ne' (-((beta - gamma) / alpha) - 1)]
    generalize (r / rb) ^ (-gamma - 1) = A
    generalize (1 + (r / rb) ^ alpha) ^ (-((beta - gamma) / alpha) - 1) = B
    generalize (r / rb) ^ alpha = z at hz h1z
    field_simp
    ring

/-- C15 on the Zhao model with `Mtot = 1`, `rb = 1`, `alpha = 1`, `beta = 4`,
`gamma = 1` at `r = 2`. -/
theorem zhao_density_derivatives_witness :
    (0 : ℝ) < 1 ∧ (0 : ℝ) < 1 ∧ (0 : ℝ) < 2 ∧
    (HasDerivAt zhaoExample.density (zhaoExample.derivative_density 2) 2 ∧
      HasDerivAt zhaoExample.derivative_density (zhaoExample.second_derivative_density 2) 2) :=
  ⟨by norm_num, by norm_num, by norm_num,
    zhao_density_derivatives 1 1 1 4 1 GaussLegendre.onePoint (by norm_num) (by norm_num) 2
      (by norm_num)⟩

/-- If on the positive half line `f1` is the derivative of `f`, `f2` of `f1` and
`f3` of `f2`, then at every `R > 0` the first, second and third derivatives of
`f` are `f1 R`, `f2 R`, `f3 R`. -/
theorem deriv_chain_three {f f1 f2 f3 : ℝ → ℝ}
    (h1 : ∀ x : ℝ, 0 < x → HasDerivAt f (f1 x) x)
    (h2 : ∀ x : ℝ, 0 < x → HasDerivAt f1 (f2 x) x)
    (h3 : ∀ x : ℝ, 0 < x → HasDerivAt f2 (f3 x) x) (R : ℝ) (hR : 0 < R) :
    deriv f R = f1 R ∧ deriv (deriv f) R = f2 R ∧ deriv (deriv (deriv f)) R = f3 R := by
  have e1 : ∀ x : ℝ, 0 < x → deriv f x = f1 x := fun x hx => (h1 x hx).deriv
  have ev1 : ∀ x : ℝ, 0 < x → deriv f =ᶠ[nhds x] f1 := by
    intro x hx
    filter_upwards [lt_mem_nhds hx] with y hy
    exact e1 y hy
  have e2 : ∀ x : ℝ, 0 < x → deriv (deriv f) x = f2 x := by
    intro x hx
    rw [(ev1 x hx).deriv_eq]
    exact (h2 x hx).deriv
  have ev2 : deriv (deriv f) =ᶠ[nhds R] f2 := by
    filter_upwards [lt_mem_nhds hR] with y hy
    exact e2 y hy
  refine ⟨e1 R hR, e2 R hR, ?_⟩
  rw [ev2.deriv_eq]
  exact (h3 R hR).deriv

/-- The derivative of a double power law times a function `P` of `z = (x/rb)^alpha`. -/
theorem double_power_mul_hasDerivAt (rb alpha a k r : ℝ) (P : ℝ → ℝ) (P' : ℝ)
    (hrb : 0 < rb) (hr : 0 < r) (hP : HasDerivAt P P' ((r / rb) ^ alpha)) :
    HasDerivAt (fun x : ℝ => (x / rb) ^ a * (1 + (x / rb) ^ alpha) ^ k * P ((x / rb) ^ alpha))
      ((r / rb) ^ a * (1 + (r / rb) ^ alpha) ^ k * (a + (a + alpha * k) * (r / rb) ^ alpha)
          / (r * (1 + (r / rb) ^ alpha)) * P ((r / rb) ^ alpha)
        + (r / rb) ^ a * (1 + (r / rb) ^ alpha) ^ k
          * (P' * (alpha * (r / rb) ^ alpha / r))) r := by
  have hZ := scaled_rpow_hasDerivAt rb alpha r hrb hr
  have hPz : HasDerivAt (fun x : ℝ => P ((x / rb) ^ alpha))
      (P' * (alpha * (r / rb) ^ alpha / r)) r := hP.comp r hZ
  exact (double_power_hasDerivAt rb alpha a k r hrb hr).mul hPz

set_option maxHeartbeats 1600000 in
/-- C17: for a `NukerModel` with `Rb > 0`, `alpha > 0` and every `R > 0`, the
functions `derivative_surface_density`, `second_derivative_surface_density` and
`third_derivative_surface_density` are the first, second and third derivatives
of `surface_density` at `R`: each is the derivative of the previous one at `R`,
and they are the values at `R` of the iterated derivatives of `surface_density`. -/
theorem nuker_surface_density_derivatives (Mtot Rb alpha beta gamma : ℝ) (gl : GaussLegendre)
    (hRb : 0 < Rb) (ha : 0 < alpha) (R : ℝ) (hR : 0 < R) :
    (HasDerivAt (NukerModel.new Mtot Rb alpha beta gamma gl).surface_density
        ((NukerModel.new Mtot Rb alpha beta gamma gl).derivative_surface_density R) R ∧
      HasDerivAt (NukerModel.new Mtot Rb alpha beta gamma gl).derivative_surface_density
        ((NukerModel.new Mtot Rb alpha beta gamma gl).second_derivative_surface_density R) R ∧
      HasDerivAt (NukerModel.new Mtot Rb alpha beta gamma gl).second_derivative_surface_density
        ((NukerModel.new Mtot Rb alpha beta gamma gl).third_derivative_surface_density R) R) ∧
    (deriv (NukerModel.new Mtot Rb alpha beta gamma gl).surface_density R
        = (NukerModel.new Mtot Rb alpha beta gamma gl).derivative_surface_density R ∧
      deriv (deriv (NukerModel.new Mtot Rb alpha beta gamma gl).surface_density) R
        = (NukerModel.new Mtot Rb alpha beta gamma gl).second_derivative_surface_density R ∧
      deriv (deriv (deriv (NukerModel.new Mtot Rb alpha beta gamma gl).surface_density)) R
        = (NukerModel.new Mtot Rb alpha beta gamma gl).third_derivative_surface_density R) := by
  -- Each Nuker surface density derivative function is the derivative of the
  -- previous one at every `R > 0`.
  have nuker_surface_density_hasDerivAt : ∀ (Mtot Rb alpha beta gamma : ℝ) (gl : GaussLegendre) (hRb : 0 < Rb) (ha : 0 < alpha) (R : ℝ) (hR : 0 < R),
      HasDerivAt (NukerModel.new Mtot Rb alpha beta gamma gl).surface_density
      ((NukerModel.new Mtot Rb alpha beta gamma gl).derivative_surface_density R) R ∧
      HasDerivAt (NukerModel.new Mtot Rb alpha beta gamma gl).derivative_surface_density
      ((NukerModel.new Mtot Rb alpha beta gamma gl).second_derivative_surface_density R) R ∧
      HasDerivAt (NukerModel.new Mtot Rb alpha beta gamma gl).second_derivative_surface_density
      ((NukerModel.new Mtot Rb alpha beta gamma gl).third_derivative_surface_density R) R := by
    intro Mtot Rb alpha beta gamma gl hRb ha R hR
    have ht : 0 < R / Rb := div_pos hR hRb
    have hz : 0 < (R / Rb) ^ alpha := Real.rpow_pos_of_pos ht _
    have h1z : 0 < 1 + (R / Rb) ^ alpha := by linarith
    have ha0 : alpha ≠ 0 := ha.ne'
    have hRb0 : Rb ≠ 0 := hRb.ne'
    have hR0 : R ≠ 0 := hR.ne'
    have h2q : (0 : ℝ) < (2 : ℝ) ^ ((beta - gamma) / alpha) := Real.rpow_pos_of_pos (by norm_num) _
    generalize hS : (NukerModel.new Mtot Rb alpha beta gamma gl)._Sigmab = S
    generalize hQ : (2 : ℝ) ^ ((beta - gamma) / alpha) = Q at h2q
    refine ⟨?_, ?_, ?_⟩
    · have h := (double_power_hasDerivAt Rb alpha (-gamma) (-((beta - gamma) / alpha)) R hRb
        hR).const_mul (S * Q)
      have hev : (NukerModel.new Mtot Rb alpha beta gamma gl).surface_density
          =ᶠ[nhds R] fun x => S * Q
            * ((x / Rb) ^ (-gamma) * (1 + (x / Rb) ^ alpha) ^ (-((beta - gamma) / alpha))) := by
        filter_upwards [lt_mem_nhds hR] with x hx
        have hxt : 0 < x / Rb := div_pos hx hRb
        have hxz : 0 < (x / Rb) ^ alpha := Real.rpow_pos_of_pos hxt _
        dsimp only [NukerModel.surface_density]
        simp only [hS]
        dsimp only [NukerModel.new]
        have h1x : (0 : ℝ) ≤ 1 + (x / Rb) ^ alpha := by linarith
        rw [Real.div_rpow h1x (by norm_num : (0 : ℝ) ≤ 2),
          Real.rpow_neg (by norm_num : (0 : ℝ) ≤ 2) ((beta - gamma) / alpha), hQ]
        rw [div_inv_eq_mul]
        ring
      refine (h.congr_of_eventuallyEq hev).congr_deriv ?_
      dsimp only [NukerModel.derivative_surface_density]
      simp only [hS]
      dsimp only [NukerModel.new]
      simp only [hQ]
      have e1 : -1 - gamma = -gamma - 1 := by ring
      have e2 : -1 - (beta - gamma) / alpha = -((beta - gamma) / alpha) - 1 := by ring
      rw [e1, e2, Real.rpow_sub_one ht.ne', Real.rpow_sub_one h1z.ne']
      generalize (R / Rb) ^ (-gamma) = A
      generalize (1 + (R / Rb) ^ alpha) ^ (-((beta - gamma) / alpha)) = B
      generalize (R / Rb) ^ alpha = z at hz h1z
      field_simp
      ring
    · have hP : HasDerivAt (fun z : ℝ => beta * z + gamma) beta ((R / Rb) ^ alpha) := by
        simpa using ((hasDerivAt_id ((R / Rb) ^ alpha)).const_mul beta).add_const gamma
      have h := (double_power_mul_hasDerivAt Rb alpha (-1 - gamma) (-1 - (beta - gamma) / alpha) R
        (fun z : ℝ => beta * z + gamma) beta hRb hR hP).const_mul (-Q * S / Rb)
      have hfun : (NukerModel.new Mtot Rb alpha beta gamma gl).derivative_surface_density
          = fun x => -Q * S / Rb
            * ((x / Rb) ^ (-1 - gamma) * (1 + (x / Rb) ^ alpha) ^ (-1 - (beta - gamma) / alpha)
              * (beta * (x / Rb) ^ alpha + gamma)) := by
        funext x
        dsimp only [NukerModel.derivative_surface_density]
        simp only [hS]
        dsimp only [NukerModel.new]
        simp only [hQ]
        ring
      rw [hfun]
      refine h.congr_deriv ?_
      dsimp only [NukerModel.second_derivative_surface_density]
      simp only [hS]
      dsimp only [NukerModel.new]
      simp only [hQ]
      have e1 : -2 - gamma = (-1 - gamma) - 1 := by ring
      have e2 : -2 - (beta - gamma) / alpha = (-1 - (beta - gamma) / alpha) - 1 := by ring
      rw [e1, e2, Real.rpow_sub_one ht.ne' (-1 - gamma),
        Real.rpow_sub_one h1z.ne' (-1 - (beta - gamma) / alpha)]
      generalize (R / Rb) ^ (-1 - gamma) = A
      generalize (1 + (R / Rb) ^ alpha) ^ (-1 - (beta - gamma) / alpha) = B
      generalize (R / Rb) ^ alpha = z at hz h1z
      field_simp
      ring
    · have hid := hasDerivAt_id' ((R / Rb) ^ alpha)
      have hP : HasDerivAt (fun z : ℝ => z * z * beta * (1 + beta)
            + z * (beta - alpha * beta + gamma + alpha * gamma + 2 * beta * gamma)
            + gamma * (1 + gamma))
          ((1 * (R / Rb) ^ alpha + (R / Rb) ^ alpha * 1) * beta * (1 + beta)
            + 1 * (beta - alpha * beta + gamma + alpha * gamma + 2 * beta * gamma))
          ((R / Rb) ^ alpha) :=
        (((((hid.mul hid).mul_const beta).mul_const (1 + beta)).add
          (hid.mul_const (beta - alpha * beta + gamma + alpha * gamma + 2 * beta * gamma))).add_const
          (gamma * (1 + gamma)))
      have h := (double_power_mul_hasDerivAt Rb alpha (-2 - gamma) (-2 - (beta - gamma) / alpha) R
        _ _ hRb hR hP).const_mul (Q * S / (Rb * Rb))
      have hfun : (NukerModel.new Mtot Rb alpha beta gamma gl).second_derivative_surface_density
          = fun x => Q * S / (Rb * Rb)
            * ((x / Rb) ^ (-2 - gamma) * (1 + (x / Rb) ^ alpha) ^ (-2 - (beta - gamma) / alpha)
              * ((x / Rb) ^ alpha * (x / Rb) ^ alpha * beta * (1 + beta)
                + (x / Rb) ^ alpha
                  * (beta - alpha * beta + gamma + alpha * gamma + 2 * beta * gamma)
                + gamma * (1 + gamma))) := by
        funext x
        dsimp only [NukerModel.second_derivative_surface_density]
        simp only [hS]
        dsimp only [NukerModel.new]
        simp only [hQ]
        ring
      rw [hfun]
      refine h.congr_deriv ?_
      dsimp only [NukerModel.third_derivative_surface_density]
      simp only [hS]
      dsimp only [NukerModel.new]
      simp only [hQ]
      have e1 : -3 - gamma = (-2 - gamma) - 1 := by ring
      have e2 : -3 - (beta - gamma) / alpha = (-2 - (beta - gamma) / alpha) - 1 := by ring
      rw [e1, e2, Real.rpow_sub_one ht.ne' (-2 - gamma),
        Real.rpow_sub_one h1z.ne' (-2 - (beta - gamma) / alpha)]
      generalize (R / Rb) ^ (-2 - gamma) = A
      generalize (1 + (R / Rb) ^ alpha) ^ (-2 - (beta - gamma) / alpha) = B
      generalize (R / Rb) ^ alpha = z at hz h1z
      field_simp
      ring
  exact ⟨nuker_surface_density_hasDerivAt Mtot Rb alpha beta gamma gl hRb ha R hR,
      deriv_chain_three
        (fun x hx => (nuker_surface_density_hasDerivAt Mtot Rb alpha beta gamma gl hRb ha x hx).1)
        (fun x hx => (nuker_surface_density_hasDerivAt Mtot Rb alpha beta gamma gl hRb ha x hx).2.1)
        (fun x hx => (nuker_surface_density_hasDerivAt Mtot Rb alpha beta gamma gl hRb ha x hx).2.2)
        R hR⟩

/-- C17 on the Nuker model with `Mtot = 1`, `Rb = 1`, `alpha = 1`, `beta = 3`,
`gamma = 1` at `R = 2`. -/
theorem nuker_surface_density_derivatives_witness :
    (0 : ℝ) < 1 ∧ (0 : ℝ) < 1 ∧ (0 : ℝ) < 2 ∧
    ((HasDerivAt nukerExample.surface_density (nukerExample.derivative_surface_density 2) 2 ∧
      HasDerivAt nukerExample.derivative_surface_density
        (nukerExample.second_derivative_surface_density 2) 2 ∧
      HasDerivAt nukerExample.second_derivative_surface_density
        (nukerExample.third_derivative_surface_density 2) 2) ∧
    (deriv nukerExample.surface_density 2 = nukerExample.derivative_surface_density 2 ∧
      deriv (deriv nukerExample.surface_density) 2
        = nukerExample.second_derivative_surface_density 2 ∧
      deriv (deriv (deriv nukerExample.surface_density)) 2
        = nukerExample.third_derivative_surface_density 2)) :=
  ⟨by norm_num, by norm_num, by norm_num,
    nuker_surface_density_derivatives 1 1 1 3 1 GaussLegendre.onePoint (by norm_num)
      (by norm_num) 2 (by norm_num)⟩

set_option maxHeartbeats 1600000 in
/-- C19: for a `HypervirialModel` with `rs > 0`, `p > 0` and every `r > 0`,
`derivative_density(r)` is the derivative of `density` at `r`,
`second_derivative_density(r)` is the derivative of `derivative_density` at `r`,
and the derivative of `mass` at `r` is `4 pi r^2 density(r)`. -/
theorem hypervirial_derivatives (Mtot rs p : ℝ) (gl : GaussLegendre)
    (hrs : 0 < rs) (hp : 0 < p) (r : ℝ) (hr : 0 < r) :
    HasDerivAt (HypervirialModel.new Mtot rs p gl).density
        ((HypervirialModel.new Mtot rs p gl).derivative_density r) r ∧
      HasDerivAt (HypervirialModel.new Mtot rs p gl).derivative_density
        ((HypervirialModel.new Mtot rs p gl).second_derivative_density r) r ∧
      HasDerivAt (HypervirialModel.new Mtot rs p gl).mass
        (4 * Real.pi * r ^ 2 * (HypervirialModel.new Mtot rs p gl).density r) r := by
  -- For `t > 0` and `p ≠ 0`: `(1 + t^(-p))^(1 + 1/p) = (1 + t^p)^(1 + 1/p) / t^(p + 1)`.
  have hypervirial_mass_denominator : ∀ (t p : ℝ) (ht : 0 < t) (hp : p ≠ 0),
      (1 + t ^ (-p)) ^ (1 + 1 / p) = (1 + t ^ p) ^ (1 + 1 / p) / t ^ (p + 1) := by
    intro t p ht hp
    have hz : 0 < t ^ p := Real.rpow_pos_of_pos ht _
    have e : 1 + t ^ (-p) = (1 + t ^ p) / t ^ p := by
      rw [Real.rpow_neg ht.le]
      field_simp
      ring
    rw [e, Real.div_rpow (by linarith) hz.le, ← Real.rpow_mul ht.le]
    congr 2
    field_simp
  have ht : 0 < r / rs := div_pos hr hrs
  have hz : 0 < (r / rs) ^ p := Real.rpow_pos_of_pos ht _
  have h1z : 0 < 1 + (r / rs) ^ p := by linarith
  have hw : 0 < (1 + (r / rs) ^ p) ^ (1 / p) := Real.rpow_pos_of_pos h1z _
  have hp0 : p ≠ 0 := hp.ne'
  have hrs0 : rs ≠ 0 := hrs.ne'
  have hr0 : r ≠ 0 := hr.ne'
  have hpi0 : Real.pi ≠ 0 := Real.pi_pos.ne'
  have e3 : (3 : ℝ) = ((3 : ℕ) : ℝ) := by norm_num
  have e4 : (4 : ℝ) = ((4 : ℕ) : ℝ) := by norm_num
  refine ⟨?_, ?_, ?_⟩
  · have h := (double_power_hasDerivAt rs p (p - 2) (-2 - 1 / p) r hrs hr).const_mul
      (Mtot / rs ^ 3 * (p + 1) / (4 * Real.pi))
    have hfun : (HypervirialModel.new Mtot rs p gl).density
        = fun x => Mtot / rs ^ 3 * (p + 1) / (4 * Real.pi)
          * ((x / rs) ^ (p - 2) * (1 + (x / rs) ^ p) ^ (-2 - 1 / p)) := rfl
    rw [hfun]
    refine h.congr_deriv ?_
    dsimp only [HypervirialModel.derivative_density, HypervirialModel.new, M_PI]
    simp only [Real.rpow_sub ht, Real.rpow_sub h1z, Real.rpow_neg h1z.le, Real.rpow_two]
    rw [e3, Real.rpow_natCast, Real.rpow_natCast]
    generalize (1 + (r / rs) ^ p) ^ (1 / p) = w at hw
    generalize (r / rs) ^ p = z at hz h1z
    field_simp
    ring
  · have hP : HasDerivAt (fun z : ℝ => 2 - p + (3 + p) * z) (3 + p) ((r / rs) ^ p) := by
      simpa using ((hasDerivAt_id' ((r / rs) ^ p)).const_mul (3 + p)).const_add (2 - p)
    have h := (double_power_mul_hasDerivAt rs p (p - 3) (-3 - 1 / p) r _ _ hrs hr hP).const_mul
      (-(Mtot / rs ^ 4) * (p + 1) / (4 * Real.pi))
    have hfun : (HypervirialModel.new Mtot rs p gl).derivative_density
        = fun x => -(Mtot / rs ^ 4) * (p + 1) / (4 * Real.pi)
          * ((x / rs) ^ (p - 3) * (1 + (x / rs) ^ p) ^ (-3 - 1 / p)
            * (2 - p + (3 + p) * (x / rs) ^ p)) := rfl
    rw [hfun]
    refine h.congr_deriv ?_
    dsimp only [HypervirialModel.second_derivative_density, HypervirialModel.new, M_PI]
    simp only [Real.rpow_sub ht, Real.rpow_sub h1z, Real.rpow_neg h1z.le]
    rw [e3, e4]
    simp only [Real.rpow_natCast]
    generalize (1 + (r / rs) ^ p) ^ (1 / p) = w at hw
    generalize (r / rs) ^ p = z at hz h1z
    field_simp
    ring
  · have h := (double_power_hasDerivAt rs p (p + 1) (-(1 + 1 / p)) r hrs hr).const_mul Mtot
    have hev : (HypervirialModel.new Mtot rs p gl).mass
        =ᶠ[nhds r] fun x => Mtot * ((x / rs) ^ (p + 1) * (1 + (x / rs) ^ p) ^ (-(1 + 1 / p))) := by
      filter_upwards [lt_mem_nhds hr] with x hx
      have hxt : 0 < x / rs := div_pos hx hrs
      have hxz : 0 < (x / rs) ^ p := Real.rpow_pos_of_pos hxt _
      have hx1 : 0 < 1 + (x / rs) ^ p := by linarith
      dsimp only [HypervirialModel.mass, HypervirialModel.new]
      rw [hypervirial_mass_denominator _ _ hxt hp0, Real.rpow_neg hx1.le]
      have h1 : 0 < (x / rs) ^ (p + 1) := Real.rpow_pos_of_pos hxt _
      have h2 : 0 < (1 + (x / rs) ^ p) ^ (1 + 1 / p) := Real.rpow_pos_of_pos hx1 _
      field_simp
    refine (h.congr_of_eventuallyEq hev).congr_deriv ?_
    dsimp only [HypervirialModel.density, HypervirialModel.new, M_PI]
    simp only [Real.rpow_sub ht, Real.rpow_sub h1z, Real.rpow_add ht, Real.rpow_add h1z,
      Real.rpow_neg h1z.le, Real.rpow_two, Real.rpow_one]
    generalize (1 + (r / rs) ^ p) ^ (1 / p) = w at hw
    generalize (r / rs) ^ p = z at hz h1z
    field_simp
    ring

/-- C19 on the hypervirial model with `Mtot = 1`, `rs = 1`, `p = 1` at `r = 2`. -/
theorem hypervirial_derivatives_witness :
    (0 : ℝ) < 1 ∧ (0 : ℝ) < 1 ∧ (0 : ℝ) < 2 ∧
    (HasDerivAt hypervirialExample.density (hypervirialExample.derivative_density 2) 2 ∧
      HasDerivAt hypervirialExample.derivative_density
        (hypervirialExample.second_derivative_density 2) 2 ∧
      HasDerivAt hypervirialExample.mass
        (4 * Real.pi * 2 ^ 2 * hypervirialExample.density 2) 2) :=
  ⟨by norm_num, by norm_num, by norm_num,
    hypervirial_derivatives 1 1 1 GaussLegendre.onePoint (by norm_num) (by norm_num) 2
      (by norm_num)⟩

set_option maxHeartbeats 8000000 in
/-- C18: for a `SigmoidSurfaceDensityModel` with `Rb > 0`, `alpha > 0`, any
`beta`, `gamma` and any prefactor, and every `R > 0`, the functions
`derivative_surface_density`, `second_derivative_surface_density` and
`third_derivative_surface_density` are the first, second and third derivatives
of `surface_density` at `R`: each is the derivative of the previous one at `R`,
and they are the values at `R` of the iterated derivatives of `surface_density`. -/
theorem sigmoid_surface_density_derivatives (m : SigmoidSurfaceDensityModel)
    (hRb : 0 < m._Rb) (ha : 0 < m._alpha) (R : ℝ) (hR : 0 < R) :
    (HasDerivAt m.surface_density (m.derivative_surface_density R) R ∧
      HasDerivAt m.derivative_surface_density (m.second_derivative_surface_density R) R ∧
      HasDerivAt m.second_derivative_surface_density
        (m.third_derivative_surface_density R) R) ∧
    (deriv m.surface_density R = m.derivative_surface_density R ∧
      deriv (deriv m.surface_density) R = m.second_derivative_surface_density R ∧
      deriv (deriv (deriv m.surface_density)) R = m.third_derivative_surface_density R) := by
  -- The square of `sigmoidS`.
  have sigmoidS_sq : ∀ (alpha Rb R : ℝ),
      sigmoidS alpha Rb R ^ 2 = 1 + sigmoidL alpha Rb R * sigmoidL alpha Rb R := by
    intro alpha Rb R
    exact Real.sq_sqrt (by nlinarith [mul_self_nonneg (sigmoidL alpha Rb R)])
  -- `sigmoidS` is positive.
  have sigmoidS_pos : ∀ (alpha Rb R : ℝ),
      0 < sigmoidS alpha Rb R := by
    intro alpha Rb R
    exact Real.sqrt_pos.mpr (by nlinarith [mul_self_nonneg (sigmoidL alpha Rb R)])
  -- The derivative of `sigmoidL`.
  have sigmoidL_hasDerivAt : ∀ (alpha Rb R : ℝ) (hRb : 0 < Rb) (hR : 0 < R),
      HasDerivAt (sigmoidL alpha Rb) (alpha / R) R := by
    intro alpha Rb R hRb hR
    have hx : HasDerivAt (fun x : ℝ => x / Rb) (1 / Rb) R := (hasDerivAt_id R).div_const Rb
    have h := (hx.log (div_pos hR hRb).ne').const_mul alpha
    refine h.congr_deriv ?_
    field_simp
  -- The derivative of `sigmoidS`.
  have sigmoidS_hasDerivAt : ∀ (alpha Rb R : ℝ) (hRb : 0 < Rb) (hR : 0 < R),
      HasDerivAt (sigmoidS alpha Rb)
      (sigmoidL alpha Rb R * alpha / (R * sigmoidS alpha Rb R)) R := by
    intro alpha Rb R hRb hR
    have hL := sigmoidL_hasDerivAt alpha Rb R hRb hR
    have h1 : HasDerivAt (fun x : ℝ => 1 + sigmoidL alpha Rb x * sigmoidL alpha Rb x)
        (alpha / R * sigmoidL alpha Rb R + sigmoidL alpha Rb R * (alpha / R)) R :=
      (hL.mul hL).const_add 1
    have h2 : HasDerivAt (sigmoidS alpha Rb)
        ((alpha / R * sigmoidL alpha Rb R + sigmoidL alpha Rb R * (alpha / R))
          / (2 * sigmoidS alpha Rb R)) R :=
      h1.sqrt (by nlinarith [mul_self_nonneg (sigmoidL alpha Rb R)])
    have hpos := sigmoidS_pos alpha Rb R
    refine h2.congr_deriv ?_
    generalize sigmoidS alpha Rb R = s at hpos
    field_simp
    ring
  -- The derivative of `sigmoidE`.
  have sigmoidE_hasDerivAt : ∀ (alpha beta gamma Rb R : ℝ) (hRb : 0 < Rb) (hR : 0 < R),
      HasDerivAt (sigmoidE alpha beta gamma Rb)
      (sigmoidE alpha beta gamma Rb R
      * (-(beta - gamma) / (2 * alpha)
      * (sigmoidL alpha Rb R * alpha / (R * sigmoidS alpha Rb R)))) R := by
    intro alpha beta gamma Rb R hRb hR
    exact ((sigmoidS_hasDerivAt alpha Rb R hRb hR).const_mul (-(beta - gamma) / (2 * alpha))).exp
  -- Each sigmoid surface density derivative function is the derivative of the
  -- previous one at every `R > 0`.
  have sigmoid_surface_density_hasDerivAt : ∀ (m : SigmoidSurfaceDensityModel) (hRb : 0 < m._Rb) (ha : 0 < m._alpha) (R : ℝ) (hR : 0 < R),
      HasDerivAt m.surface_density (m.derivative_surface_density R) R ∧
      HasDerivAt m.derivative_surface_density (m.second_derivative_surface_density R) R ∧
      HasDerivAt m.second_derivative_surface_density
      (m.third_derivative_surface_density R) R := by
    intro m hRb ha R hR
    obtain ⟨Mtot, Rb, alpha, beta, gamma, Sc, gl⟩ := m
    simp only at hRb ha
    have ht : 0 < R / Rb := div_pos hR hRb
    have hL := sigmoidL_hasDerivAt alpha Rb R hRb hR
    have hS := sigmoidS_hasDerivAt alpha Rb R hRb hR
    have hE := sigmoidE_hasDerivAt alpha beta gamma Rb R hRb hR
    have hspos := sigmoidS_pos alpha Rb R
    have hs2 := sigmoidS_sq alpha Rb R
    have hepos : 0 < sigmoidE alpha beta gamma Rb R := Real.exp_pos _
    have ha0 : alpha ≠ 0 := ha.ne'
    have hRb0 : Rb ≠ 0 := hRb.ne'
    have hR0 : R ≠ 0 := hR.ne'
    have hT : ∀ c : ℝ, HasDerivAt (fun x : ℝ => (x / Rb) ^ c) (c * (R / Rb) ^ c / R) R :=
      fun c => scaled_rpow_hasDerivAt Rb c R hRb hR
    have hTpos : ∀ c : ℝ, 0 < (R / Rb) ^ c := fun c => Real.rpow_pos_of_pos ht c
    have e1 : (beta + gamma + 2) / 2 = 0.5 * (beta + gamma) + 1 := by ring
    have e3 : (3 : ℝ) = ((3 : ℕ) : ℝ) := by norm_num
    refine ⟨?_, ?_, ?_⟩
    · have hfun : (SigmoidSurfaceDensityModel.mk Mtot Rb alpha beta gamma Sc gl).surface_density
          = fun x => Sc * sigmoidE alpha beta gamma Rb x / (x / Rb) ^ (0.5 * (beta + gamma)) := rfl
      have hval : (SigmoidSurfaceDensityModel.mk Mtot Rb alpha beta gamma Sc
            gl).derivative_surface_density R
          = -Sc / Rb * sigmoidE alpha beta gamma Rb R / (2 * sigmoidS alpha Rb R)
            / (R / Rb) ^ ((beta + gamma + 2) / 2)
            * ((beta - gamma) * sigmoidL alpha Rb R + (beta + gamma) * sigmoidS alpha Rb R) := rfl
      rw [hfun, hval]
      have h := (hE.const_mul Sc).div (hT (0.5 * (beta + gamma))) (hTpos _).ne'
      refine h.congr_deriv ?_
      rw [e1, Real.rpow_add ht, Real.rpow_one]
      have hτ := hTpos (0.5 * (beta + gamma))
      generalize (R / Rb) ^ (0.5 * (beta + gamma)) = τ at hτ
      generalize sigmoidE alpha beta gamma Rb R = e at hepos
      generalize sigmoidL alpha Rb R = l at hs2
      generalize sigmoidS alpha Rb R = s at hs2 hspos
      field_simp
      ring
    · have hfun : (SigmoidSurfaceDensityModel.mk Mtot Rb alpha beta gamma Sc
            gl).derivative_surface_density
          = fun x => -Sc / Rb * sigmoidE alpha beta gamma Rb x / (2 * sigmoidS alpha Rb x)
            / (x / Rb) ^ ((beta + gamma + 2) / 2)
            * ((beta - gamma) * sigmoidL alpha Rb x + (beta + gamma) * sigmoidS alpha Rb x) := rfl
      have hval : (SigmoidSurfaceDensityModel.mk Mtot Rb alpha beta gamma Sc
            gl).second_derivative_surface_density R
          = Sc / (Rb * Rb) * sigmoidE alpha beta gamma Rb R
            / (4 * sigmoidS alpha Rb R * sigmoidS alpha Rb R * sigmoidS alpha Rb R)
            / (R / Rb) ^ (0.5 * (beta + gamma) + 2)
            * (2 * alpha * (gamma - beta)
              + 2 * (beta - gamma) * (beta + gamma + 1) * sigmoidL alpha Rb R
                * (1 + sigmoidL alpha Rb R * sigmoidL alpha Rb R)
              + (beta + gamma) * (beta + gamma + 2) * sigmoidS alpha Rb R
              + 2 * (beta * (beta + 1) + gamma * (gamma + 1))
                * (sigmoidL alpha Rb R * sigmoidL alpha Rb R) * sigmoidS alpha Rb R) := rfl
      rw [hfun, hval]
      have h := ((((hE.const_mul (-Sc / Rb)).div (hS.const_mul 2) (by positivity)).div
        (hT ((beta + gamma + 2) / 2)) (hTpos _).ne').mul
        ((hL.const_mul (beta - gamma)).add (hS.const_mul (beta + gamma))))
      refine h.congr_deriv ?_
      rw [e1, Real.rpow_add ht, Real.rpow_add ht, Real.rpow_one, Real.rpow_two]
      have hτ := hTpos (0.5 * (beta + gamma))
      generalize (R / Rb) ^ (0.5 * (beta + gamma)) = τ at hτ
      generalize sigmoidE alpha beta gamma Rb R = e at hepos
      generalize sigmoidL alpha Rb R = l at hs2
      generalize sigmoidS alpha Rb R = s at hs2 hspos
      have hl2 : l ^ 2 = s ^ 2 - 1 := by rw [hs2]; ring
      have hl3 : l ^ 3 = (s ^ 2 - 1) * l := by rw [← hl2]; ring
      have hl4 : l ^ 4 = (s ^ 2 - 1) ^ 2 := by rw [← hl2]; ring
      have hl5 : l ^ 5 = (s ^ 2 - 1) ^ 2 * l := by rw [← hl2]; ring
      have hl6 : l ^ 6 = (s ^ 2 - 1) ^ 3 := by rw [← hl2]; ring
      have hl7 : l ^ 7 = (s ^ 2 - 1) ^ 3 * l := by rw [← hl2]; ring
      field_simp
      ring_nf
      simp only [hl2, hl3, hl4, hl5, hl6, hl7]
      ring
    · have hfun : (SigmoidSurfaceDensityModel.mk Mtot Rb alpha beta gamma Sc
            gl).second_derivative_surface_density
          = fun x => Sc / (Rb * Rb) * sigmoidE alpha beta gamma Rb x
            / (4 * sigmoidS alpha Rb x * sigmoidS alpha Rb x * sigmoidS alpha Rb x)
            / (x / Rb) ^ (0.5 * (beta + gamma) + 2)
            * (2 * alpha * (gamma - beta)
              + 2 * (beta - gamma) * (beta + gamma + 1) * sigmoidL alpha Rb x
                * (1 + sigmoidL alpha Rb x * sigmoidL alpha Rb x)
              + (beta + gamma) * (beta + gamma + 2) * sigmoidS alpha Rb x
              + 2 * (beta * (beta + 1) + gamma * (gamma + 1))
                * (sigmoidL alpha Rb x * sigmoidL alpha Rb x) * sigmoidS alpha Rb x) := rfl
      have hval : (SigmoidSurfaceDensityModel.mk Mtot Rb alpha beta gamma Sc
            gl).third_derivative_surface_density R
          = -Sc / (Rb * Rb * Rb) * sigmoidE alpha beta gamma Rb R
            / (8 * sigmoidS alpha Rb R ^ 5)
            / (R / Rb) ^ (0.5 * (beta + gamma) + 3)
            * ((beta - gamma)
                * (16 + 7 * beta * beta + 2 * beta * (12 + 5 * gamma) + gamma * (24 + 7 * gamma))
                * sigmoidL alpha Rb R ^ 3
              + 4 * (beta - gamma)
                * (beta * beta + (1 + gamma) * (2 + gamma) + beta * (3 + gamma))
                * sigmoidL alpha Rb R ^ 5
              + 4 * (2 + beta + gamma)
                * (beta * (beta + 1) + gamma * (gamma + 1) - beta * gamma)
                * sigmoidL alpha Rb R ^ 4 * sigmoidS alpha Rb R
              + (2 + beta + gamma)
                * (6 * alpha * (gamma - beta)
                  + (beta + gamma) * (4 + beta + gamma) * sigmoidS alpha Rb R)
              + (2 + beta + gamma) * sigmoidL alpha Rb R * sigmoidL alpha Rb R
                * (6 * alpha * (-beta + gamma)
                  + (beta * (8 + 5 * beta) - 2 * (-4 + beta) * gamma + 5 * gamma * gamma)
                    * sigmoidS alpha Rb R)
              + (beta - gamma) * sigmoidL alpha Rb R
                * (8 + 3 * beta * beta + 6 * beta * (2 + gamma) + 3 * gamma * (4 + gamma)
                  - 6 * alpha * (2 * alpha + (beta - gamma) * sigmoidS alpha Rb R))) := rfl
      rw [hfun, hval]
      have hden := ((hS.const_mul 4).mul hS).mul hS
      have hV := ((((hL.const_mul (2 * (beta - gamma) * (beta + gamma + 1))).mul
          ((hL.mul hL).const_add 1)).const_add (2 * alpha * (gamma - beta))).add
          (hS.const_mul ((beta + gamma) * (beta + gamma + 2)))).add
          (((hL.mul hL).const_mul (2 * (beta * (beta + 1) + gamma * (gamma + 1)))).mul hS)
      have h := ((((hE.const_mul (Sc / (Rb * Rb))).div hden (by positivity)).div
        (hT (0.5 * (beta + gamma) + 2)) (hTpos _).ne').mul hV)
      refine h.congr_deriv ?_
      rw [Real.rpow_add ht, Real.rpow_add ht, Real.rpow_two, e3, Real.rpow_natCast]
      have hτ := hTpos (0.5 * (beta + gamma))
      generalize (R / Rb) ^ (0.5 * (beta + gamma)) = τ at hτ
      generalize sigmoidE alpha beta gamma Rb R = e at hepos
      generalize sigmoidL alpha Rb R = l at hs2
      generalize sigmoidS alpha Rb R = s at hs2 hspos
      have hl2 : l ^ 2 = s ^ 2 - 1 := by rw [hs2]; ring
      have hl3 : l ^ 3 = (s ^ 2 - 1) * l := by rw [← hl2]; ring
      have hl4 : l ^ 4 = (s ^ 2 - 1) ^ 2 := by rw [← hl2]; ring
      have hl5 : l ^ 5 = (s ^ 2 - 1) ^ 2 * l := by rw [← hl2]; ring
      have hl6 : l ^ 6 = (s ^ 2 - 1) ^ 3 := by rw [← hl2]; ring
      have hl7 : l ^ 7 = (s ^ 2 - 1) ^ 3 * l := by rw [← hl2]; ring
      field_simp
      ring_nf
      simp only [hl2, hl3, hl4, hl5, hl6, hl7]
      ring
  exact ⟨sigmoid_surface_density_hasDerivAt m hRb ha R hR,
      deriv_chain_three
        (fun x hx => (sigmoid_surface_density_hasDerivAt m hRb ha x hx).1)
        (fun x hx => (sigmoid_surface_density_hasDerivAt m hRb ha x hx).2.1)
        (fun x hx => (sigmoid_surface_density_hasDerivAt m hRb ha x hx).2.2)
        R hR⟩

set_option maxHeartbeats 1600000 in
/-- C18 on the sigmoid surface density model built by the constructor with
`Mtot = 1`, `Rb = 1`, `alpha = 1`, `beta = 3`, `gamma = 1`, at `R = 2`. -/
theorem sigmoid_surface_density_derivatives_witness :
    (0 : ℝ) < sigmoidSurfaceExample._Rb ∧ (0 : ℝ) < sigmoidSurfaceExample._alpha ∧
    (0 : ℝ) < 2 ∧
    ((HasDerivAt sigmoidSurfaceExample.surface_density
        (sigmoidSurfaceExample.derivative_surface_density 2) 2 ∧
      HasDerivAt sigmoidSurfaceExample.derivative_surface_density
        (sigmoidSurfaceExample.second_derivative_surface_density 2) 2 ∧
      HasDerivAt sigmoidSurfaceExample.second_derivative_surface_density
        (sigmoidSurfaceExample.third_derivative_surface_density 2) 2) ∧
    (deriv sigmoidSurfaceExample.surface_density 2
        = sigmoidSurfaceExample.derivative_surface_density 2 ∧
      deriv (deriv sigmoidSurfaceExample.surface_density) 2
        = sigmoidSurfaceExample.second_derivative_surface_density 2 ∧
      deriv (deriv (deriv sigmoidSurfaceExample.surface_density)) 2
        = sigmoidSurfaceExample.third_derivative_surface_density 2)) := by
  -- The example sigmoid surface density model has `Rb = 1` and `alpha = 1`.
  have sigmoidSurfaceExample_params :
      (0 : ℝ) < sigmoidSurfaceExample._Rb ∧ (0 : ℝ) < sigmoidSurfaceExample._alpha := by
    dsimp only [sigmoidSurfaceExample, SigmoidSurfaceDensityModel.new]
    norm_num
  exact ⟨sigmoidSurfaceExample_params.1, sigmoidSurfaceExample_params.2, by norm_num,
      sigmoid_surface_density_derivatives sigmoidSurfaceExample sigmoidSurfaceExample_params.1
        sigmoidSurfaceExample_params.2 2 (by norm_num)⟩

/-- For `rs > 0` and `x > -rs`, the derivative of the closed-form Burkert mass is
`4 pi density(x) x^2`. -/
theorem burkert_mass_hasDerivAt (rhos rs : ℝ) (gl : GaussLegendre) (hrs : 0 < rs)
    (x : ℝ) (hx : -rs < x) :
    HasDerivAt (BurkertModel.new rhos rs gl).mass
      (4 * Real.pi * ((BurkertModel.new rhos rs gl).density x * x ^ 2)) x := by
  have hrs0 : rs ≠ 0 := hrs.ne'
  have ht1 : 0 < 1 + x / rs := by
    have : -1 < x / rs := by
      rw [lt_div_iff₀ hrs]
      linarith
    linarith
  have ht2 : 0 < 1 + x / rs * (x / rs) := by nlinarith [mul_self_nonneg (x / rs)]
  have hx1 : HasDerivAt (fun y : ℝ => y / rs) (1 / rs) x := (hasDerivAt_id x).div_const rs
  have hl1 : HasDerivAt (fun y : ℝ => Real.log (1 + y / rs)) (1 / rs / (1 + x / rs)) x :=
    (hx1.const_add 1).log ht1.ne'
  have hl2 : HasDerivAt (fun y : ℝ => Real.log (1 + y / rs * (y / rs)))
      ((1 / rs * (x / rs) + x / rs * (1 / rs)) / (1 + x / rs * (x / rs))) x :=
    ((hx1.mul hx1).const_add 1).log ht2.ne'
  have hat : HasDerivAt (fun y : ℝ => Real.arctan (y / rs))
      (1 / (1 + (x / rs) ^ 2) * (1 / rs)) x := hx1.arctan
  have h := ((((hl1.const_mul 2).add hl2).sub (hat.const_mul 2)).const_mul
    (rhos * rs ^ 3 * Real.pi))
  have hfun : (BurkertModel.new rhos rs gl).mass
      = fun y => rhos * rs ^ 3 * Real.pi * (2 * Real.log (1 + y / rs)
        + Real.log (1 + y / rs * (y / rs)) - 2 * Real.arctan (y / rs)) := rfl
  rw [hfun]
  refine h.congr_deriv ?_
  dsimp only [BurkertModel.density, BurkertModel.new]
  have ht2' : (1 : ℝ) + (x / rs) ^ 2 ≠ 0 := by
    have : (x / rs) ^ 2 = x / rs * (x / rs) := by ring
    rw [this]
    exact ht2.ne'
  have hxt : x = x / rs * rs := by field_simp
  generalize x / rs = t at ht1 ht2 ht2' hxt
  subst hxt
  have ht1' := ht1.ne'
  have ht2'' := ht2.ne'
  field_simp
  ring

/-- C11: for a `BurkertModel` with `rs > 0` and every `r > 0`, the mass is
`pi rhos rs^3 (2 ln(1+t) + ln(1+t^2) - 2 arctan t)` with `t = r/rs`, and it is
the volume integral of the density: `mass(r) = 4 pi ∫_0^r density(u) u^2 du`. -/
theorem burkert_mass_is_volume_integral (rhos rs : ℝ) (gl : GaussLegendre) (hrs : 0 < rs)
    (r : ℝ) (hr : 0 < r) :
    (BurkertModel.new rhos rs gl).mass r
        = Real.pi * rhos * rs ^ 3 * (2 * Real.log (1 + r / rs) + Real.log (1 + (r / rs) ^ 2)
          - 2 * Real.arctan (r / rs)) ∧
      (BurkertModel.new rhos rs gl).mass r
        = 4 * Real.pi * ∫ u in (0 : ℝ)..r, (BurkertModel.new rhos rs gl).density u * u ^ 2 := by
  constructor
  · dsimp only [BurkertModel.mass, BurkertModel.new, M_PI]
    have e : (r / rs) ^ 2 = r / rs * (r / rs) := by ring
    rw [e]
    ring
  · have hderiv : ∀ x ∈ Set.uIcc (0 : ℝ) r, HasDerivAt (BurkertModel.new rhos rs gl).mass
        (4 * Real.pi * ((BurkertModel.new rhos rs gl).density x * x ^ 2)) x := by
      intro x hx
      rw [Set.uIcc_of_le hr.le] at hx
      exact burkert_mass_hasDerivAt rhos rs gl hrs x (by linarith [hx.1])
    have hcont : ContinuousOn (fun x : ℝ =>
        4 * Real.pi * ((BurkertModel.new rhos rs gl).density x * x ^ 2)) (Set.uIcc (0 : ℝ) r) := by
      have hd : ContinuousOn (BurkertModel.new rhos rs gl).density (Set.uIcc (0 : ℝ) r) := by
        have hfun : (BurkertModel.new rhos rs gl).density
            = fun y => rhos / ((1 + y / rs) * (1 + y / rs * (y / rs))) := rfl
        rw [hfun]
        apply ContinuousOn.div
        · exact continuousOn_const
        · fun_prop
        · intro x hx
          rw [Set.uIcc_of_le hr.le] at hx
          have h1 : 0 ≤ x / rs := div_nonneg hx.1 hrs.le
          have h2 : 0 < (1 + x / rs) * (1 + x / rs * (x / rs)) := by positivity
          exact h2.ne'
      fun_prop
    have hint := intervalIntegral.integral_eq_sub_of_hasDerivAt hderiv hcont.intervalIntegrable
    have hzero : (BurkertModel.new rhos rs gl).mass 0 = 0 := by
      simp [BurkertModel.mass]
    rw [intervalIntegral.integral_const_mul, hzero, sub_zero] at hint
    exact hint.symm

/-- C11 on the Burkert model with `rhos = 1`, `rs = 1` at `r = 1`. -/
theorem burkert_mass_is_volume_integral_witness :
    (0 : ℝ) < 1 ∧ (0 : ℝ) < 1 ∧
    (burkertUnit.mass 1
        = Real.pi * 1 * 1 ^ 3 * (2 * Real.log (1 + 1 / 1) + Real.log (1 + (1 / 1) ^ 2)
          - 2 * Real.arctan (1 / 1)) ∧
      burkertUnit.mass 1 = 4 * Real.pi * ∫ u in (0 : ℝ)..1, burkertUnit.density u * u ^ 2) :=
  ⟨by norm_num, by norm_num,
    burkert_mass_is_volume_integral 1 1 GaussLegendre.onePoint (by norm_num) 1 (by norm_num)⟩

set_option maxHeartbeats 1600000 in
/-- C14: for a `BurkertModel` with `rhos > 0`, `rs > 0` and every `r > 0`, the
derivative of `potential` at `r` is `-mass(r)/r^2`, `potential` tends to `0` at
infinity, and `potential(r) = mass(r)/r + 4 pi ∫_r^∞ density(u) u du`. -/
theorem burkert_potential_properties (rhos rs : ℝ) (gl : GaussLegendre) (hrhos : 0 < rhos)
    (hrs : 0 < rs) (r : ℝ) (hr : 0 < r) :
    HasDerivAt (BurkertModel.new rhos rs gl).potential
        (-(BurkertModel.new rhos rs gl).mass r / r ^ 2) r ∧
      Filter.Tendsto (BurkertModel.new rhos rs gl).potential Filter.atTop (nhds 0) ∧
      (BurkertModel.new rhos rs gl).potential r
        = (BurkertModel.new rhos rs gl).mass r / r
          + 4 * Real.pi * ∫ u in Set.Ioi r, (BurkertModel.new rhos rs gl).density u * u := by
  -- `log(1+t)/t` tends to `0` at infinity.
  have tendsto_log_one_add_div :
      Filter.Tendsto (fun t : ℝ => Real.log (1 + t) / t) Filter.atTop (nhds 0) := by
    have h := (Real.tendsto_pow_log_div_mul_add_atTop 1 (-1) 1 one_ne_zero).comp
      (Filter.tendsto_atTop_add_const_left Filter.atTop (1 : ℝ) Filter.tendsto_id)
    refine h.congr ?_
    intro t
    simp only [Function.comp, id, pow_one]
    congr 1
    ring
  -- `2 log(1+t) - log(1+t^2)` tends to `0` at infinity.
  have tendsto_two_log_sub_log :
      Filter.Tendsto (fun t : ℝ => 2 * Real.log (1 + t) - Real.log (1 + t * t))
      Filter.atTop (nhds 0) := by
    have hc : ContinuousAt (fun y : ℝ => Real.log ((1 + y) ^ 2 / (1 + y * y))) 0 := by
      apply ContinuousAt.log
      · apply ContinuousAt.div
        · fun_prop
        · fun_prop
        · norm_num
      · norm_num
    have h0 : Filter.Tendsto (fun y : ℝ => Real.log ((1 + y) ^ 2 / (1 + y * y))) (nhds 0)
        (nhds 0) := by
      have := hc.tendsto
      simpa using this
    have h := h0.comp tendsto_inv_atTop_zero
    refine h.congr' ?_
    filter_upwards [Filter.eventually_gt_atTop (0 : ℝ)] with t ht
    simp only [Function.comp]
    have e : (1 + t⁻¹) ^ 2 / (1 + t⁻¹ * t⁻¹) = (1 + t) ^ 2 / (1 + t * t) := by
      have h1 : (1 : ℝ) + t * t ≠ 0 := by positivity
      field_simp
      ring
    have h1 : (1 + t) ^ 2 ≠ 0 := by positivity
    have h2 : (1 : ℝ) + t * t ≠ 0 := by positivity
    rw [e, Real.log_div h1 h2, Real.log_pow]
    norm_num
  -- The dimensionless Burkert potential tends to `0` at infinity.
  have burkert_phi_tendsto :
      Filter.Tendsto (fun t : ℝ => Real.pi - 2 * ((1 + t) / t) * Real.arctan t
      + 2 * ((1 + t) / t) * Real.log (1 + t) + (1 - t) / t * Real.log (1 + t * t))
      Filter.atTop (nhds 0) := by
    have hA : Filter.Tendsto Real.arctan Filter.atTop (nhds (Real.pi / 2)) :=
      Real.tendsto_arctan_atTop.mono_right nhdsWithin_le_nhds
    have hinv : Filter.Tendsto (fun t : ℝ => t⁻¹) Filter.atTop (nhds 0) := tendsto_inv_atTop_zero
    have hL := tendsto_log_one_add_div
    have hE := tendsto_two_log_sub_log
    have h := (((((hA.const_mul 2).const_sub Real.pi).sub ((hA.const_mul 2).mul hinv)).add
      (hL.const_mul 4)).sub (hE.mul hinv)).add hE
    have hz : Real.pi - 2 * (Real.pi / 2) - 2 * (Real.pi / 2) * 0 + 4 * 0 - 0 * 0 + 0 = (0 : ℝ) := by
      ring
    rw [hz] at h
    refine h.congr' ?_
    filter_upwards [Filter.eventually_gt_atTop (0 : ℝ)] with t ht
    field_simp
    ring
  -- The dimensionless Burkert mass divided by the radius tends to `0` at infinity.
  have burkert_mu_div_tendsto :
      Filter.Tendsto (fun t : ℝ => (2 * Real.log (1 + t) + Real.log (1 + t * t)
      - 2 * Real.arctan t) / t) Filter.atTop (nhds 0) := by
    have hA : Filter.Tendsto Real.arctan Filter.atTop (nhds (Real.pi / 2)) :=
      Real.tendsto_arctan_atTop.mono_right nhdsWithin_le_nhds
    have hinv : Filter.Tendsto (fun t : ℝ => t⁻¹) Filter.atTop (nhds 0) := tendsto_inv_atTop_zero
    have hL := tendsto_log_one_add_div
    have hE := tendsto_two_log_sub_log
    have h := ((hL.const_mul 4).sub (hE.mul hinv)).sub ((hA.const_mul 2).mul hinv)
    have hz : 4 * 0 - 0 * 0 - 2 * (Real.pi / 2) * 0 = (0 : ℝ) := by ring
    rw [hz] at h
    refine h.congr' ?_
    filter_upwards [Filter.eventually_gt_atTop (0 : ℝ)] with t ht
    field_simp
    ring
  -- For `rs > 0` and `r > 0` the derivative of the Burkert potential is
  -- `-mass(r)/r^2`.
  have burkert_potential_hasDerivAt : ∀ (rhos rs : ℝ) (gl : GaussLegendre) (hrs : 0 < rs) (r : ℝ) (hr : 0 < r),
      HasDerivAt (BurkertModel.new rhos rs gl).potential
      (-(BurkertModel.new rhos rs gl).mass r / r ^ 2) r := by
    intro rhos rs gl hrs r hr
    have hrs0 : rs ≠ 0 := hrs.ne'
    have ht : 0 < r / rs := div_pos hr hrs
    have ht1 : 0 < 1 + r / rs := by linarith
    have ht2 : 0 < 1 + r / rs * (r / rs) := by positivity
    have hx1 : HasDerivAt (fun y : ℝ => y / rs) (1 / rs) r := (hasDerivAt_id r).div_const rs
    have hl1 : HasDerivAt (fun y : ℝ => Real.log (1 + y / rs)) (1 / rs / (1 + r / rs)) r :=
      (hx1.const_add 1).log ht1.ne'
    have hl2 : HasDerivAt (fun y : ℝ => Real.log (1 + y / rs * (y / rs)))
        ((1 / rs * (r / rs) + r / rs * (1 / rs)) / (1 + r / rs * (r / rs))) r :=
      ((hx1.mul hx1).const_add 1).log ht2.ne'
    have hat : HasDerivAt (fun y : ℝ => Real.arctan (y / rs))
        (1 / (1 + (r / rs) ^ 2) * (1 / rs)) r := hx1.arctan
    have hu : HasDerivAt (fun y : ℝ => (1 + y / rs) / (y / rs))
        ((1 / rs * (r / rs) - (1 + r / rs) * (1 / rs)) / (r / rs) ^ 2) r :=
      (hx1.const_add 1).div hx1 ht.ne'
    have hv : HasDerivAt (fun y : ℝ => (1 - y / rs) / (y / rs))
        ((-(1 / rs) * (r / rs) - (1 - r / rs) * (1 / rs)) / (r / rs) ^ 2) r :=
      (hx1.const_sub 1).div hx1 ht.ne'
    have h := (((((hu.const_mul 2).mul hat).const_sub Real.pi).add ((hu.const_mul 2).mul hl1)).add
      (hv.mul hl2)).const_mul (rhos * (rs * rs) * Real.pi)
    have hfun : (BurkertModel.new rhos rs gl).potential
        = fun y => rhos * (rs * rs) * Real.pi
          * (Real.pi - 2 * ((1 + y / rs) / (y / rs)) * Real.arctan (y / rs)
            + 2 * ((1 + y / rs) / (y / rs)) * Real.log (1 + y / rs)
            + (1 - y / rs) / (y / rs) * Real.log (1 + y / rs * (y / rs))) := rfl
    rw [hfun]
    refine h.congr_deriv ?_
    dsimp only [BurkertModel.mass, BurkertModel.new, M_PI]
    have ht2' : (1 : ℝ) + (r / rs) ^ 2 ≠ 0 := by positivity
    have hxt : r = r / rs * rs := by field_simp
    generalize Real.arctan (r / rs) = A
    generalize Real.log (1 + r / rs) = L1
    generalize Real.log (1 + r / rs * (r / rs)) = L2
    generalize r / rs = t at ht ht1 ht2 ht2' hxt
    subst hxt
    have ht0 := ht.ne'
    have ht1' := ht1.ne'
    have ht2'' := ht2.ne'
    field_simp
    ring
  -- The Burkert potential tends to `0` at infinity.
  have burkert_potential_tendsto : ∀ (rhos rs : ℝ) (gl : GaussLegendre) (hrs : 0 < rs),
      Filter.Tendsto (BurkertModel.new rhos rs gl).potential Filter.atTop (nhds 0) := by
    intro rhos rs gl hrs
    have h := ((burkert_phi_tendsto.comp (Filter.tendsto_id.atTop_div_const hrs)).const_mul
      (rhos * (rs * rs) * Real.pi))
    rw [mul_zero] at h
    exact h
  -- The Burkert mass divided by the radius tends to `0` at infinity.
  have burkert_mass_div_tendsto : ∀ (rhos rs : ℝ) (gl : GaussLegendre) (hrs : 0 < rs),
      Filter.Tendsto (fun x : ℝ => (BurkertModel.new rhos rs gl).mass x / x) Filter.atTop
      (nhds 0) := by
    intro rhos rs gl hrs
    have h := ((burkert_mu_div_tendsto.comp (Filter.tendsto_id.atTop_div_const hrs)).const_mul
      (rhos * (rs * rs) * Real.pi))
    rw [mul_zero] at h
    refine h.congr' ?_
    filter_upwards [Filter.eventually_gt_atTop (0 : ℝ)] with x hx
    dsimp only [BurkertModel.mass, BurkertModel.new, M_PI]
    simp only [Function.comp, id]
    have hrs0 : rs ≠ 0 := hrs.ne'
    have hx0 : x ≠ 0 := hx.ne'
    field_simp
    ring
  refine ⟨burkert_potential_hasDerivAt rhos rs gl hrs r hr,
    burkert_potential_tendsto rhos rs gl hrs, ?_⟩
  have hderiv : ∀ x ∈ Set.Ici r, HasDerivAt
      (fun y => (BurkertModel.new rhos rs gl).mass y / y
        - (BurkertModel.new rhos rs gl).potential y)
      (4 * Real.pi * ((BurkertModel.new rhos rs gl).density x * x)) x := by
    intro x hx
    have hx0 : 0 < x := lt_of_lt_of_le hr hx
    have hM := burkert_mass_hasDerivAt rhos rs gl hrs x (by linarith)
    have hP := burkert_potential_hasDerivAt rhos rs gl hrs x hx0
    have h := (hM.div (hasDerivAt_id' x) hx0.ne').sub hP
    refine h.congr_deriv ?_
    have hx0' := hx0.ne'
    field_simp
    ring
  have hpos : ∀ x ∈ Set.Ioi r,
      0 ≤ 4 * Real.pi * ((BurkertModel.new rhos rs gl).density x * x) := by
    intro x hx
    have hx0 : 0 < x := lt_trans hr hx
    have ht : 0 < x / rs := div_pos hx0 hrs
    have hd : 0 < (BurkertModel.new rhos rs gl).density x := by
      dsimp only [BurkertModel.density, BurkertModel.new]
      positivity
    have hpi := Real.pi_pos
    positivity
  have hlim : Filter.Tendsto (fun y => (BurkertModel.new rhos rs gl).mass y / y
      - (BurkertModel.new rhos rs gl).potential y) Filter.atTop (nhds (0 - 0)) :=
    (burkert_mass_div_tendsto rhos rs gl hrs).sub (burkert_potential_tendsto rhos rs gl hrs)
  have hint := MeasureTheory.integral_Ioi_of_hasDerivAt_of_nonneg' hderiv hpos hlim
  rw [MeasureTheory.integral_mul_left] at hint
  linarith

/-- C14 on the Burkert model with `rhos = 1`, `rs = 1` at `r = 1`. -/
theorem burkert_potential_properties_witness :
    (0 : ℝ) < 1 ∧ (0 : ℝ) < 1 ∧ (0 : ℝ) < 1 ∧
    (HasDerivAt burkertUnit.potential (-burkertUnit.mass 1 / 1 ^ 2) 1 ∧
      Filter.Tendsto burkertUnit.potential Filter.atTop (nhds 0) ∧
      burkertUnit.potential 1
        = burkertUnit.mass 1 / 1
          + 4 * Real.pi * ∫ u in Set.Ioi (1 : ℝ), burkertUnit.density u * u) :=
  ⟨by norm_num, by norm_num, by norm_num,
    burkert_potential_properties 1 1 GaussLegendre.onePoint (by norm_num) (by norm_num) 1
      (by norm_num)⟩

/-- For `b > 0` and `r > 0`: `mass(r)/r^2 = (Mtot/b) exp((2-gamma) q) / (r (1+t))`. -/
theorem gamma_mass_div_sq (Mtot b gamma : ℝ) (gl : GaussLegendre) (hb : 0 < b)
    (r : ℝ) (hr : 0 < r) :
    (GammaModel.new Mtot b gamma gl).mass r / r ^ 2
      = Mtot / b * Real.exp ((2 - gamma) * gammaQ b r) / (r * (1 + r / b)) := by
  have ht : 0 < r / b := div_pos hr hb
  have ht1 : 0 < 1 + r / b := by linarith
  have hy : 0 < r / b / (1 + r / b) := div_pos ht ht1
  dsimp only [GammaModel.mass, GammaModel.new, gammaQ]
  have e : 3 - gamma = 1 + (2 - gamma) := by ring
  rw [e, Real.rpow_add hy, Real.rpow_one, Real.rpow_def_of_pos hy, mul_comm (2 - gamma)]
  generalize Real.exp (Real.log (r / b / (1 + r / b)) * (2 - gamma)) = E
  have hb0 := hb.ne'
  have hr0 := hr.ne'
  have hbr : b + r ≠ 0 := by positivity
  field_simp
  ring

set_option maxHeartbeats 1600000 in
/-- The derivative of the truncated series used by `GammaModel::potential` when
`|gamma - 2| ≤ 1e-3`, with `w = 2 - gamma`. -/
theorem gamma_series_hasDerivAt (Mtot b w : ℝ) (hb : 0 < b) (r : ℝ) (hr : 0 < r) :
    HasDerivAt (fun x : ℝ => Mtot / b * (-gammaQ b x - 0.5 * w * gammaQ b x * gammaQ b x
        - w * w / 6 * gammaQ b x * gammaQ b x * gammaQ b x))
      (-(Mtot / b * (1 + w * gammaQ b r + (w * gammaQ b r) ^ 2 / 2) / (r * (1 + r / b)))) r := by
  -- The derivative of `gammaQ` at `r > 0`.
  have gammaQ_hasDerivAt : ∀ (b r : ℝ) (hb : 0 < b) (hr : 0 < r),
      HasDerivAt (gammaQ b) (1 / (r * (1 + r / b))) r := by
    intro b r hb hr
    have ht : 0 < r / b := div_pos hr hb
    have ht1 : 0 < 1 + r / b := by linarith
    have hx : HasDerivAt (fun x : ℝ => x / b) (1 / b) r := (hasDerivAt_id r).div_const b
    have hy := hx.div (hx.const_add 1) ht1.ne'
    have h := hy.log (div_pos ht ht1).ne'
    refine h.congr_deriv ?_
    have hb0 := hb.ne'
    have hr0 := hr.ne'
    have hbr : b + r ≠ 0 := by positivity
    field_simp
    ring
  have hq := gammaQ_hasDerivAt b r hb hr
  have h := (((hq.neg).sub (((hq.const_mul (0.5 * w)).mul hq))).sub
    ((((hq.const_mul (w * w / 6)).mul hq).mul hq))).const_mul (Mtot / b)
  refine h.congr_deriv ?_
  have ht1 : (1 : ℝ) + r / b ≠ 0 := by
    have : 0 < r / b := div_pos hr hb
    linarith
  have hr0 := hr.ne'
  generalize gammaQ b r = q
  field_simp
  ring

/-- C13 (as amended): for a `GammaModel` with `b > 0`, every `gamma` with
`|gamma - 2| > 1e-3` or `gamma = 2`, and every `r > 0`, the derivative of
`potential` at `r` is `-mass(r)/r^2`. -/
theorem gamma_potential_hasDerivAt (Mtot b gamma : ℝ) (gl : GaussLegendre) (hb : 0 < b)
    (hg : |gamma - 2| > 1e-3 ∨ gamma = 2) (r : ℝ) (hr : 0 < r) :
    HasDerivAt (GammaModel.new Mtot b gamma gl).potential
      (-(GammaModel.new Mtot b gamma gl).mass r / r ^ 2) r := by
  have ht : 0 < r / b := div_pos hr hb
  have ht1 : 0 < 1 + r / b := by linarith
  have hy : 0 < r / b / (1 + r / b) := div_pos ht ht1
  have hb0 := hb.ne'
  have hr0 := hr.ne'
  have hbr : b + r ≠ 0 := by positivity
  rw [neg_div, gamma_mass_div_sq Mtot b gamma gl hb r hr]
  rcases hg with hg | hg
  · have hw : 2 - gamma ≠ 0 := by
      intro h0
      have : gamma - 2 = 0 := by linarith
      rw [this, abs_zero] at hg
      norm_num at hg
    have hfun : (GammaModel.new Mtot b gamma gl).potential
        = fun x => Mtot / b * 1 / (2 - gamma) * (1 - (x / b / (1 + x / b)) ^ (2 - gamma)) := by
      funext x
      dsimp only [GammaModel.potential, GammaModel.new]
      rw [if_pos hg]
    rw [hfun]
    have hx : HasDerivAt (fun x : ℝ => x / b) (1 / b) r := (hasDerivAt_id r).div_const b
    have hyd := hx.div (hx.const_add 1) ht1.ne'
    have h := ((hyd.rpow_const (p := 2 - gamma) (Or.inl hy.ne')).const_sub 1).const_mul
      (Mtot / b * 1 / (2 - gamma))
    refine h.congr_deriv ?_
    rw [Real.rpow_sub_one hy.ne', Real.rpow_def_of_pos hy]
    dsimp only [gammaQ]
    rw [mul_comm (2 - gamma) (Real.log _)]
    generalize Real.exp (Real.log (r / b / (1 + r / b)) * (2 - gamma)) = E
    field_simp
    ring
  · subst hg
    have hfun : (GammaModel.new Mtot b 2 gl).potential
        = fun x => Mtot / b * (-gammaQ b x - 0.5 * (2 - 2) * gammaQ b x * gammaQ b x
          - (2 - 2) * (2 - 2) / 6 * gammaQ b x * gammaQ b x * gammaQ b x) := by
      funext x
      dsimp only [GammaModel.potential, GammaModel.new, gammaQ]
      rw [if_neg (by norm_num)]
    rw [hfun]
    have h := gamma_series_hasDerivAt Mtot b (2 - 2) hb r hr
    refine h.congr_deriv ?_
    simp

/-- The amended C13 on the gamma model with `Mtot = 1`, `b = 1`, `gamma = 2`
at `r = 1`. -/
theorem gamma_potential_hasDerivAt_witness :
    (0 : ℝ) < 1 ∧ (|(2 : ℝ) - 2| > 1e-3 ∨ (2 : ℝ) = 2) ∧ (0 : ℝ) < 1 ∧
      HasDerivAt gammaTwo.potential (-gammaTwo.mass 1 / 1 ^ 2) 1 :=
  ⟨by norm_num, Or.inr rfl, by norm_num,
    gamma_potential_hasDerivAt 1 1 2 GaussLegendre.onePoint (by norm_num) (Or.inr rfl) 1
      (by norm_num)⟩

set_option maxHeartbeats 1600000 in
/-- C13 as stated fails: for `GammaModel(1, 1, 2.0005)`, whose slope lies in
`[0, 3)` within `1e-3` of `2`, the derivative of `potential` at `r = 1` is not
`-mass(1)/1^2`. -/
theorem gamma_potential_near_two_not_exact :
    ¬ HasDerivAt gammaNearTwo.potential (-gammaNearTwo.mass 1 / 1 ^ 2) 1 := by
  -- For `x > 0` the exponential exceeds its quadratic Taylor polynomial.
  have quadratic_lt_exp : ∀ (x : ℝ) (hx : 0 < x),
      1 + x + x ^ 2 / 2 < Real.exp x := by
    intro x hx
    have h := Real.sum_le_exp_of_nonneg hx.le 4
    simp only [Finset.sum_range_succ, Finset.sum_range_zero, Nat.factorial] at h
    have h3 : 0 < x ^ 3 := by positivity
    norm_num at h
    nlinarith
  intro hc
  have hfun : gammaNearTwo.potential
      = fun x => (1 : ℝ) / 1 * (-gammaQ 1 x - 0.5 * (2 - 2.0005) * gammaQ 1 x * gammaQ 1 x
        - (2 - 2.0005) * (2 - 2.0005) / 6 * gammaQ 1 x * gammaQ 1 x * gammaQ 1 x) := by
    funext x
    dsimp only [gammaNearTwo, GammaModel.potential, GammaModel.new, gammaQ]
    rw [if_neg (by rw [abs_of_nonneg (by norm_num)]; norm_num)]
  have h := gamma_series_hasDerivAt 1 1 (2 - 2.0005) one_pos 1 one_pos
  rw [← hfun] at h
  have hu := hc.unique h
  rw [neg_div] at hu
  have hm := gamma_mass_div_sq 1 1 2.0005 GaussLegendre.onePoint one_pos 1 one_pos
  have hm' : gammaNearTwo.mass 1 / 1 ^ 2
      = 1 / 1 * Real.exp ((2 - 2.0005) * gammaQ 1 1) / (1 * (1 + 1 / 1)) := hm
  rw [hm'] at hu
  have hq : gammaQ 1 1 = -Real.log 2 := by
    dsimp only [gammaQ]
    rw [show (1 : ℝ) / 1 / (1 + 1 / 1) = 2⁻¹ by norm_num, Real.log_inv]
  have hL : 0 < Real.log 2 := Real.log_pos (by norm_num)
  have hx : 0 < (2 - 2.0005) * gammaQ 1 1 := by
    rw [hq]
    nlinarith
  have hlt := quadratic_lt_exp _ hx
  generalize (2 - 2.0005) * gammaQ 1 1 = x at hu hlt
  generalize Real.exp x = E at hu hlt
  norm_num at hu
  linarith

set_option maxHeartbeats 1600000 in
/-- The volume integral of the broken power-law density, for every `gamma < 3 < beta`:
inside the break it is `4 pi Mtot rhoff t^(3-gamma)/(3-gamma)`, outside it is
`4 pi Mtot rhoff (1/(3-gamma) + (1 - t^(3-beta))/(beta-3))`, with `t = r/rb`. -/
theorem bpl_volume_integral (Mtot rb beta gamma : ℝ) (gl : GaussLegendre) (hrb : 0 < rb)
    (hg : gamma < 3) (hb : 3 < beta) (r : ℝ) (hr : 0 < r) :
    4 * Real.pi * ∫ x in (0 : ℝ)..r, (BPLModel.new Mtot rb beta gamma gl).density x * x ^ 2
      = if r ≤ rb then
          Mtot * (BPLModel.new Mtot rb beta gamma gl)._rhoff * (4 * Real.pi) / (3 - gamma)
            * (r / rb) ^ (3 - gamma)
        else
          Mtot * (BPLModel.new Mtot rb beta gamma gl)._rhoff * (4 * Real.pi)
            * (1 / (3 - gamma) + (1 - (r / rb) ^ (3 - beta)) / (beta - 3)) := by
  -- For `x > 0` a power-law shell `C (x/rb)^(-eta) x^2` is `C rb^eta x^(2-eta)`.
  have power_law_shell : ∀ (C rb eta x : ℝ) (hrb : 0 < rb) (hx : 0 < x),
      C * (x / rb) ^ (-eta) * x ^ 2 = C * rb ^ eta * x ^ (2 - eta) := by
    intro C rb eta x hrb hx
    have h1 : 0 < x ^ eta := Real.rpow_pos_of_pos hx _
    have h2 : 0 < rb ^ eta := Real.rpow_pos_of_pos hrb _
    rw [Real.rpow_neg (div_pos hx hrb).le, Real.div_rpow hx.le hrb.le, Real.rpow_sub hx,
      Real.rpow_two]
    field_simp
  -- For `r > 0` and `rb > 0`: `rb^eta r^(3-eta) = rb^3 (r/rb)^(3-eta)`.
  have power_law_scaled : ∀ (rb eta r : ℝ) (hrb : 0 < rb) (hr : 0 < r),
      rb ^ eta * r ^ (3 - eta) = rb ^ 3 * (r / rb) ^ (3 - eta) := by
    intro rb eta r hrb hr
    have h2 : 0 < rb ^ eta := Real.rpow_pos_of_pos hrb _
    have e3 : (3 : ℝ) = ((3 : ℕ) : ℝ) := by norm_num
    rw [Real.div_rpow hr.le hrb.le, Real.rpow_sub hrb 3 eta]
    nth_rewrite 3 [e3]
    rw [Real.rpow_natCast]
    field_simp
    ring
  -- The shell integral of the broken power-law density over `[0, r]` for
  -- `0 < r ≤ rb`, together with the integrability of the shell on `[0, r]`.
  have bpl_inner_integral : ∀ (Mtot rb beta gamma : ℝ) (gl : GaussLegendre) (hrb : 0 < rb) (hg : gamma < 3) (r : ℝ) (hr : 0 < r) (hrrb : r ≤ rb),
      IntervalIntegrable (fun x => (BPLModel.new Mtot rb beta gamma gl).density x * x ^ 2)
      MeasureTheory.volume 0 r ∧
      ∫ x in (0 : ℝ)..r, (BPLModel.new Mtot rb beta gamma gl).density x * x ^ 2
      = Mtot * (BPLModel.new Mtot rb beta gamma gl)._rhoff / (3 - gamma)
      * (r / rb) ^ (3 - gamma) := by
    intro Mtot rb beta gamma gl hrb hg r hr hrrb
    generalize hF : (BPLModel.new Mtot rb beta gamma gl)._rhoff = F
    have heq : ∀ x ∈ Set.uIoc (0 : ℝ) r,
        Mtot / rb ^ 3 * F * rb ^ gamma * x ^ (2 - gamma)
          = (BPLModel.new Mtot rb beta gamma gl).density x * x ^ 2 := by
      intro x hx
      rw [Set.uIoc_of_le hr.le] at hx
      have hx1 : x / rb ≤ 1 := by
        rw [div_le_one hrb]
        exact hx.2.trans hrrb
      dsimp only [BPLModel.density]
      simp only [hF]
      dsimp only [BPLModel.new]
      rw [if_pos hx1]
      exact (power_law_shell _ rb gamma x hrb hx.1).symm
    have hint : IntervalIntegrable (fun x : ℝ => Mtot / rb ^ 3 * F * rb ^ gamma * x ^ (2 - gamma))
        MeasureTheory.volume 0 r :=
      (intervalIntegral.intervalIntegrable_rpow' (by linarith)).const_mul _
    constructor
    · refine hint.congr ?_
      rw [Filter.EventuallyEq, MeasureTheory.ae_restrict_iff' measurableSet_uIoc]
      exact Filter.Eventually.of_forall heq
    · rw [← intervalIntegral.integral_congr_ae (Filter.Eventually.of_forall heq),
        intervalIntegral.integral_const_mul, integral_rpow (Or.inl (by linarith))]
      have e : 2 - gamma + 1 = 3 - gamma := by ring
      have hne : 3 - gamma ≠ 0 := by linarith
      rw [e, Real.zero_rpow hne, sub_zero, mul_div_assoc', mul_assoc (Mtot / rb ^ 3 * F),
        power_law_scaled rb gamma r hrb hr]
      have hrb0 := hrb.ne'
      field_simp
      ring
  -- The shell integral of the broken power-law density over `[rb, r]` for
  -- `rb < r`, together with the integrability of the shell on `[rb, r]`.
  have bpl_outer_integral : ∀ (Mtot rb beta gamma : ℝ) (gl : GaussLegendre) (hrb : 0 < rb) (hb : 3 < beta) (r : ℝ) (hrrb : rb < r),
      IntervalIntegrable (fun x => (BPLModel.new Mtot rb beta gamma gl).density x * x ^ 2)
      MeasureTheory.volume rb r ∧
      ∫ x in rb..r, (BPLModel.new Mtot rb beta gamma gl).density x * x ^ 2
      = Mtot * (BPLModel.new Mtot rb beta gamma gl)._rhoff
      * ((1 - (r / rb) ^ (3 - beta)) / (beta - 3)) := by
    intro Mtot rb beta gamma gl hrb hb r hrrb
    generalize hF : (BPLModel.new Mtot rb beta gamma gl)._rhoff = F
    have hr : 0 < r := lt_trans hrb hrrb
    have h0 : (0 : ℝ) ∉ Set.uIcc rb r := by
      rw [Set.uIcc_of_le hrrb.le]
      intro h
      exact absurd h.1 (not_le.mpr hrb)
    have heq : ∀ x ∈ Set.uIoc rb r,
        Mtot / rb ^ 3 * F * rb ^ beta * x ^ (2 - beta)
          = (BPLModel.new Mtot rb beta gamma gl).density x * x ^ 2 := by
      intro x hx
      rw [Set.uIoc_of_le hrrb.le] at hx
      have hx0 : 0 < x := lt_trans hrb hx.1
      have hx1 : ¬ (x / rb ≤ 1) := by
        rw [not_le, one_lt_div hrb]
        exact hx.1
      dsimp only [BPLModel.density]
      simp only [hF]
      dsimp only [BPLModel.new]
      rw [if_neg hx1]
      exact (power_law_shell _ rb beta x hrb hx0).symm
    have hint : IntervalIntegrable (fun x : ℝ => Mtot / rb ^ 3 * F * rb ^ beta * x ^ (2 - beta))
        MeasureTheory.volume rb r :=
      (intervalIntegral.intervalIntegrable_rpow (Or.inr h0)).const_mul _
    constructor
    · refine hint.congr ?_
      rw [Filter.EventuallyEq, MeasureTheory.ae_restrict_iff' measurableSet_uIoc]
      exact Filter.Eventually.of_forall heq
    · rw [← intervalIntegral.integral_congr_ae (Filter.Eventually.of_forall heq),
        intervalIntegral.integral_const_mul,
        integral_rpow (Or.inr ⟨by linarith, h0⟩)]
      have e : 2 - beta + 1 = 3 - beta := by ring
      have hne : 3 - beta ≠ 0 := by linarith
      have hne' : beta - 3 ≠ 0 := by linarith
      have h1 := power_law_scaled rb beta r hrb hr
      have h2 := power_law_scaled rb beta rb hrb hrb
      rw [div_self hrb.ne', Real.one_rpow, mul_one] at h2
      rw [e, mul_div_assoc', mul_sub, mul_assoc (Mtot / rb ^ 3 * F), mul_assoc (Mtot / rb ^ 3 * F),
        h1, h2]
      have hrb0 := hrb.ne'
      field_simp
      ring
  have hne : 3 - gamma ≠ 0 := by linarith
  by_cases hrrb : r ≤ rb
  · rw [if_pos hrrb, (bpl_inner_integral Mtot rb beta gamma gl hrb hg r hr hrrb).2]
    field_simp
    ring
  · rw [if_neg hrrb]
    have hlt : rb < r := not_le.mp hrrb
    have hin := bpl_inner_integral Mtot rb beta gamma gl hrb hg rb hrb le_rfl
    have hout := bpl_outer_integral Mtot rb beta gamma gl hrb hb r hlt
    rw [← intervalIntegral.integral_add_adjacent_intervals hin.1 hout.1, hin.2, hout.2,
      div_self hrb.ne', Real.one_rpow]
    field_simp
    ring

/-- C12 (as amended): for a `BPLModel` with `rb > 0`, `gamma < 3 < beta` and
`r > 0`, if `r ≤ rb` or `|beta - 3| ≥ 1e-5` then the closed-form mass is the
volume integral of the density: `mass(r) = 4 pi ∫_0^r density(u) u^2 du`. -/
theorem bpl_mass_is_volume_integral (Mtot rb beta gamma : ℝ) (gl : GaussLegendre)
    (hrb : 0 < rb) (hg : gamma < 3) (hb : 3 < beta) (r : ℝ) (hr : 0 < r)
    (hbr : r ≤ rb ∨ 1e-5 ≤ |beta - 3|) :
    (BPLModel.new Mtot rb beta gamma gl).mass r
      = 4 * Real.pi * ∫ u in (0 : ℝ)..r, (BPLModel.new Mtot rb beta gamma gl).density u * u ^ 2 := by
  rw [bpl_volume_integral Mtot rb beta gamma gl hrb hg hb r hr]
  have hne : 3 - gamma ≠ 0 := by linarith
  have hne' : beta - 3 ≠ 0 := by linarith
  by_cases hrrb : r ≤ rb
  · have ht : r / rb ≤ 1 := by
      rw [div_le_one hrb]
      exact hrrb
    rw [if_pos hrrb]
    dsimp only [BPLModel.mass, BPLModel.new, M_PI]
    rw [if_pos ht]
  · have ht : ¬ (r / rb ≤ 1) := by
      rw [div_le_one hrb]
      exact hrrb
    have hbeta : ¬ (|beta - 3| < 1e-5) := by
      rcases hbr with h | h
      · exact absurd h hrrb
      · exact not_lt.mpr h
    rw [if_neg hrrb]
    dsimp only [BPLModel.mass, BPLModel.new, M_PI]
    rw [if_neg ht, if_neg hbeta]
    field_simp
    ring

/-- The amended C12 on the broken power-law model with `Mtot = 1`, `rb = 1`,
`beta = 4`, `gamma = 1` at `r = 2` (outside the break). -/
theorem bpl_mass_is_volume_integral_witness :
    (0 : ℝ) < 1 ∧ (1 : ℝ) < 3 ∧ (3 : ℝ) < 4 ∧ (0 : ℝ) < 2 ∧
    ((2 : ℝ) ≤ 1 ∨ (1e-5 : ℝ) ≤ |(4 : ℝ) - 3|) ∧
    bplExample.mass 2 = 4 * Real.pi * ∫ u in (0 : ℝ)..2, bplExample.density u * u ^ 2 :=
  ⟨by norm_num, by norm_num, by norm_num, by norm_num, Or.inr (by norm_num),
    bpl_mass_is_volume_integral 1 1 4 1 GaussLegendre.onePoint (by norm_num) (by norm_num)
      (by norm_num) 2 (by norm_num) (Or.inr (by norm_num))⟩

/-- C12 as stated fails: for `BPLModel(1, 1, 3.000001, 1)`, which has
`gamma < 3 < beta`, the closed-form mass at `r = 2` (taken from the logarithmic
branch) is not the volume integral of the density. -/
theorem bpl_mass_near_three_not_integral :
    bplNearThree.mass 2
      ≠ 4 * Real.pi * ∫ u in (0 : ℝ)..2, bplNearThree.density u * u ^ 2 := by
  have hI := bpl_volume_integral 1 1 3.000001 1 GaussLegendre.onePoint one_pos (by norm_num)
    (by norm_num) 2 (by norm_num)
  rw [if_neg (by norm_num)] at hI
  have hF := bpl_rhoff_ne_zero 3.000001 1 (by norm_num) (by norm_num)
  intro hc
  have hI' : 4 * Real.pi * ∫ u in (0 : ℝ)..2, bplNearThree.density u * u ^ 2
      = 1 * ((3.000001 - 3) * (3 - 1) / (3.000001 - 1) / (4 * M_PI)) * (4 * Real.pi)
        * (1 / (3 - 1) + (1 - (2 / 1 : ℝ) ^ ((3 : ℝ) - 3.000001)) / (3.000001 - 3)) := hI
  rw [hI'] at hc
  have hm : bplNearThree.mass 2
      = 1 * ((3.000001 - 3) * (3 - 1) / (3.000001 - 1) / (4 * M_PI)) * (4 * M_PI)
        * (1 / (3 - 1) + Real.log (2 / 1)) := by
    dsimp only [bplNearThree, BPLModel.mass, BPLModel.new]
    rw [if_neg (by norm_num), if_pos (by rw [abs_of_nonneg (by norm_num)]; norm_num)]
  rw [hm] at hc
  generalize (3.000001 - 3) * (3 - 1) / (3.000001 - 1) / (4 * M_PI) = F at hF hc
  dsimp only [M_PI] at hc
  have hpi : (4 : ℝ) * Real.pi ≠ 0 := by positivity
  have hcancel : 1 / (3 - 1) + Real.log (2 / 1)
      = 1 / (3 - 1) + (1 - (2 / 1 : ℝ) ^ ((3 : ℝ) - 3.000001)) / (3.000001 - 3) := by
    have h1 : (1 * F * (4 * Real.pi)) ≠ 0 := by
      apply mul_ne_zero (mul_ne_zero one_ne_zero hF) hpi
    exact mul_left_cancel₀ h1 hc
  have hL : 0 < Real.log 2 := Real.log_pos (by norm_num)
  have hpow : (2 / 1 : ℝ) ^ ((3 : ℝ) - 3.000001) = Real.exp (-(0.000001 * Real.log 2)) := by
    rw [Real.rpow_def_of_pos (by norm_num)]
    congr 1
    norm_num
    ring
  have hexp : -(0.000001 * Real.log 2) + 1 < Real.exp (-(0.000001 * Real.log 2)) :=
    Real.add_one_lt_exp (by
      have : 0 < 0.000001 * Real.log 2 := by positivity
      linarith)
  rw [hpow] at hcancel
  have h2 : Real.log (2 / 1) = Real.log 2 := by norm_num
  rw [h2] at hcancel
  generalize Real.exp (-(0.000001 * Real.log 2)) = E at hcancel hexp
  generalize Real.log 2 = L at hcancel hexp hL
  have h3 : (3.000001 : ℝ) - 3 = 0.000001 := by norm_num
  rw [h3] at hcancel
  field_simp at hcancel
  norm_num at hcancel hexp
  nlinarith

set_option maxHeartbeats 2000000 in
/-- C20: for `PlummerModel(1, 1)` and every `r1` in `[0.1, 10]`, at
`eps = 1e-4 * scale_radius()` the direct value `potential(r1) - potential(r1 + eps)`
and the Taylor-branch value
`mass(r1)/r1^2 eps + (2 pi density(r1) - mass(r1)/r1^3) eps^2` differ by at most
`1e-6`. -/
theorem plummer_potential_difference_continuity (r1 : ℝ) (h1 : 0.1 ≤ r1) (h2 : r1 ≤ 10) :
    |(plummerUnit.toModel.potential r1
          - plummerUnit.toModel.potential (r1 + 1e-4 * plummerUnit.toModel.scale_radius))
        - (plummerUnit.toModel.mass r1 / r1 ^ 2 * (1e-4 * plummerUnit.toModel.scale_radius)
            + (2 * Real.pi * plummerUnit.toModel.density r1
                - plummerUnit.toModel.mass r1 / r1 ^ 3)
              * (1e-4 * plummerUnit.toModel.scale_radius) ^ 2)| ≤ 1e-6 := by
  -- The gap between `1/a - 1/c` and its second-order expansion, in terms of
  -- `X = 1/a`, `Y = 1/c` with `a^2 = 1 + r^2`, `c^2 = 1 + (r + eps)^2`: it is at most
  -- `4 eps^2` when `0 ≤ r` and `0 < eps ≤ 1/10`.
  have plummer_taylor_gap : ∀ (r eps X Y : ℝ) (hr : 0 ≤ r) (he : 0 < eps) (he1 : eps ≤ 1 / 10) (hX0 : 0 < X) (hY0 : 0 < Y) (hX : X ^ 2 * (1 + r ^ 2) = 1) (hY : Y ^ 2 * (1 + (r + eps) ^ 2) = 1),
      |X - Y - r * eps * X ^ 3 - (3 / 2 * X ^ 5 - X ^ 3) * eps ^ 2| ≤ 4 * eps ^ 2 := by
    intro r eps X Y hr he he1 hX0 hY0 hX hY
    have hX1 : X ≤ 1 := by
      by_contra h
      have : 1 < X := not_le.mp h
      nlinarith [sq_nonneg r, mul_pos hX0 hX0]
    have hrX : r * X ≤ 1 := by
      by_contra h
      have h1 : 1 < r * X := not_le.mp h
      have h2 : 1 < (r * X) ^ 2 := by nlinarith
      nlinarith [mul_pos hX0 hX0]
    have hrX0 : 0 ≤ r * X := mul_nonneg hr hX0.le
    have hkey : X ^ 2 - Y ^ 2 = (2 * r * eps + eps ^ 2) * X ^ 2 * Y ^ 2 := by
      linear_combination (-(X ^ 2)) * hY + Y ^ 2 * hX
    have hd0 : 0 ≤ 2 * r * eps + eps ^ 2 := by positivity
    have hYX : Y ≤ X := by
      by_contra h
      have h1 : X < Y := not_le.mp h
      have h2 : X ^ 2 < Y ^ 2 := by nlinarith
      have h3 : 0 ≤ (2 * r * eps + eps ^ 2) * X ^ 2 * Y ^ 2 := by positivity
      linarith
    have hu0 : 0 ≤ X - Y := by linarith
    have hprod : (X - Y) * (X + Y) = (2 * r * eps + eps ^ 2) * X ^ 2 * Y ^ 2 := by
      rw [← hkey]
      ring
    have hXY : 0 < X + Y := by linarith
    -- upper bound on X - Y
    have hup : X - Y ≤ (2 * r * eps + eps ^ 2) * X ^ 3 / 2 := by
      have h1 : (X - Y) * (X + Y) ≤ (2 * r * eps + eps ^ 2) * X ^ 3 / 2 * (X + Y) := by
        rw [hprod]
        have h2 : Y ^ 2 ≤ X * (X + Y) / 2 := by nlinarith
        have h3 : 0 ≤ (2 * r * eps + eps ^ 2) * X ^ 2 := by positivity
        calc (2 * r * eps + eps ^ 2) * X ^ 2 * Y ^ 2
            ≤ (2 * r * eps + eps ^ 2) * X ^ 2 * (X * (X + Y) / 2) :=
              mul_le_mul_of_nonneg_left h2 h3
          _ = (2 * r * eps + eps ^ 2) * X ^ 3 / 2 * (X + Y) := by ring
      exact le_of_mul_le_mul_right h1 hXY
    -- lower bound on X - Y
    have hlow : (2 * r * eps + eps ^ 2) * X ^ 3 / 2
        - (2 * r * eps + eps ^ 2) ^ 2 * X ^ 5 / 2 ≤ X - Y := by
      have h1 : (2 * r * eps + eps ^ 2) * X ^ 2 * Y ^ 2 ≤ (X - Y) * (2 * X) := by
        rw [← hprod]
        exact mul_le_mul_of_nonneg_left (by linarith) hu0
      have h2 : (2 * r * eps + eps ^ 2) * X * Y ^ 2 ≤ 2 * (X - Y) := by
        have h3 : ((2 * r * eps + eps ^ 2) * X * Y ^ 2) * X ≤ (2 * (X - Y)) * X := by
          calc ((2 * r * eps + eps ^ 2) * X * Y ^ 2) * X
              = (2 * r * eps + eps ^ 2) * X ^ 2 * Y ^ 2 := by ring
            _ ≤ (X - Y) * (2 * X) := h1
            _ = (2 * (X - Y)) * X := by ring
        exact le_of_mul_le_mul_right h3 hX0
      have h4 : X ^ 2 - 2 * (X - Y) * X ≤ Y ^ 2 := by nlinarith [sq_nonneg (X - Y)]
      have h5 : 0 ≤ (2 * r * eps + eps ^ 2) * X := by positivity
      have h6 : (2 * r * eps + eps ^ 2) * X * (X ^ 2 - 2 * (X - Y) * X)
          ≤ (2 * r * eps + eps ^ 2) * X * Y ^ 2 := mul_le_mul_of_nonneg_left h4 h5
      have h7 : (2 * r * eps + eps ^ 2) * X ^ 2 * (X - Y)
          ≤ (2 * r * eps + eps ^ 2) * X ^ 2 * ((2 * r * eps + eps ^ 2) * X ^ 3 / 2) :=
        mul_le_mul_of_nonneg_left hup (by positivity)
      nlinarith
    -- size of the correction terms
    have hX3 : X ^ 3 ≤ 1 := pow_le_one₀ hX0.le hX1
    have hX3' : 0 ≤ X ^ 3 := by positivity
    have hX5 : X ^ 5 ≤ X ^ 3 := by
      have : X ^ 5 = X ^ 3 * X ^ 2 := by ring
      rw [this]
      have hX2 : X ^ 2 ≤ 1 := pow_le_one₀ hX0.le hX1
      nlinarith
    have hX5' : 0 ≤ X ^ 5 := by positivity
    have hsq : (2 * r * eps + eps ^ 2) ^ 2 * X ^ 5 ≤ eps ^ 2 * (2 + eps) ^ 2 := by
      have e1 : (2 * r * eps + eps ^ 2) ^ 2 * X ^ 5
          = eps ^ 2 * X ^ 3 * (2 * (r * X) + eps * X) ^ 2 := by ring
      rw [e1]
      have h0 : eps * X ≤ eps * 1 := mul_le_mul_of_nonneg_left hX1 he.le
      have h1 : 2 * (r * X) + eps * X ≤ 2 + eps := by linarith
      have h2 : 0 ≤ 2 * (r * X) + eps * X := by positivity
      have h3 : (2 * (r * X) + eps * X) ^ 2 ≤ (2 + eps) ^ 2 := pow_le_pow_left₀ h2 h1 2
      have h4 : 0 ≤ eps ^ 2 * X ^ 3 := by positivity
      have h5 : eps ^ 2 * X ^ 3 ≤ eps ^ 2 := by
        have := mul_le_mul_of_nonneg_left hX3 (sq_nonneg eps)
        linarith
      calc eps ^ 2 * X ^ 3 * (2 * (r * X) + eps * X) ^ 2
          ≤ eps ^ 2 * X ^ 3 * (2 + eps) ^ 2 := mul_le_mul_of_nonneg_left h3 h4
        _ ≤ eps ^ 2 * (2 + eps) ^ 2 := mul_le_mul_of_nonneg_right h5 (by positivity)
    have he2 : 0 ≤ eps ^ 2 := by positivity
    have hb : (2 + eps) ^ 2 ≤ 5 := by nlinarith
    have hA : eps ^ 2 * X ^ 3 ≤ eps ^ 2 := by
      have := mul_le_mul_of_nonneg_left hX3 he2
      linarith
    have hA0 : 0 ≤ eps ^ 2 * X ^ 3 := by positivity
    have hB : eps ^ 2 * X ^ 5 ≤ eps ^ 2 := by
      have := mul_le_mul_of_nonneg_left (hX5.trans hX3) he2
      linarith
    have hB0 : 0 ≤ eps ^ 2 * X ^ 5 := by positivity
    have hC : (2 * r * eps + eps ^ 2) ^ 2 * X ^ 5 ≤ 5 * eps ^ 2 := by
      have := mul_le_mul_of_nonneg_left hb he2
      linarith
    have hup' : X - Y - r * eps * X ^ 3 ≤ eps ^ 2 * X ^ 3 / 2 := by
      have e : (2 * r * eps + eps ^ 2) * X ^ 3 / 2 = r * eps * X ^ 3 + eps ^ 2 * X ^ 3 / 2 := by
        ring
      linarith
    have hlow' : eps ^ 2 * X ^ 3 / 2 - (2 * r * eps + eps ^ 2) ^ 2 * X ^ 5 / 2
        ≤ X - Y - r * eps * X ^ 3 := by
      have e : (2 * r * eps + eps ^ 2) * X ^ 3 / 2 = r * eps * X ^ 3 + eps ^ 2 * X ^ 3 / 2 := by
        ring
      linarith
    have hT : (3 / 2 * X ^ 5 - X ^ 3) * eps ^ 2 = 3 / 2 * (eps ^ 2 * X ^ 5) - eps ^ 2 * X ^ 3 := by
      ring
    rw [abs_le, hT]
    constructor
    · linarith
    · linarith
  have hr0 : 0 < r1 := by
    have : (0 : ℝ) < 0.1 := by norm_num
    linarith
  have hpi := Real.pi_pos
  have key : ∀ x : ℝ, 0 < 1 + x * x := fun x => by nlinarith [mul_self_nonneg x]
  have ha : 0 < Real.sqrt (1 + r1 * r1) := Real.sqrt_pos.mpr (key r1)
  have hc : 0 < Real.sqrt (1 + (r1 + 1e-4) * (r1 + 1e-4)) := Real.sqrt_pos.mpr (key _)
  have ha2 : Real.sqrt (1 + r1 * r1) ^ 2 = 1 + r1 * r1 := Real.sq_sqrt (key r1).le
  have hc2 : Real.sqrt (1 + (r1 + 1e-4) * (r1 + 1e-4)) ^ 2 = 1 + (r1 + 1e-4) * (r1 + 1e-4) :=
    Real.sq_sqrt (key _).le
  have hgap := plummer_taylor_gap r1 1e-4 (Real.sqrt (1 + r1 * r1))⁻¹
    (Real.sqrt (1 + (r1 + 1e-4) * (r1 + 1e-4)))⁻¹ hr0.le (by norm_num) (by norm_num)
    (inv_pos.mpr ha) (inv_pos.mpr hc)
    (by rw [inv_pow, ha2]; field_simp; ring)
    (by rw [inv_pow, hc2]; field_simp; ring)
  have hval : (plummerUnit.toModel.potential r1
          - plummerUnit.toModel.potential (r1 + 1e-4 * plummerUnit.toModel.scale_radius))
        - (plummerUnit.toModel.mass r1 / r1 ^ 2 * (1e-4 * plummerUnit.toModel.scale_radius)
            + (2 * Real.pi * plummerUnit.toModel.density r1
                - plummerUnit.toModel.mass r1 / r1 ^ 3)
              * (1e-4 * plummerUnit.toModel.scale_radius) ^ 2)
      = (Real.sqrt (1 + r1 * r1))⁻¹ - (Real.sqrt (1 + (r1 + 1e-4) * (r1 + 1e-4)))⁻¹
        - r1 * 1e-4 * (Real.sqrt (1 + r1 * r1))⁻¹ ^ 3
        - (3 / 2 * (Real.sqrt (1 + r1 * r1))⁻¹ ^ 5 - (Real.sqrt (1 + r1 * r1))⁻¹ ^ 3)
          * (1e-4) ^ 2 := by
    dsimp only [plummerUnit, PlummerModel.toModel, PlummerModel.new, PlummerModel.potential,
      PlummerModel.mass, PlummerModel.density, PlummerModel.scale_radius, M_PI]
    simp only [div_one, mul_one, one_pow]
    generalize Real.sqrt (1 + r1 * r1) = a at ha
    generalize Real.sqrt (1 + (r1 + 1e-4) * (r1 + 1e-4)) = c at hc
    have hr0' := hr0.ne'
    field_simp
    ring
  rw [hval]
  refine hgap.trans ?_
  norm_num

/-- C20 at `r1 = 1`. -/
theorem plummer_potential_difference_continuity_witness :
    (0.1 : ℝ) ≤ 1 ∧ (1 : ℝ) ≤ 10 ∧
    |(plummerUnit.toModel.potential 1
          - plummerUnit.toModel.potential (1 + 1e-4 * plummerUnit.toModel.scale_radius))
        - (plummerUnit.toModel.mass 1 / 1 ^ 2 * (1e-4 * plummerUnit.toModel.scale_radius)
            + (2 * Real.pi * plummerUnit.toModel.density 1
                - plummerUnit.toModel.mass 1 / 1 ^ 3)
              * (1e-4 * plummerUnit.toModel.scale_radius) ^ 2)| ≤ 1e-6 :=
  ⟨by norm_num, by norm_num,
    plummer_potential_difference_continuity 1 (by norm_num) (by norm_num)⟩

set_option maxHeartbeats 1600000 in
/-- C21 (as stated) fails: for `PlummerModel(1, 1)` and the radii `r1 = 2 ≥ r2 = 1`
the function returns the ordinary number `-27 / (50 sqrt 5)`, not a NaN, an
infinity or a failure. -/
theorem potential_difference_reversed_radii_ordinary :
    (2 : ℝ) ≥ 1 ∧
      plummerUnit.toModel.potential_difference_value 2 1
        = some (-27 / (50 * Real.sqrt 5)) := by
  -- The Plummer model `PlummerModel(1, 1)` at radius `2`: mass and density.
  have plummerUnit_at_two :
      plummerUnit.toModel.mass 2 = 8 / (5 * Real.sqrt 5) ∧
      plummerUnit.toModel.density 2 = 3 / (4 * Real.pi) / (25 * Real.sqrt 5) := by
    have h5 : (0 : ℝ) ≤ 5 := by norm_num
    have hs : Real.sqrt 5 ^ 2 = 5 := Real.sq_sqrt h5
    have hpos : 0 < Real.sqrt 5 := Real.sqrt_pos.mpr (by norm_num)
    have e : (1 : ℝ) + 2 * 2 = 5 := by norm_num
    have h3 : Real.sqrt 5 ^ 3 = 5 * Real.sqrt 5 := by
      calc Real.sqrt 5 ^ 3 = Real.sqrt 5 ^ 2 * Real.sqrt 5 := by ring
        _ = 5 * Real.sqrt 5 := by rw [hs]
    have h5p : Real.sqrt 5 ^ 5 = 25 * Real.sqrt 5 := by
      calc Real.sqrt 5 ^ 5 = Real.sqrt 5 ^ 2 * Real.sqrt 5 ^ 2 * Real.sqrt 5 := by ring
        _ = 25 * Real.sqrt 5 := by rw [hs]; ring
    constructor
    · dsimp only [plummerUnit, PlummerModel.toModel, PlummerModel.new, PlummerModel.mass]
      simp only [div_one, e]
      rw [div_pow, h3]
      norm_num
    · dsimp only [plummerUnit, PlummerModel.toModel, PlummerModel.new, PlummerModel.density, M_PI]
      simp only [div_one, e, one_pow]
      rw [h5p]
      norm_num
  refine ⟨by norm_num, ?_⟩
  have hpos : 0 < Real.sqrt 5 := Real.sqrt_pos.mpr (by norm_num)
  have hpi := Real.pi_pos
  have hsr : plummerUnit.toModel.scale_radius = 1 := rfl
  have hc : ¬ ((1 : ℝ) - 2 > 1e-4 * plummerUnit.toModel.scale_radius) := by
    rw [hsr]
    norm_num
  have hz : ¬ ((2 : ℝ) * 2 = 0 ∨ (2 : ℝ) ^ 3 = 0) := by norm_num
  dsimp only [Model.potential_difference_value]
  rw [if_neg hc, if_neg hz, plummerUnit_at_two.1, plummerUnit_at_two.2]
  congr 1
  dsimp only [M_PI]
  field_simp
  ring

/-- C21 (amended): `Model::potential_difference` makes no check on the order of
the radii. For a model with `scale_radius() ≥ 0` and radii `r1 ≥ r2`, it returns
the ordinary value of the Taylor expression
`M(r1)/r1^2 eps + (2 pi rho(r1) - M(r1)/r1^3) eps^2` at `eps = r2 - r1 ≤ 0` when
`r1 ≠ 0`, and divides by zero when `r1 = 0`. -/
theorem potential_difference_reversed_radii (m : Model) (r1 r2 : ℝ)
    (hs : 0 ≤ m.scale_radius) (h : r1 ≥ r2) :
    (r1 ≠ 0 →
      m.potential_difference_value r1 r2
          = some (m.mass r1 / r1 ^ 2 * (r2 - r1)
              + (2 * Real.pi * m.density r1 - m.mass r1 / r1 ^ 3) * (r2 - r1) ^ 2) ∧
        m.potential_difference_value r1 r2 = some (m.potential_difference r1 r2)) ∧
    (r1 = 0 → m.potential_difference_value r1 r2 = none) := by
  have hc : ¬ (r2 - r1 > 1e-4 * m.scale_radius) := by
    have h0 : (0 : ℝ) ≤ 1e-4 * m.scale_radius := mul_nonneg (by norm_num) hs
    have h1 : r2 - r1 ≤ 0 := by linarith
    exact not_lt.mpr (h1.trans h0)
  constructor
  · intro hr
    have hz : ¬ (r1 * r1 = 0 ∨ r1 ^ 3 = 0) := by
      intro hz
      rcases hz with hz | hz
      · exact hr (mul_self_eq_zero.mp hz)
      · exact hr (pow_eq_zero_iff (by norm_num) |>.mp hz)
    constructor
    · dsimp only [Model.potential_difference_value]
      rw [if_neg hc, if_neg hz]
      congr 1
      dsimp only [M_PI]
      ring
    · dsimp only [Model.potential_difference_value, Model.potential_difference]
      rw [if_neg hc, if_neg hz, if_neg hc]
  · intro hr
    have hz : r1 * r1 = 0 ∨ r1 ^ 3 = 0 := Or.inl (by rw [hr]; ring)
    dsimp only [Model.potential_difference_value]
    rw [if_neg hc, if_pos hz]

/-- C21 (amended) at `PlummerModel(1, 1)`: the radii `r1 = 2`, `r2 = 1` give the
Taylor value, the radii `r1 = 0`, `r2 = -1` a division by zero. -/
theorem potential_difference_reversed_radii_witness :
    0 ≤ plummerUnit.toModel.scale_radius ∧ (2 : ℝ) ≥ 1 ∧ (2 : ℝ) ≠ 0 ∧
      plummerUnit.toModel.potential_difference_value 2 1
          = some (plummerUnit.toModel.mass 2 / 2 ^ 2 * (1 - 2)
              + (2 * Real.pi * plummerUnit.toModel.density 2
                  - plummerUnit.toModel.mass 2 / 2 ^ 3) * (1 - 2) ^ 2) ∧
      plummerUnit.toModel.potential_difference_value 2 1
          = some (plummerUnit.toModel.potential_difference 2 1) ∧
      (0 : ℝ) ≥ -1 ∧ plummerUnit.toModel.potential_difference_value 0 (-1) = none := by
  have hs : 0 ≤ plummerUnit.toModel.scale_radius := by
    have e : plummerUnit.toModel.scale_radius = 1 := rfl
    rw [e]
    norm_num
  have h2 : (2 : ℝ) ≠ 0 := by norm_num
  have ha := (potential_difference_reversed_radii plummerUnit.toModel 2 1 hs (by norm_num)).1 h2
  have hb := (potential_difference_reversed_radii plummerUnit.toModel 0 (-1) hs
    (by norm_num)).2 rfl
  exact ⟨hs, by norm_num, h2, ha.1, ha.2, by norm_num, hb⟩

/-- C23 at a failing input: for `BurkertModel(rhos = 2, rs = 3)` the function
`scale_radius()` returns `2`, the density scale, and not the scale radius `3`. -/
theorem burkert_scale_radius_returns_rhos :
    burkertTwoThree.scale_radius = 2 ∧ burkertTwoThree._rs = 3 ∧
      burkertTwoThree.scale_radius ≠ burkertTwoThree._rs := by
  have h1 : burkertTwoThree.scale_radius = 2 := rfl
  have h2 : burkertTwoThree._rs = 3 := rfl
  refine ⟨h1, h2, ?_⟩
  rw [h1, h2]
  norm_num

set_option maxHeartbeats 1600000 in
/-- C25: for an `NFWModel` with scale radius `rs > 0` and concentration `c > 0`,
the mass inside the virial radius `c * scale_radius()` is the virial mass. -/
theorem nfw_mass_at_virial_radius (Mvir rs c : ℝ) (gl : GaussLegendre)
    (hrs : 0 < rs) (hc : 0 < c) :
    (NFWModel.new Mvir rs c gl).mass (c * (NFWModel.new Mvir rs c gl).scale_radius) = Mvir := by
  -- For `c > 0` the NFW normalisation `log(1 + c) - c/(1 + c)` is positive.
  have nfw_normalisation_pos : ∀ (c : ℝ) (hc : 0 < c),
      0 < Real.log (1 + c) - c / (1 + c) := by
    intro c hc
    have h1 : 0 < 1 + c := by linarith
    have h2 : 0 < (1 + c)⁻¹ := inv_pos.mpr h1
    have h3 : (1 + c)⁻¹ ≠ 1 := by
      intro h
      have : 1 + c = 1 := by
        have := congrArg (fun x => x⁻¹) h
        simpa using this
      linarith
    have h4 := Real.log_lt_sub_one_of_pos h2 h3
    rw [Real.log_inv] at h4
    have h5 : c / (1 + c) = 1 - (1 + c)⁻¹ := by
      field_simp
    rw [h5]
    linarith
  have hn := (nfw_normalisation_pos c hc).ne'
  have hpi := Real.pi_pos.ne'
  dsimp only [NFWModel.mass, NFWModel.new, NFWModel.scale_radius, M_PI]
  have e : c * rs / rs = c := by field_simp
  rw [e]
  generalize Real.log (1 + c) - c / (1 + c) = L at hn
  field_simp
  ring

/-- C25 at `NFWModel(1, 10, 5)`. -/
theorem nfw_mass_at_virial_radius_witness :
    (0 : ℝ) < 10 ∧ (0 : ℝ) < 5 ∧
      (NFWModel.new 1 10 5 GaussLegendre.onePoint).mass
        (5 * (NFWModel.new 1 10 5 GaussLegendre.onePoint).scale_radius) = 1 :=
  ⟨by norm_num, by norm_num,
    nfw_mass_at_virial_radius 1 10 5 GaussLegendre.onePoint (by norm_num) (by norm_num)⟩

set_option maxHeartbeats 1600000 in
/-- C26: for an `IsochroneModel` with `b > 0` and every `r ≥ 0`, `density(r)` is
the documented isochrone density
`Mtot/(4 pi) [3 (b + a)(r^2 + b^2) - r^2 (b + 3a)] / [(b + a)^3 (r^2 + b^2)^(3/2)]`
with `a = sqrt(r^2 + b^2)`. -/
theorem isochrone_density_documented (Mtot b : ℝ) (gl : GaussLegendre) (hb : 0 < b)
    (r : ℝ) (hr : 0 ≤ r) :
    (IsochroneModel.new Mtot b gl).density r
      = Mtot / (4 * Real.pi)
        * ((3 * (b + Real.sqrt (r ^ 2 + b ^ 2)) * (r ^ 2 + b ^ 2)
              - r ^ 2 * (b + 3 * Real.sqrt (r ^ 2 + b ^ 2)))
            / ((b + Real.sqrt (r ^ 2 + b ^ 2)) ^ 3 * (r ^ 2 + b ^ 2) ^ ((3 : ℝ) / 2))) := by
  -- The isochrone density as a rational function of `isochroneU`.
  have isochrone_density_eq : ∀ (Mtot b : ℝ) (gl : GaussLegendre),
      (IsochroneModel.new Mtot b gl).density = fun x => Mtot / b ^ 3 * (1 + 2 * isochroneU b x)
      / (4 * Real.pi * isochroneU b x ^ 3 * (1 + isochroneU b x) ^ 2) := by
    intro Mtot b gl
    exact rfl
  have hpi := Real.pi_pos.ne'
  have hb0 := hb.ne'
  have hu := isochroneU_pos b r
  have hu2 := isochroneU_sq b r
  have hrb : r ^ 2 + b ^ 2 = (b * isochroneU b r) ^ 2 := by
    rw [mul_pow, hu2]
    field_simp
    ring
  have hbu : 0 ≤ b * isochroneU b r := (mul_pos hb hu).le
  have ha : Real.sqrt (r ^ 2 + b ^ 2) = b * isochroneU b r := by
    rw [hrb, Real.sqrt_sq hbu]
  have hpow : (r ^ 2 + b ^ 2) ^ ((3 : ℝ) / 2) = (b * isochroneU b r) ^ 3 := by
    rw [hrb, ← Real.rpow_natCast, ← Real.rpow_mul hbu, ← Real.rpow_natCast]
    norm_num
  have hr2 : r ^ 2 = b ^ 2 * (isochroneU b r ^ 2 - 1) := by
    rw [hu2]
    field_simp
    ring
  rw [isochrone_density_eq, ha, hpow, hrb, hr2]
  beta_reduce
  generalize isochroneU b r = u at hu
  have h1u : 1 + u ≠ 0 := by positivity
  have hu0 := hu.ne'
  field_simp
  ring

/-- C26 at `IsochroneModel(1, 1)`, `r = 1`. -/
theorem isochrone_density_documented_witness :
    (0 : ℝ) < 1 ∧ (0 : ℝ) ≤ 1 ∧
    (IsochroneModel.new 1 1 GaussLegendre.onePoint).density 1
      = 1 / (4 * Real.pi)
        * ((3 * (1 + Real.sqrt (1 ^ 2 + 1 ^ 2)) * (1 ^ 2 + 1 ^ 2)
              - 1 ^ 2 * (1 + 3 * Real.sqrt (1 ^ 2 + 1 ^ 2)))
            / ((1 + Real.sqrt (1 ^ 2 + 1 ^ 2)) ^ 3 * (1 ^ 2 + 1 ^ 2) ^ ((3 : ℝ) / 2))) :=
  ⟨by norm_num, by norm_num,
    isochrone_density_documented 1 1 GaussLegendre.onePoint (by norm_num) 1 (by norm_num)⟩

/-- The pseudo-density and its first derivative have the stated derivatives
wherever `density` and `derivative_density` do. -/
theorem pseudo_density_hasDerivAt (m : Model) (ra u : ℝ)
    (hd : HasDerivAt m.density (m.derivative_density u) u)
    (hd2 : HasDerivAt m.derivative_density (m.second_derivative_density u) u) :
    HasDerivAt (m.pseudo_density ra) (m.derivative_pseudo_density ra u) u ∧
      HasDerivAt (m.derivative_pseudo_density ra) (m.second_derivative_pseudo_density ra u) u := by
  have hz : HasDerivAt (fun x : ℝ => 1 + x ^ 2 / ra ^ 2) (2 * u / ra ^ 2) u := by
    have h := (((hasDerivAt_id u).pow 2).div_const (ra ^ 2)).const_add 1
    refine h.congr_deriv ?_
    simp
  have hw : HasDerivAt (fun x : ℝ => 2 * x / ra ^ 2) (2 / ra ^ 2) u := by
    have h := ((hasDerivAt_id u).const_mul 2).div_const (ra ^ 2)
    refine h.congr_deriv ?_
    simp
  constructor
  · exact hz.mul hd
  · have h := (hw.mul hd).add (hz.mul hd2)
    have hfun : m.derivative_pseudo_density ra
        = (fun x => 2 * x / ra ^ 2 * m.density x)
          + fun x => (1 + x ^ 2 / ra ^ 2) * m.derivative_density x := rfl
    rw [hfun]
    refine h.congr_deriv ?_
    dsimp only [Model.second_derivative_pseudo_density]
    ring

/-- The function `Delta_Q` of the code is the derivative of
`u^2 rho_Q'(u) / M(u)`, that is of `-d rho_Q / d Psi`, when the mass has
derivative `4 pi u^2 rho(u)`: the last term carries the density `rho` itself. -/
theorem osipkov_merritt_DeltaQ_hasDerivAt (m : Model) (ra u : ℝ) (hu : u ≠ 0)
    (hM : m.mass u ≠ 0)
    (hd : HasDerivAt m.density (m.derivative_density u) u)
    (hd2 : HasDerivAt m.derivative_density (m.second_derivative_density u) u)
    (hm : HasDerivAt m.mass (4 * Real.pi * u ^ 2 * m.density u) u) :
    HasDerivAt (fun x => x ^ 2 * m.derivative_pseudo_density ra x / m.mass x)
      (u ^ 2 / m.mass u
        * (m.second_derivative_pseudo_density ra u
            + m.derivative_pseudo_density ra u
              * (2 / u - 4 * Real.pi * m.density u * u ^ 2 / m.mass u))) u := by
  have hq := (pseudo_density_hasDerivAt m ra u hd hd2).2
  have h := (((hasDerivAt_id u).pow 2).mul hq).div hm hM
  refine h.congr_deriv ?_
  simp only [id]
  generalize m.second_derivative_pseudo_density ra u = A
  generalize m.derivative_pseudo_density ra u = B
  generalize m.mass u = M at hM
  field_simp
  ring

/-- C22 (as stated) fails: for `PlummerModel(1, 1)`, `r = 5/12`, `ra = 1` and
`u = 3/4` the integrand of the code differs from the documented formula, which
has `rho_Q` where the code has `rho`. -/
theorem osipkov_merritt_integrand_not_documented :
    (0 : ℝ) < 5 / 12 ∧ (0 : ℝ) < 1 ∧
      plummerUnit.toModel.osipkov_merritt_distribution_function_integrand (5 / 12) 1 (3 / 4)
        ≠ plummerUnit.toModel.osipkov_merritt_integrand_documented (5 / 12) 1 (3 / 4) := by
  refine ⟨by norm_num, by norm_num, ?_⟩
  have hz1 : Real.sqrt (1 + 3 / 4 * (3 / 4)) = 5 / 4 := by
    rw [show (1 : ℝ) + 3 / 4 * (3 / 4) = (5 / 4) ^ 2 by norm_num]
    exact Real.sqrt_sq (by norm_num)
  have hz2 : Real.sqrt (1 + 5 / 12 * (5 / 12)) = 13 / 12 := by
    rw [show (1 : ℝ) + 5 / 12 * (5 / 12) = (13 / 12) ^ 2 by norm_num]
    exact Real.sqrt_sq (by norm_num)
  have hpi := Real.pi_pos.ne'
  have hpd : plummerUnit.toModel.potential_difference (5 / 12) (3 / 4)
      = plummerUnit.toModel.potential (5 / 12) - plummerUnit.toModel.potential (3 / 4) := by
    have hsr : plummerUnit.toModel.scale_radius = 1 := rfl
    dsimp only [Model.potential_difference]
    rw [if_pos (by rw [hsr]; norm_num)]
  have hpot : plummerUnit.toModel.potential (5 / 12) - plummerUnit.toModel.potential (3 / 4)
      = 8 / 65 := by
    dsimp only [plummerUnit, PlummerModel.toModel, PlummerModel.new, PlummerModel.potential]
    simp only [div_one, hz1, hz2]
    norm_num
  have hS : 0 < Real.sqrt |(8 / 65 : ℝ)| := Real.sqrt_pos.mpr (by norm_num)
  have hM : plummerUnit.toModel.mass (3 / 4) = 27 / 125 := by
    dsimp only [plummerUnit, PlummerModel.toModel, PlummerModel.new, PlummerModel.mass]
    simp only [div_one, hz1]
    norm_num
  have hrho : plummerUnit.toModel.density (3 / 4) = 3072 / 3125 / (4 * Real.pi) := by
    dsimp only [plummerUnit, PlummerModel.toModel, PlummerModel.new, PlummerModel.density, M_PI]
    simp only [div_one, hz1, one_pow]
    field_simp
    ring
  have hdrho : plummerUnit.toModel.derivative_density (3 / 4)
      = -(36864 / 15625) / (4 * Real.pi) := by
    dsimp only [plummerUnit, PlummerModel.toModel, PlummerModel.new,
      PlummerModel.derivative_density, M_PI]
    simp only [div_one, hz1, one_pow]
    field_simp
    ring
  have hd2rho : plummerUnit.toModel.second_derivative_density (3 / 4)
      = 9338880 / 1953125 / (4 * Real.pi) := by
    dsimp only [plummerUnit, PlummerModel.toModel, PlummerModel.new,
      PlummerModel.second_derivative_density, M_PI]
    simp only [div_one, hz1, one_pow]
    field_simp
    ring
  intro h
  dsimp only [Model.osipkov_merritt_distribution_function_integrand,
    Model.osipkov_merritt_integrand_documented, Model.pseudo_density,
    Model.derivative_pseudo_density, Model.second_derivative_pseudo_density, M_PI] at h
  simp only [hpd, hpot, hM, hrho, hdrho, hd2rho] at h
  generalize Real.sqrt |(8 / 65 : ℝ)| = S at hS h
  have hS0 := hS.ne'
  have hP : 0 < Real.pi ^ 11 * S := by positivity
  field_simp at h
  ring_nf at h
  linarith

/-- C22 (amended): for `r > 0` and `ra > 0` the integrand of
`osipkov_merritt_distribution_function` at `u` is
`Delta_Q(u) / sqrt(|potential_difference(r, u)|)` with
`Delta_Q(u) = u^2/M(u) [rho_Q''(u) + rho_Q'(u) (2/u - 4 pi rho(u) u^2/M(u))]`, the
last term carrying the density `rho` itself; `potential_difference(r, u)` is
`Psi(r) - Psi(u)` when `u - r > 1e-4 scale_radius()`; and `rho_Q'`, `rho_Q''` are
the derivatives of `rho_Q(u) = (1 + u^2/ra^2) rho(u)` wherever
`derivative_density` and `second_derivative_density` are those of `density`. -/
theorem osipkov_merritt_integrand_formula (m : Model) (r ra u : ℝ) (hr : 0 < r)
    (hra : 0 < ra) :
    m.osipkov_merritt_distribution_function r ra
        = 1 / (2 * Real.sqrt 2 * Real.pi * Real.pi)
          * m._gl.integrate_r_infty
              (m.osipkov_merritt_distribution_function_integrand r ra) r m.scale_radius ∧
    m.osipkov_merritt_distribution_function_integrand r ra u
        = u ^ 2 / m.mass u
            * (m.second_derivative_pseudo_density ra u
                + m.derivative_pseudo_density ra u
                  * (2 / u - 4 * Real.pi * m.density u * u ^ 2 / m.mass u))
          / Real.sqrt |m.potential_difference r u| ∧
    (u - r > 1e-4 * m.scale_radius →
      m.osipkov_merritt_distribution_function_integrand r ra u
        = u ^ 2 / m.mass u
            * (m.second_derivative_pseudo_density ra u
                + m.derivative_pseudo_density ra u
                  * (2 / u - 4 * Real.pi * m.density u * u ^ 2 / m.mass u))
          / Real.sqrt |m.potential r - m.potential u|) ∧
    (HasDerivAt m.density (m.derivative_density u) u →
      HasDerivAt m.derivative_density (m.second_derivative_density u) u →
      HasDerivAt (m.pseudo_density ra) (m.derivative_pseudo_density ra u) u ∧
        HasDerivAt (m.derivative_pseudo_density ra)
          (m.second_derivative_pseudo_density ra u) u) := by
  have hform : m.osipkov_merritt_distribution_function_integrand r ra u
        = u ^ 2 / m.mass u
            * (m.second_derivative_pseudo_density ra u
                + m.derivative_pseudo_density ra u
                  * (2 / u - 4 * Real.pi * m.density u * u ^ 2 / m.mass u))
          / Real.sqrt |m.potential_difference r u| := by
    dsimp only [Model.osipkov_merritt_distribution_function_integrand,
      Model.derivative_pseudo_density, Model.second_derivative_pseudo_density, M_PI]
    congr 1
    ring
  refine ⟨rfl, hform, ?_, pseudo_density_hasDerivAt m ra u⟩
  intro h
  have hpd : m.potential_difference r u = m.potential r - m.potential u := by
    dsimp only [Model.potential_difference]
    rw [if_pos h]
  rw [hform, hpd]

set_option maxHeartbeats 1600000 in
/-- C22 (amended) at `PlummerModel(1, 1)`, `r = 5/12`, `ra = 1`, `u = 3/4`. -/
theorem osipkov_merritt_integrand_formula_witness :
    (0 : ℝ) < 5 / 12 ∧ (0 : ℝ) < 1 ∧
    plummerUnit.toModel.osipkov_merritt_distribution_function_integrand (5 / 12) 1 (3 / 4)
        = (3 / 4) ^ 2 / plummerUnit.toModel.mass (3 / 4)
            * (plummerUnit.toModel.second_derivative_pseudo_density 1 (3 / 4)
                + plummerUnit.toModel.derivative_pseudo_density 1 (3 / 4)
                  * (2 / (3 / 4) - 4 * Real.pi * plummerUnit.toModel.density (3 / 4)
                      * (3 / 4) ^ 2 / plummerUnit.toModel.mass (3 / 4)))
          / Real.sqrt |plummerUnit.toModel.potential_difference (5 / 12) (3 / 4)| ∧
    (3 / 4 : ℝ) - 5 / 12 > 1e-4 * plummerUnit.toModel.scale_radius ∧
    plummerUnit.toModel.osipkov_merritt_distribution_function_integrand (5 / 12) 1 (3 / 4)
        = (3 / 4) ^ 2 / plummerUnit.toModel.mass (3 / 4)
            * (plummerUnit.toModel.second_derivative_pseudo_density 1 (3 / 4)
                + plummerUnit.toModel.derivative_pseudo_density 1 (3 / 4)
                  * (2 / (3 / 4) - 4 * Real.pi * plummerUnit.toModel.density (3 / 4)
                      * (3 / 4) ^ 2 / plummerUnit.toModel.mass (3 / 4)))
          / Real.sqrt |plummerUnit.toModel.potential (5 / 12)
              - plummerUnit.toModel.potential (3 / 4)| ∧
    HasDerivAt (plummerUnit.toModel.pseudo_density 1)
      (plummerUnit.toModel.derivative_pseudo_density 1 (3 / 4)) (3 / 4) ∧
    HasDerivAt (plummerUnit.toModel.derivative_pseudo_density 1)
      (plummerUnit.toModel.second_derivative_pseudo_density 1 (3 / 4)) (3 / 4) := by
  -- The Plummer density has `derivative_density` as its derivative.
  have plummer_density_hasDerivAt : ∀ (Mtot c : ℝ) (gl : GaussLegendre) (hc : c ≠ 0) (r : ℝ),
      HasDerivAt (PlummerModel.new Mtot c gl).density
      ((PlummerModel.new Mtot c gl).derivative_density r) r := by
    intro Mtot c gl hc r
    have hU := isochroneU_hasDerivAt c r hc
    have hu := isochroneU_pos c r
    have hpi := Real.pi_pos.ne'
    have h5 := hU.pow 5
    have hq := (hasDerivAt_const r (Mtot / c ^ 3 * 3 / (4 * Real.pi))).div h5
      (pow_pos hu 5).ne'
    have hfun : (PlummerModel.new Mtot c gl).density
        = fun x => Mtot / c ^ 3 * 3 / (4 * Real.pi) / isochroneU c x ^ 5 := rfl
    have hval : (PlummerModel.new Mtot c gl).derivative_density r
        = -(Mtot / c ^ 4) * 15 / (4 * Real.pi) * (r / c) / isochroneU c r ^ 7 := rfl
    rw [hfun, hval]
    refine hq.congr_deriv ?_
    generalize isochroneU c r = U at hu
    have hU0 := hu.ne'
    field_simp
    ring
  -- The Plummer `derivative_density` has `second_derivative_density` as its
  -- derivative.
  have plummer_derivative_density_hasDerivAt : ∀ (Mtot c : ℝ) (gl : GaussLegendre) (hc : c ≠ 0) (r : ℝ),
      HasDerivAt (PlummerModel.new Mtot c gl).derivative_density
      ((PlummerModel.new Mtot c gl).second_derivative_density r) r := by
    intro Mtot c gl hc r
    have hU := isochroneU_hasDerivAt c r hc
    have hu := isochroneU_pos c r
    have hu2 := isochroneU_sq c r
    have hpi := Real.pi_pos.ne'
    have h7 := hU.pow 7
    have hx : HasDerivAt (fun x : ℝ => -(Mtot / c ^ 4) * 15 / (4 * Real.pi) * (x / c))
        (-(Mtot / c ^ 4) * 15 / (4 * Real.pi) * (1 / c)) r :=
      ((hasDerivAt_id r).div_const c).const_mul _
    have hq := hx.div h7 (pow_pos hu 7).ne'
    have hfun : (PlummerModel.new Mtot c gl).derivative_density
        = fun x => -(Mtot / c ^ 4) * 15 / (4 * Real.pi) * (x / c) / isochroneU c x ^ 7 := rfl
    have hval : (PlummerModel.new Mtot c gl).second_derivative_density r
        = Mtot / c ^ 5 * 15 / (4 * Real.pi) * (6 * (r / c) * (r / c) - 1)
            / isochroneU c r ^ 9 := rfl
    rw [hfun, hval]
    refine hq.congr_deriv ?_
    have ht : r / c * (r / c) = isochroneU c r ^ 2 - 1 := by rw [hu2]; ring
    have e : 6 * (r / c) * (r / c) - 1 = 6 * isochroneU c r ^ 2 - 7 := by
      rw [mul_assoc, ht]
      ring
    rw [e]
    have key : ∀ U t : ℝ, 0 < U → t * t = U ^ 2 - 1 →
        (-(Mtot / c ^ 4) * 15 / (4 * Real.pi) * (1 / c) * U ^ 7
            - -(Mtot / c ^ 4) * 15 / (4 * Real.pi) * t * (7 * U ^ (7 - 1) * (t / (c * U))))
          / (U ^ 7) ^ 2
        = Mtot / c ^ 5 * 15 / (4 * Real.pi) * (6 * U ^ 2 - 7) / U ^ 9 := by
      intro U t hU0 htt
      have hU1 := hU0.ne'
      have e1 : (-(Mtot / c ^ 4) * 15 / (4 * Real.pi) * (1 / c) * U ^ 7
            - -(Mtot / c ^ 4) * 15 / (4 * Real.pi) * t * (7 * U ^ (7 - 1) * (t / (c * U))))
          = Mtot / c ^ 5 * 15 / (4 * Real.pi) * U ^ 5 * (7 * (t * t) - U ^ 2) := by
        field_simp
        ring
      rw [e1, htt]
      field_simp
      ring
    exact key _ _ hu ht
  have h := osipkov_merritt_integrand_formula plummerUnit.toModel (5 / 12) 1 (3 / 4)
    (by norm_num) (by norm_num)
  have hgt : (3 / 4 : ℝ) - 5 / 12 > 1e-4 * plummerUnit.toModel.scale_radius := by
    have e : plummerUnit.toModel.scale_radius = 1 := rfl
    rw [e]
    norm_num
  have hd := plummer_density_hasDerivAt 1 1 GaussLegendre.onePoint one_ne_zero (3 / 4)
  have hd2 := plummer_derivative_density_hasDerivAt 1 1 GaussLegendre.onePoint one_ne_zero
    (3 / 4)
  have hder := h.2.2.2 hd hd2
  exact ⟨by norm_num, by norm_num, h.2.1, hgt, h.2.2.1 hgt, hder.1, hder.2⟩

/-- The search returns the value of the first matching entry among the first
`fuel` entries. -/
theorem tableSearch_eq_some (x : ℝ) (fuel : ℕ) (table : List (ℝ × ℝ))
    (last : Option (ℝ × ℝ)) (i : ℕ) (hi : i < fuel) (e : ℝ × ℝ) (he : table[i]? = some e)
    (hm : |x - e.1| < 1e-9)
    (hfirst : ∀ j < i, ∀ a, table[j]? = some a → ¬ |x - a.1| < 1e-9) :
    tableSearch x fuel table last = some e.2 := by
  induction i generalizing fuel table last with
  | zero =>
    cases fuel with
    | zero => exact absurd hi (Nat.lt_irrefl 0)
    | succ j =>
      cases table with
      | nil => simp at he
      | cons a rest =>
        simp at he
        simp only [tableSearch]
        rw [he, if_pos hm]
  | succ k ih =>
    cases fuel with
    | zero => exact absurd hi (Nat.not_lt_zero _)
    | succ j =>
      cases table with
      | nil => simp at he
      | cons a rest =>
        have ha : ¬ |x - a.1| < 1e-9 := hfirst 0 (Nat.succ_pos k) a (by simp)
        simp only [tableSearch]
        rw [if_neg ha]
        refine ih j rest (some a) (Nat.lt_of_succ_lt_succ hi) (by simpa using he) ?_
        intro l hl b hb
        exact hfirst (l + 1) (Nat.succ_lt_succ hl) b (by simpa using hb)

set_option maxHeartbeats 1600000 in
/-- C29: for a `SersicModel` with `Reff > 0`, Sersic index `m > 0` and resolved
constant `b > 0`, the surface density integrates to the reported total mass:
`2 pi ∫_0^∞ surface_density(R) R dR = Mtot = total_mass()`. -/
theorem sersic_total_mass (table : List (ℝ × ℝ)) (Mtot Reff m : ℝ) (gl : GaussLegendre)
    (hR : 0 < Reff) (hm : 0 < m) (hb : 0 < (SersicModel.new table Mtot Reff m gl)._b) :
    2 * Real.pi * ∫ R in Set.Ioi (0 : ℝ),
        (SersicModel.new table Mtot Reff m gl).surface_density R * R = Mtot ∧
      (SersicModel.new table Mtot Reff m gl).total_mass = Mtot := by
  -- The integral behind the Sersic total mass:
  -- `∫_0^∞ t exp(-b t^(1/m)) dt = m Gamma(2m) / b^(2m)`.
  have sersic_shape_integral : ∀ (b m : ℝ) (hb : 0 < b) (hm : 0 < m),
      ∫ t in Set.Ioi (0 : ℝ), t ^ (1 : ℝ) * Real.exp (-b * t ^ (1 / m))
      = (b ^ (2 * m))⁻¹ * m * Real.Gamma (2 * m) := by
    intro b m hb hm
    have h := integral_rpow_mul_exp_neg_mul_rpow (one_div_pos.mpr hm)
      (by norm_num : (-1 : ℝ) < 1) hb
    rw [h]
    have e1 : -((1 : ℝ) + 1) / (1 / m) = -(2 * m) := by
      rw [div_div_eq_mul_div, div_one]
      ring
    have e2 : ((1 : ℝ) + 1) / (1 / m) = 2 * m := by
      rw [div_div_eq_mul_div, div_one]
      ring
    rw [e1, e2, Real.rpow_neg hb.le, one_div_one_div]
  -- The Sersic surface density integrates to the total mass.
  have sersic_surface_integral : ∀ (Mtot Reff m b : ℝ) (hR : 0 < Reff) (hm : 0 < m) (hb : 0 < b),
      2 * Real.pi * ∫ R in Set.Ioi (0 : ℝ),
      Mtot / (Reff * Reff) * b ^ (2 * m) / (2 * Real.pi * m * Real.Gamma (2 * m))
      * Real.exp (-b * (R / Reff) ^ (1 / m)) * R
      = Mtot := by
    intro Mtot Reff m b hR hm hb
    have hpi := Real.pi_pos.ne'
    have hG := (Real.Gamma_pos_of_pos (by linarith : 0 < 2 * m)).ne'
    have hbp := (Real.rpow_pos_of_pos hb (2 * m)).ne'
    have hfun : (fun R : ℝ =>
          Mtot / (Reff * Reff) * b ^ (2 * m) / (2 * Real.pi * m * Real.Gamma (2 * m))
            * Real.exp (-b * (R / Reff) ^ (1 / m)) * R)
        = fun R : ℝ =>
          (Mtot / (Reff * Reff) * b ^ (2 * m) / (2 * Real.pi * m * Real.Gamma (2 * m)) * Reff)
            * ((fun t : ℝ => t ^ (1 : ℝ) * Real.exp (-b * t ^ (1 / m))) (Reff⁻¹ * R)) := by
      funext R
      simp only [Real.rpow_one, div_eq_inv_mul]
      field_simp
      ring
    rw [hfun, MeasureTheory.integral_mul_left,
      MeasureTheory.integral_comp_mul_left_Ioi
        (fun t : ℝ => t ^ (1 : ℝ) * Real.exp (-b * t ^ (1 / m))) 0 (inv_pos.mpr hR),
      mul_zero, sersic_shape_integral b m hb hm, smul_eq_mul, inv_inv]
    field_simp
    ring
  refine ⟨?_, rfl⟩
  have hb2 : 0 < SersicModel.constant_b table m := hb
  dsimp only [SersicModel.surface_density, SersicModel.new, M_PI]
  exact sersic_surface_integral Mtot Reff m (SersicModel.constant_b table m) hR hm hb2

/-- C29 for the Sersic model with index `m = 4`, found in a short table. -/
theorem sersic_total_mass_witness :
    (0 : ℝ) < 1 ∧ (0 : ℝ) < 4 ∧
      0 < (SersicModel.new sersicShortTable 1 1 4 GaussLegendre.onePoint)._b ∧
      2 * Real.pi * ∫ R in Set.Ioi (0 : ℝ),
        (SersicModel.new sersicShortTable 1 1 4 GaussLegendre.onePoint).surface_density R * R
          = 1 ∧
      (SersicModel.new sersicShortTable 1 1 4 GaussLegendre.onePoint).total_mass = 1 := by
  have hs : tableSearch 4 9990 sersicShortTable none = some 7.669 := by
    refine tableSearch_eq_some 4 9990 sersicShortTable none 1 (by norm_num) (4, 7.669) rfl
      (by norm_num) ?_
    intro j hj a ha
    have hj0 : j = 0 := by omega
    subst hj0
    have ha2 : a = (1, 1.678) := (Option.some.inj ha).symm
    rw [ha2, abs_of_pos (by norm_num)]
    norm_num
  have hb : 0 < (SersicModel.new sersicShortTable 1 1 4 GaussLegendre.onePoint)._b := by
    have e : (SersicModel.new sersicShortTable 1 1 4 GaussLegendre.onePoint)._b = 7.669 := by
      dsimp only [SersicModel.new, SersicModel.constant_b]
      simp only [hs]
    rw [e]
    norm_num
  have h := sersic_total_mass sersicShortTable 1 1 4 GaussLegendre.onePoint (by norm_num)
    (by norm_num) hb
  exact ⟨by norm_num, by norm_num, hb, h.1, h.2⟩

set_option maxHeartbeats 1600000 in
/-- C30: `GaussLegendre(n)` constructs, for every request `n ≤ 512`, a rule whose
node count `N` is a power of two with `N ≥ n`, at least `8` and at most `512`,
and the smallest such power of two; a request above `512` constructs no rule. -/
theorem gauss_legendre_node_count (n : ℤ) :
    (n ≤ 512 → ∃ N, GaussLegendre.nodeCount n = some N) ∧
    (512 < n → GaussLegendre.nodeCount n = none) ∧
    (∀ N, GaussLegendre.nodeCount n = some N →
      (∃ k : ℕ, N = 2 ^ k) ∧ 8 ≤ N ∧ N ≤ 512 ∧ n ≤ (N : ℤ) ∧
        ∀ k : ℕ, n ≤ ((2 ^ k : ℕ) : ℤ) → 8 ≤ 2 ^ k → N ≤ 2 ^ k) := by
  -- A power of two above `2^j` is at least `2^(j+1)`.
  have pow_two_succ_le : ∀ (j k : ℕ) (h : 2 ^ j < 2 ^ k),
      2 ^ (j + 1) ≤ 2 ^ k := by
    intro j k h
    have hjk : j < k := (Nat.pow_lt_pow_iff_right (by norm_num)).mp h
    exact Nat.pow_le_pow_right (by norm_num) hjk
  -- The value of `GaussLegendre.nodeCount` between two consecutive stored node
  -- counts, and at the two ends.
  have nodeCount_cases : ∀ (n : ℤ),
      (n ≤ 8 → GaussLegendre.nodeCount n = some 8) ∧
      (8 < n → n ≤ 16 → GaussLegendre.nodeCount n = some 16) ∧
      (16 < n → n ≤ 32 → GaussLegendre.nodeCount n = some 32) ∧
      (32 < n → n ≤ 64 → GaussLegendre.nodeCount n = some 64) ∧
      (64 < n → n ≤ 128 → GaussLegendre.nodeCount n = some 128) ∧
      (128 < n → n ≤ 256 → GaussLegendre.nodeCount n = some 256) ∧
      (256 < n → n ≤ 512 → GaussLegendre.nodeCount n = some 512) ∧
      (512 < n → GaussLegendre.nodeCount n = none) := by
    intro n
    dsimp only [GaussLegendre.nodeCount, GaussLegendre.storedNodeCounts]
    simp only [List.find?]
    refine ⟨?_, ?_, ?_, ?_, ?_, ?_, ?_, ?_⟩
    · intro h
      have a8 : decide (n ≤ ((8 : ℕ) : ℤ)) = true :=
        decide_eq_true (by push_cast; omega)
      simp only [a8]
    · intro h1 h
      have a8 : decide (n ≤ ((8 : ℕ) : ℤ)) = false :=
        decide_eq_false (by push_cast; omega)
      have a16 : decide (n ≤ ((16 : ℕ) : ℤ)) = true :=
        decide_eq_true (by push_cast; omega)
      simp only [a8, a16]
    · intro h1 h
      have a8 : decide (n ≤ ((8 : ℕ) : ℤ)) = false :=
        decide_eq_false (by push_cast; omega)
      have a16 : decide (n ≤ ((16 : ℕ) : ℤ)) = false :=
        decide_eq_false (by push_cast; omega)
      have a32 : decide (n ≤ ((32 : ℕ) : ℤ)) = true :=
        decide_eq_true (by push_cast; omega)
      simp only [a8, a16, a32]
    · intro h1 h
      have a8 : decide (n ≤ ((8 : ℕ) : ℤ)) = false :=
        decide_eq_false (by push_cast; omega)
      have a16 : decide (n ≤ ((16 : ℕ) : ℤ)) = false :=
        decide_eq_false (by push_cast; omega)
      have a32 : decide (n ≤ ((32 : ℕ) : ℤ)) = false :=
        decide_eq_false (by push_cast; omega)
      have a64 : decide (n ≤ ((64 : ℕ) : ℤ)) = true :=
        decide_eq_true (by push_cast; omega)
      simp only [a8, a16, a32, a64]
    · intro h1 h
      have a8 : decide (n ≤ ((8 : ℕ) : ℤ)) = false :=
        decide_eq_false (by push_cast; omega)
      have a16 : decide (n ≤ ((16 : ℕ) : ℤ)) = false :=
        decide_eq_false (by push_cast; omega)
      have a32 : decide (n ≤ ((32 : ℕ) : ℤ)) = false :=
        decide_eq_false (by push_cast; omega)
      have a64 : decide (n ≤ ((64 : ℕ) : ℤ)) = false :=
        decide_eq_false (by push_cast; omega)
      have a128 : decide (n ≤ ((128 : ℕ) : ℤ)) = true :=
        decide_eq_true (by push_cast; omega)
      simp only [a8, a16, a32, a64, a128]
    · intro h1 h
      have a8 : decide (n ≤ ((8 : ℕ) : ℤ)) = false :=
        decide_eq_false (by push_cast; omega)
      have a16 : decide (n ≤ ((16 : ℕ) : ℤ)) = false :=
        decide_eq_false (by push_cast; omega)
      have a32 : decide (n ≤ ((32 : ℕ) : ℤ)) = false :=
        decide_eq_false (by push_cast; omega)
      have a64 : decide (n ≤ ((64 : ℕ) : ℤ)) = false :=
        decide_eq_false (by push_cast; omega)
      have a128 : decide (n ≤ ((128 : ℕ) : ℤ)) = false :=
        decide_eq_false (by push_cast; omega)
      have a256 : decide (n ≤ ((256 : ℕ) : ℤ)) = true :=
        decide_eq_true (by push_cast; omega)
      simp only [a8, a16, a32, a64, a128, a256]
    · intro h1 h
      have a8 : decide (n ≤ ((8 : ℕ) : ℤ)) = false :=
        decide_eq_false (by push_cast; omega)
      have a16 : decide (n ≤ ((16 : ℕ) : ℤ)) = false :=
        decide_eq_false (by push_cast; omega)
      have a32 : decide (n ≤ ((32 : ℕ) : ℤ)) = false :=
        decide_eq_false (by push_cast; omega)
      have a64 : decide (n ≤ ((64 : ℕ) : ℤ)) = false :=
        decide_eq_false (by push_cast; omega)
      have a128 : decide (n ≤ ((128 : ℕ) : ℤ)) = false :=
        decide_eq_false (by push_cast; omega)
      have a256 : decide (n ≤ ((256 : ℕ) : ℤ)) = false :=
        decide_eq_false (by push_cast; omega)
      have a512 : decide (n ≤ ((512 : ℕ) : ℤ)) = true :=
        decide_eq_true (by push_cast; omega)
      simp only [a8, a16, a32, a64, a128, a256, a512]
    · intro h1
      have a8 : decide (n ≤ ((8 : ℕ) : ℤ)) = false :=
        decide_eq_false (by push_cast; omega)
      have a16 : decide (n ≤ ((16 : ℕ) : ℤ)) = false :=
        decide_eq_false (by push_cast; omega)
      have a32 : decide (n ≤ ((32 : ℕ) : ℤ)) = false :=
        decide_eq_false (by push_cast; omega)
      have a64 : decide (n ≤ ((64 : ℕ) : ℤ)) = false :=
        decide_eq_false (by push_cast; omega)
      have a128 : decide (n ≤ ((128 : ℕ) : ℤ)) = false :=
        decide_eq_false (by push_cast; omega)
      have a256 : decide (n ≤ ((256 : ℕ) : ℤ)) = false :=
        decide_eq_false (by push_cast; omega)
      have a512 : decide (n ≤ ((512 : ℕ) : ℤ)) = false :=
        decide_eq_false (by push_cast; omega)
      simp only [a8, a16, a32, a64, a128, a256, a512]
  obtain ⟨h8, h16, h32, h64, h128, h256, h512, htop⟩ := nodeCount_cases n
  have hmin : ∀ (j k : ℕ), ((2 ^ j : ℕ) : ℤ) < n → n ≤ ((2 ^ k : ℕ) : ℤ) →
      2 ^ (j + 1) ≤ 2 ^ k := by
    intro j k hj hk
    have h : ((2 ^ j : ℕ) : ℤ) < ((2 ^ k : ℕ) : ℤ) := lt_of_lt_of_le hj hk
    exact pow_two_succ_le j k (by exact_mod_cast h)
  refine ⟨?_, htop, ?_⟩
  · intro hn
    by_cases c8 : n ≤ 8
    · exact ⟨8, h8 c8⟩
    by_cases c16 : n ≤ 16
    · exact ⟨16, h16 (not_le.mp c8) c16⟩
    by_cases c32 : n ≤ 32
    · exact ⟨32, h32 (not_le.mp c16) c32⟩
    by_cases c64 : n ≤ 64
    · exact ⟨64, h64 (not_le.mp c32) c64⟩
    by_cases c128 : n ≤ 128
    · exact ⟨128, h128 (not_le.mp c64) c128⟩
    by_cases c256 : n ≤ 256
    · exact ⟨256, h256 (not_le.mp c128) c256⟩
    · exact ⟨512, h512 (not_le.mp c256) hn⟩
  · intro N hN
    by_cases c8 : n ≤ 8
    · rw [h8 c8] at hN
      cases hN
      exact ⟨⟨3, rfl⟩, le_refl _, by norm_num, c8, fun k _ hk => hk⟩
    by_cases c16 : n ≤ 16
    · rw [h16 (not_le.mp c8) c16] at hN
      cases hN
      exact ⟨⟨4, rfl⟩, by norm_num, by norm_num, c16,
        fun k hk _ => hmin 3 k (not_le.mp c8) hk⟩
    by_cases c32 : n ≤ 32
    · rw [h32 (not_le.mp c16) c32] at hN
      cases hN
      exact ⟨⟨5, rfl⟩, by norm_num, by norm_num, c32,
        fun k hk _ => hmin 4 k (not_le.mp c16) hk⟩
    by_cases c64 : n ≤ 64
    · rw [h64 (not_le.mp c32) c64] at hN
      cases hN
      exact ⟨⟨6, rfl⟩, by norm_num, by norm_num, c64,
        fun k hk _ => hmin 5 k (not_le.mp c32) hk⟩
    by_cases c128 : n ≤ 128
    · rw [h128 (not_le.mp c64) c128] at hN
      cases hN
      exact ⟨⟨7, rfl⟩, by norm_num, by norm_num, c128,
        fun k hk _ => hmin 6 k (not_le.mp c64) hk⟩
    by_cases c256 : n ≤ 256
    · rw [h256 (not_le.mp c128) c256] at hN
      cases hN
      exact ⟨⟨8, rfl⟩, by norm_num, by norm_num, c256,
        fun k hk _ => hmin 7 k (not_le.mp c128) hk⟩
    by_cases c512 : n ≤ 512
    · rw [h512 (not_le.mp c256) c512] at hN
      cases hN
      exact ⟨⟨9, rfl⟩, by norm_num, le_refl _, c512,
        fun k hk _ => hmin 8 k (not_le.mp c256) hk⟩
    · rw [htop (not_le.mp c512)] at hN
      cases hN

/-- C30 on requests: `100` gets `128` nodes, `5` gets `8`, `512` gets `512`, and
`513` gets no rule. -/
theorem gauss_legendre_node_count_witness :
    GaussLegendre.nodeCount 100 = some 128 ∧ GaussLegendre.nodeCount 5 = some 8 ∧
      GaussLegendre.nodeCount 512 = some 512 ∧ GaussLegendre.nodeCount 513 = none ∧
      ((∃ k : ℕ, 128 = 2 ^ k) ∧ 8 ≤ 128 ∧ 128 ≤ 512 ∧ (100 : ℤ) ≤ ((128 : ℕ) : ℤ) ∧
        ∀ k : ℕ, (100 : ℤ) ≤ ((2 ^ k : ℕ) : ℤ) → 8 ≤ 2 ^ k → 128 ≤ 2 ^ k) :=
  have h100 : GaussLegendre.nodeCount 100 = some 128 := by decide
  ⟨h100, by decide, by decide, by decide,
    (gauss_legendre_node_count 100).2.2 128 h100⟩

/-- C32: for every `SigmoidDensityModel` with `rb > 0`, `alpha > 0` and non-zero
prefactor, and every `r > 0`, the logarithmic density slope is the algebraic
sigmoid of `l = alpha * ln(r/rb)`:
`density_slope(r) = (beta+gamma)/2 + (beta-gamma)/2 * l/sqrt(1+l^2)`; it equals
`(beta+gamma)/2` at `r = rb` and lies strictly between `gamma` and `beta` when
`beta` and `gamma` differ. -/
theorem sigmoid_density_slope (m : SigmoidDensityModel) (hrb : 0 < m._rb) (_ha : 0 < m._alpha)
    (hc : m._rhoc ≠ 0) (r : ℝ) (hr : 0 < r) :
    m.toModel.density_slope r
      = (m._beta + m._gamma) / 2
        + (m._beta - m._gamma) / 2
          * (m._alpha * Real.log (r / m._rb)
              / Real.sqrt (1 + (m._alpha * Real.log (r / m._rb)) ^ 2)) ∧
    m.toModel.density_slope m._rb = (m._beta + m._gamma) / 2 ∧
    (m._gamma < m._beta →
      m._gamma < m.toModel.density_slope r ∧ m.toModel.density_slope r < m._beta) ∧
    (m._beta < m._gamma →
      m._beta < m.toModel.density_slope r ∧ m.toModel.density_slope r < m._gamma) := by
  -- the slope formula at every positive radius
  have key : ∀ x : ℝ, 0 < x → m.toModel.density_slope x
      = (m._beta + m._gamma) / 2
        + (m._beta - m._gamma) / 2
          * (m._alpha * Real.log (x / m._rb)
              / Real.sqrt (1 + (m._alpha * Real.log (x / m._rb)) ^ 2)) := by
    intro x hx
    dsimp only [Model.density_slope, SigmoidDensityModel.toModel, SigmoidDensityModel.density,
      SigmoidDensityModel.derivative_density]
    have hrb0 := hrb.ne'
    have ht : 0 < x / m._rb := div_pos hx hrb
    have hxt : x = x / m._rb * m._rb := by field_simp
    have hpow : (x / m._rb) ^ ((m._beta + m._gamma + 2) / 2)
        = (x / m._rb) ^ (0.5 * (m._beta + m._gamma)) * (x / m._rb) := by
      have e : (m._beta + m._gamma + 2) / 2 = 0.5 * (m._beta + m._gamma) + 1 := by
        norm_num
        ring
      rw [e, Real.rpow_add ht, Real.rpow_one]
    rw [hpow]
    have hp : 0 < (x / m._rb) ^ (0.5 * (m._beta + m._gamma)) := Real.rpow_pos_of_pos ht _
    generalize (x / m._rb) ^ (0.5 * (m._beta + m._gamma)) = p at hp
    generalize m._alpha * Real.log (x / m._rb) = l
    rw [sq l]
    have hs : 0 < Real.sqrt (1 + l * l) := Real.sqrt_pos.mpr (by nlinarith [mul_self_nonneg l])
    generalize Real.sqrt (1 + l * l) = s at hs
    have he := Real.exp_pos (-(m._beta - m._gamma) / (2 * m._alpha) * s)
    generalize Real.exp (-(m._beta - m._gamma) / (2 * m._alpha) * s) = e at he
    generalize x / m._rb = t at ht hxt
    subst hxt
    have hp0 := hp.ne'
    have hs0 := hs.ne'
    have he0 := he.ne'
    have ht0 := ht.ne'
    field_simp
    ring
  -- the sigmoid stays strictly between `-1` and `1`
  have hq : ∀ l : ℝ, -1 < l / Real.sqrt (1 + l ^ 2) ∧ l / Real.sqrt (1 + l ^ 2) < 1 := by
    intro l
    have habs : |l| < Real.sqrt (1 + l ^ 2) := by
      rw [Real.lt_sqrt (abs_nonneg l), sq_abs]
      linarith
    have hs : 0 < Real.sqrt (1 + l ^ 2) := lt_of_le_of_lt (abs_nonneg l) habs
    have h1 := le_abs_self l
    have h2 := neg_abs_le l
    constructor
    · rw [lt_div_iff₀ hs]
      linarith
    · rw [div_lt_one hs]
      linarith
  have hkr := key r hr
  obtain ⟨hq1, hq2⟩ := hq (m._alpha * Real.log (r / m._rb))
  refine ⟨hkr, ?_, ?_, ?_⟩
  · rw [key m._rb hrb, div_self hrb.ne', Real.log_one, mul_zero, zero_div, mul_zero, add_zero]
  · intro h
    rw [hkr]
    generalize m._alpha * Real.log (r / m._rb)
      / Real.sqrt (1 + (m._alpha * Real.log (r / m._rb)) ^ 2) = q at hq1 hq2
    constructor <;> nlinarith
  · intro h
    rw [hkr]
    generalize m._alpha * Real.log (r / m._rb)
      / Real.sqrt (1 + (m._alpha * Real.log (r / m._rb)) ^ 2) = q at hq1 hq2
    constructor <;> nlinarith

/-- C32 for the sigmoid density model with prefactor one, `rb = 1`, `alpha = 1`,
`beta = 4`, `gamma = 1`, at `r = 2`. -/
theorem sigmoid_density_slope_witness :
    0 < sigmoidDensityExample._rb ∧ 0 < sigmoidDensityExample._alpha ∧
    sigmoidDensityExample._rhoc ≠ 0 ∧ (0 : ℝ) < 2 ∧
    sigmoidDensityExample.toModel.density_slope 2
      = (sigmoidDensityExample._beta + sigmoidDensityExample._gamma) / 2
        + (sigmoidDensityExample._beta - sigmoidDensityExample._gamma) / 2
          * (sigmoidDensityExample._alpha * Real.log (2 / sigmoidDensityExample._rb)
              / Real.sqrt (1 + (sigmoidDensityExample._alpha
                  * Real.log (2 / sigmoidDensityExample._rb)) ^ 2)) ∧
    sigmoidDensityExample.toModel.density_slope sigmoidDensityExample._rb
      = (sigmoidDensityExample._beta + sigmoidDensityExample._gamma) / 2 ∧
    (sigmoidDensityExample._gamma < sigmoidDensityExample._beta →
      sigmoidDensityExample._gamma < sigmoidDensityExample.toModel.density_slope 2
        ∧ sigmoidDensityExample.toModel.density_slope 2 < sigmoidDensityExample._beta) ∧
    (sigmoidDensityExample._beta < sigmoidDensityExample._gamma →
      sigmoidDensityExample._beta < sigmoidDensityExample.toModel.density_slope 2
        ∧ sigmoidDensityExample.toModel.density_slope 2 < sigmoidDensityExample._gamma) := by
  have h1 : 0 < sigmoidDensityExample._rb := by
    show (0 : ℝ) < 1
    norm_num
  have h2 : 0 < sigmoidDensityExample._alpha := by
    show (0 : ℝ) < 1
    norm_num
  have h3 : sigmoidDensityExample._rhoc ≠ 0 := by
    show (1 : ℝ) ≠ 0
    norm_num
  exact ⟨h1, h2, h3, by norm_num,
    sigmoid_density_slope sigmoidDensityExample h1 h2 h3 2 (by norm_num)⟩

set_option maxHeartbeats 1600000 in
/-- C33: for every `ZhaoModel` with `Mtot ≠ 0`, `rb > 0`, `alpha > 0` and a
non-zero density prefactor, and every `r > 0`,
`density_slope(r) = (gamma + beta t^alpha)/(1 + t^alpha)` with `t = r/rb`; it
equals `(beta+gamma)/2` at `r = rb`, tends to the inner slope `gamma` as `r → 0+`
and to the outer slope `beta` as `r → ∞`. -/
theorem zhao_density_slope (m : ZhaoModel) (hM : m._Mtot ≠ 0) (hrb : 0 < m._rb)
    (ha : 0 < m._alpha) (hf : m._rhoff ≠ 0) :
    (∀ r : ℝ, 0 < r → m.toModel.density_slope r
      = (m._gamma + m._beta * (r / m._rb) ^ m._alpha) / (1 + (r / m._rb) ^ m._alpha)) ∧
    m.toModel.density_slope m._rb = (m._beta + m._gamma) / 2 ∧
    Filter.Tendsto (fun r => m.toModel.density_slope r) (nhdsWithin 0 (Set.Ioi 0))
      (nhds m._gamma) ∧
    Filter.Tendsto (fun r => m.toModel.density_slope r) Filter.atTop (nhds m._beta) := by
  -- the slope formula at every positive radius
  have key : ∀ r : ℝ, 0 < r → m.toModel.density_slope r
      = (m._gamma + m._beta * (r / m._rb) ^ m._alpha) / (1 + (r / m._rb) ^ m._alpha) := by
    intro r hr
    dsimp only [Model.density_slope, ZhaoModel.toModel, ZhaoModel.density,
      ZhaoModel.derivative_density]
    have hrb0 := hrb.ne'
    have ht : 0 < r / m._rb := div_pos hr hrb
    have hrt : r = r / m._rb * m._rb := by field_simp
    have hz : 0 < (r / m._rb) ^ m._alpha := Real.rpow_pos_of_pos ht _
    have hz1 : 0 < 1 + (r / m._rb) ^ m._alpha := by linarith
    rw [Real.rpow_sub_one ht.ne', Real.rpow_sub_one hz1.ne']
    have hv1 : 0 < (r / m._rb) ^ (-m._gamma) := Real.rpow_pos_of_pos ht _
    have hv2 : 0 < (1 + (r / m._rb) ^ m._alpha) ^ (-((m._beta - m._gamma) / m._alpha)) :=
      Real.rpow_pos_of_pos hz1 _
    generalize (1 + (r / m._rb) ^ m._alpha) ^ (-((m._beta - m._gamma) / m._alpha)) = v2 at hv2
    generalize (r / m._rb) ^ (-m._gamma) = v1 at hv1
    generalize (r / m._rb) ^ m._alpha = z at hz hz1
    generalize r / m._rb = t at ht hrt
    subst hrt
    have hv10 := hv1.ne'
    have hv20 := hv2.ne'
    have hz10 := hz1.ne'
    have ht0 := ht.ne'
    field_simp
    ring
  refine ⟨key, ?_, ?_, ?_⟩
  · rw [key m._rb hrb, div_self hrb.ne', Real.one_rpow]
    ring
  · have hdiv : Filter.Tendsto (fun r : ℝ => r / m._rb) (nhds 0) (nhds 0) := by
      have h := (continuous_id.div_const m._rb).tendsto (0 : ℝ)
      simpa using h
    have hz : Filter.Tendsto (fun r : ℝ => (r / m._rb) ^ m._alpha) (nhds 0) (nhds 0) := by
      have h := (Real.continuousAt_rpow_const 0 m._alpha (Or.inr ha.le)).tendsto
      rw [Real.zero_rpow ha.ne'] at h
      exact h.comp hdiv
    have hF : Filter.Tendsto
        (fun r : ℝ => (m._gamma + m._beta * (r / m._rb) ^ m._alpha)
          / (1 + (r / m._rb) ^ m._alpha)) (nhds 0)
        (nhds ((m._gamma + m._beta * 0) / (1 + 0))) :=
      Filter.Tendsto.div (tendsto_const_nhds.add (hz.const_mul m._beta))
        (tendsto_const_nhds.add hz) (by norm_num)
    have e : (m._gamma + m._beta * 0) / (1 + 0) = m._gamma := by
      rw [mul_zero, add_zero, add_zero, div_one]
    rw [e] at hF
    refine (hF.mono_left nhdsWithin_le_nhds).congr' ?_
    refine eventually_nhdsWithin_of_forall ?_
    intro r hr
    exact (key r hr).symm
  · have hz : Filter.Tendsto (fun r : ℝ => (r / m._rb) ^ m._alpha) Filter.atTop Filter.atTop :=
      (tendsto_rpow_atTop ha).comp (Filter.tendsto_id.atTop_div_const hrb)
    have hq : Filter.Tendsto (fun r : ℝ => (m._gamma - m._beta) / (1 + (r / m._rb) ^ m._alpha))
        Filter.atTop (nhds 0) :=
      tendsto_const_nhds.div_atTop (Filter.tendsto_atTop_add_const_left _ 1 hz)
    have hF := hq.const_add m._beta
    rw [add_zero] at hF
    refine hF.congr' ?_
    filter_upwards [Filter.eventually_gt_atTop (0 : ℝ)] with r hr
    rw [key r hr]
    have hz1 : 0 < 1 + (r / m._rb) ^ m._alpha := by
      have := Real.rpow_pos_of_pos (div_pos hr hrb) m._alpha
      linarith
    field_simp
    ring

/-- C33 for `ZhaoModel(1, 1, 1, 4, 1, gl)`. -/
theorem zhao_density_slope_witness :
    zhaoExample._Mtot ≠ 0 ∧ 0 < zhaoExample._rb ∧ 0 < zhaoExample._alpha ∧
    zhaoExample._rhoff ≠ 0 ∧
    (∀ r : ℝ, 0 < r → zhaoExample.toModel.density_slope r
      = (zhaoExample._gamma + zhaoExample._beta * (r / zhaoExample._rb) ^ zhaoExample._alpha)
        / (1 + (r / zhaoExample._rb) ^ zhaoExample._alpha)) ∧
    zhaoExample.toModel.density_slope zhaoExample._rb
      = (zhaoExample._beta + zhaoExample._gamma) / 2 ∧
    Filter.Tendsto (fun r => zhaoExample.toModel.density_slope r) (nhdsWithin 0 (Set.Ioi 0))
      (nhds zhaoExample._gamma) ∧
    Filter.Tendsto (fun r => zhaoExample.toModel.density_slope r) Filter.atTop
      (nhds zhaoExample._beta) := by
  have h1 : zhaoExample._Mtot ≠ 0 := by
    show (1 : ℝ) ≠ 0
    norm_num
  have h2 : 0 < zhaoExample._rb := by
    show (0 : ℝ) < 1
    norm_num
  have h3 : 0 < zhaoExample._alpha := by
    show (0 : ℝ) < 1
    norm_num
  have h4 : zhaoExample._rhoff ≠ 0 := by
    dsimp only [zhaoExample, ZhaoModel.new, M_PI]
    have hpi := Real.pi_pos
    exact div_ne_zero (mul_ne_zero one_ne_zero (Real.exp_pos _).ne') (by positivity)
  exact ⟨h1, h2, h3, h4, zhao_density_slope zhaoExample h1 h2 h3 h4⟩

/-- C34: `GammaModel` with `gamma = 1` coincides with `HernquistModel`: for the
same `Mtot` and `b > 0` and every `r > 0`, the density, its first and second
derivative, the mass and the potential are equal. -/
theorem gamma_one_is_hernquist (Mtot b : ℝ) (gl : GaussLegendre) (hb : 0 < b) (r : ℝ)
    (hr : 0 < r) :
    (GammaModel.new Mtot b 1 gl).density r = (HernquistModel.new Mtot b gl).density r ∧
    (GammaModel.new Mtot b 1 gl).derivative_density r
      = (HernquistModel.new Mtot b gl).derivative_density r ∧
    (GammaModel.new Mtot b 1 gl).second_derivative_density r
      = (HernquistModel.new Mtot b gl).second_derivative_density r ∧
    (GammaModel.new Mtot b 1 gl).mass r = (HernquistModel.new Mtot b gl).mass r ∧
    (GammaModel.new Mtot b 1 gl).potential r = (HernquistModel.new Mtot b gl).potential r := by
  -- a real power with a natural exponent is the natural power
  have pn : ∀ (x y : ℝ) (n : ℕ), y = (n : ℝ) → x ^ y = x ^ n := by
    intro x y n h
    rw [h, Real.rpow_natCast]
  have hb0 := hb.ne'
  have hpi := Real.pi_pos.ne'
  have ht : 0 < r / b := div_pos hr hb
  have hz : 0 < 1 + r / b := by linarith
  refine ⟨?_, ?_, ?_, ?_, ?_⟩
  · dsimp only [GammaModel.new, GammaModel.density, HernquistModel.new, HernquistModel.density,
      M_PI]
    generalize r / b = t at ht hz ⊢
    have ht0 := ht.ne'
    have hz0 := hz.ne'
    rw [pn t 1 1 (by norm_num), pn (1 + t) (4 - 1) 3 (by norm_num)]
    field_simp
    ring
  · dsimp only [GammaModel.new, GammaModel.derivative_density, HernquistModel.new,
      HernquistModel.derivative_density, M_PI]
    generalize r / b = t at ht hz ⊢
    have ht0 := ht.ne'
    have hz0 := hz.ne'
    rw [pn t (1 + 1) 2 (by norm_num), pn (1 + t) (5 - 1) 4 (by norm_num)]
    field_simp
    ring
  · dsimp only [GammaModel.new, GammaModel.second_derivative_density, HernquistModel.new,
      HernquistModel.second_derivative_density, M_PI]
    generalize r / b = t at ht hz ⊢
    have ht0 := ht.ne'
    have hz0 := hz.ne'
    rw [pn t (1 + 2) 3 (by norm_num), pn (1 + t) (6 - 1) 5 (by norm_num)]
    field_simp
    ring
  · dsimp only [GammaModel.new, GammaModel.mass, HernquistModel.new, HernquistModel.mass]
    generalize r / b = t at ht hz ⊢
    have ht0 := ht.ne'
    have hz0 := hz.ne'
    rw [pn (t / (1 + t)) (3 - 1) 2 (by norm_num)]
  · dsimp only [GammaModel.new, GammaModel.potential, HernquistModel.new,
      HernquistModel.potential]
    generalize r / b = t at ht hz ⊢
    have ht0 := ht.ne'
    have hz0 := hz.ne'
    rw [if_pos (by norm_num), pn (t / (1 + t)) (2 - 1) 1 (by norm_num), pow_one]
    have e1 : (2 : ℝ) - 1 = 1 := by norm_num
    have e2 : 1 - t / (1 + t) = 1 / (1 + t) := by
      rw [eq_div_iff hz0, sub_mul, div_mul_cancel₀ _ hz0]
      ring
    rw [e1, e2]
    ring

/-- C34 at `Mtot = 1`, `b = 1`, `r = 2`. -/
theorem gamma_one_is_hernquist_witness :
    (0 : ℝ) < 1 ∧ (0 : ℝ) < 2 ∧
    (GammaModel.new 1 1 1 GaussLegendre.onePoint).density 2
      = (HernquistModel.new 1 1 GaussLegendre.onePoint).density 2 ∧
    (GammaModel.new 1 1 1 GaussLegendre.onePoint).derivative_density 2
      = (HernquistModel.new 1 1 GaussLegendre.onePoint).derivative_density 2 ∧
    (GammaModel.new 1 1 1 GaussLegendre.onePoint).second_derivative_density 2
      = (HernquistModel.new 1 1 GaussLegendre.onePoint).second_derivative_density 2 ∧
    (GammaModel.new 1 1 1 GaussLegendre.onePoint).mass 2
      = (HernquistModel.new 1 1 GaussLegendre.onePoint).mass 2 ∧
    (GammaModel.new 1 1 1 GaussLegendre.onePoint).potential 2
      = (HernquistModel.new 1 1 GaussLegendre.onePoint).potential 2 :=
  ⟨by norm_num, by norm_num,
    gamma_one_is_hernquist 1 1 GaussLegendre.onePoint (by norm_num) 2 (by norm_num)⟩

/-- C35: `GammaModel` with `gamma = 2`, where the logarithmic branch of the
potential is taken, coincides with `JaffeModel`: for the same `Mtot` and `b > 0`
and every `r > 0`, the density, its first and second derivative, the mass and
the potential are equal. -/
theorem gamma_two_is_jaffe (Mtot b : ℝ) (gl : GaussLegendre) (hb : 0 < b) (r : ℝ)
    (hr : 0 < r) :
    (GammaModel.new Mtot b 2 gl).density r = (JaffeModel.new Mtot b gl).density r ∧
    (GammaModel.new Mtot b 2 gl).derivative_density r
      = (JaffeModel.new Mtot b gl).derivative_density r ∧
    (GammaModel.new Mtot b 2 gl).second_derivative_density r
      = (JaffeModel.new Mtot b gl).second_derivative_density r ∧
    (GammaModel.new Mtot b 2 gl).mass r = (JaffeModel.new Mtot b gl).mass r ∧
    (GammaModel.new Mtot b 2 gl).potential r = (JaffeModel.new Mtot b gl).potential r := by
  -- a real power with a natural exponent is the natural power
  have pn : ∀ (x y : ℝ) (n : ℕ), y = (n : ℝ) → x ^ y = x ^ n := by
    intro x y n h
    rw [h, Real.rpow_natCast]
  have hb0 := hb.ne'
  have hpi := Real.pi_pos.ne'
  have ht : 0 < r / b := div_pos hr hb
  have hz : 0 < 1 + r / b := by linarith
  refine ⟨?_, ?_, ?_, ?_, ?_⟩
  · dsimp only [GammaModel.new, GammaModel.density, JaffeModel.new, JaffeModel.density, M_PI]
    generalize r / b = t at ht hz ⊢
    have ht0 := ht.ne'
    have hz0 := hz.ne'
    rw [pn t 2 2 (by norm_num), pn (1 + t) (4 - 2) 2 (by norm_num)]
    field_simp
    ring
  · dsimp only [GammaModel.new, GammaModel.derivative_density, JaffeModel.new,
      JaffeModel.derivative_density, M_PI]
    generalize r / b = t at ht hz ⊢
    have ht0 := ht.ne'
    have hz0 := hz.ne'
    rw [pn t (2 + 1) 3 (by norm_num), pn (1 + t) (5 - 2) 3 (by norm_num)]
    field_simp
    ring
  · dsimp only [GammaModel.new, GammaModel.second_derivative_density, JaffeModel.new,
      JaffeModel.second_derivative_density, M_PI]
    generalize r / b = t at ht hz ⊢
    have ht0 := ht.ne'
    have hz0 := hz.ne'
    rw [pn t (2 + 2) 4 (by norm_num), pn (1 + t) (6 - 2) 4 (by norm_num)]
    field_simp
    ring
  · dsimp only [GammaModel.new, GammaModel.mass, JaffeModel.new, JaffeModel.mass]
    generalize r / b = t at ht hz ⊢
    have ht0 := ht.ne'
    have hz0 := hz.ne'
    rw [pn (t / (1 + t)) (3 - 2) 1 (by norm_num), pow_one]
    ring
  · dsimp only [GammaModel.new, GammaModel.potential, JaffeModel.new, JaffeModel.potential]
    generalize r / b = t at ht hz ⊢
    have ht0 := ht.ne'
    have hz0 := hz.ne'
    rw [if_neg (by norm_num)]
    have h1 : 1 + 1 / t = (1 + t) / t := by
      field_simp
      ring
    rw [h1, Real.log_div hz0 ht0, Real.log_div ht0 hz0]
    ring

/-- C35 at `Mtot = 1`, `b = 1`, `r = 2`. -/
theorem gamma_two_is_jaffe_witness :
    (0 : ℝ) < 1 ∧ (0 : ℝ) < 2 ∧
    (GammaModel.new 1 1 2 GaussLegendre.onePoint).density 2
      = (JaffeModel.new 1 1 GaussLegendre.onePoint).density 2 ∧
    (GammaModel.new 1 1 2 GaussLegendre.onePoint).derivative_density 2
      = (JaffeModel.new 1 1 GaussLegendre.onePoint).derivative_density 2 ∧
    (GammaModel.new 1 1 2 GaussLegendre.onePoint).second_derivative_density 2
      = (JaffeModel.new 1 1 GaussLegendre.onePoint).second_derivative_density 2 ∧
    (GammaModel.new 1 1 2 GaussLegendre.onePoint).mass 2
      = (JaffeModel.new 1 1 GaussLegendre.onePoint).mass 2 ∧
    (GammaModel.new 1 1 2 GaussLegendre.onePoint).potential 2
      = (JaffeModel.new 1 1 GaussLegendre.onePoint).potential 2 :=
  ⟨by norm_num, by norm_num,
    gamma_two_is_jaffe 1 1 GaussLegendre.onePoint (by norm_num) 2 (by norm_num)⟩

/-- C36: `DeVaucouleursModel` is the Sersic model of index `4`: for the same
`Mtot` and `Reff > 0`, a `SersicModel` with `m = 4` whose resolved constant `b`
equals `7.669249442500804` has, for every `R > 0`, the same surface density and
the same first, second and third derivative of the surface density as
`DeVaucouleursModel`. -/
theorem devaucouleurs_is_sersic_four (table : List (ℝ × ℝ)) (Mtot Reff : ℝ)
    (gl : GaussLegendre) (hReff : 0 < Reff)
    (hb : (SersicModel.new table Mtot Reff 4 gl)._b = 7.669249442500804)
    (R : ℝ) (hR : 0 < R) :
    (SersicModel.new table Mtot Reff 4 gl).surface_density R
      = (DeVaucouleursModel.new Mtot Reff gl).surface_density R ∧
    (SersicModel.new table Mtot Reff 4 gl).derivative_surface_density R
      = (DeVaucouleursModel.new Mtot Reff gl).derivative_surface_density R ∧
    (SersicModel.new table Mtot Reff 4 gl).second_derivative_surface_density R
      = (DeVaucouleursModel.new Mtot Reff gl).second_derivative_surface_density R ∧
    (SersicModel.new table Mtot Reff 4 gl).third_derivative_surface_density R
      = (DeVaucouleursModel.new Mtot Reff gl).third_derivative_surface_density R := by
  have hb2 : SersicModel.constant_b table 4 = 7.669249442500804 := hb
  -- the value `Gamma(8) = 7!`
  have hG : Real.Gamma 8 = 5040 := by
    have h := Real.Gamma_nat_eq_factorial 7
    have e : ((7 : ℕ) : ℝ) + 1 = 8 := by norm_num
    rw [e] at h
    rw [h]
    norm_num [Nat.factorial]
  have e8 : (2 : ℝ) * 4 = 8 := by norm_num
  have e14 : (1 : ℝ) / 4 = 0.25 := by norm_num
  have hR0 := hReff.ne'
  have hpi := Real.pi_pos.ne'
  have ht : 0 < R / Reff := div_pos hR hReff
  refine ⟨?_, ?_, ?_, ?_⟩
  · dsimp only [SersicModel.new, SersicModel.surface_density, DeVaucouleursModel.new,
      DeVaucouleursModel.surface_density, M_PI]
    rw [hb2, e8, e14, hG]
    generalize Real.exp (-7.669249442500804 * (R / Reff) ^ (0.25 : ℝ)) = E
    generalize (7.669249442500804 : ℝ) ^ (8 : ℝ) = B
    ring
  · dsimp only [SersicModel.new, SersicModel.derivative_surface_density, DeVaucouleursModel.new,
      DeVaucouleursModel.derivative_surface_density, M_PI]
    rw [hb2, e8, e14, hG]
    generalize Real.exp (-7.669249442500804 * (R / Reff) ^ (0.25 : ℝ)) = E
    generalize (7.669249442500804 : ℝ) ^ (8 : ℝ) = B
    generalize (R / Reff) ^ (0.25 : ℝ) = z
    generalize R / Reff = t at ht
    have ht0 := ht.ne'
    field_simp
    ring
  · dsimp only [SersicModel.new, SersicModel.second_derivative_surface_density,
      DeVaucouleursModel.new, DeVaucouleursModel.second_derivative_surface_density, M_PI]
    rw [hb2, e8, e14, hG]
    generalize Real.exp (-7.669249442500804 * (R / Reff) ^ (0.25 : ℝ)) = E
    generalize (7.669249442500804 : ℝ) ^ (8 : ℝ) = B
    generalize (R / Reff) ^ (0.25 : ℝ) = z
    generalize R / Reff = t at ht
    have ht0 := ht.ne'
    field_simp
    ring
  · dsimp only [SersicModel.new, SersicModel.third_derivative_surface_density,
      DeVaucouleursModel.new, DeVaucouleursModel.third_derivative_surface_density, M_PI]
    rw [hb2, e8, e14, hG]
    generalize Real.exp (-7.669249442500804 * (R / Reff) ^ (0.25 : ℝ)) = E
    generalize (7.669249442500804 : ℝ) ^ (8 : ℝ) = B
    generalize (R / Reff) ^ (0.25 : ℝ) = z
    generalize R / Reff = t at ht
    have ht0 := ht.ne'
    field_simp
    ring

/-- C36 for `Mtot = 1`, `Reff = 1` and `R = 2`, the constant being found in a
one-line table. -/
theorem devaucouleurs_is_sersic_four_witness :
    (0 : ℝ) < 1 ∧
    (SersicModel.new sersicFourTable 1 1 4 GaussLegendre.onePoint)._b = 7.669249442500804 ∧
    (0 : ℝ) < 2 ∧
    (SersicModel.new sersicFourTable 1 1 4 GaussLegendre.onePoint).surface_density 2
      = (DeVaucouleursModel.new 1 1 GaussLegendre.onePoint).surface_density 2 ∧
    (SersicModel.new sersicFourTable 1 1 4 GaussLegendre.onePoint).derivative_surface_density 2
      = (DeVaucouleursModel.new 1 1 GaussLegendre.onePoint).derivative_surface_density 2 ∧
    (SersicModel.new sersicFourTable 1 1 4 GaussLegendre.onePoint).second_derivative_surface_density
        2
      = (DeVaucouleursModel.new 1 1 GaussLegendre.onePoint).second_derivative_surface_density 2 ∧
    (SersicModel.new sersicFourTable 1 1 4 GaussLegendre.onePoint).third_derivative_surface_density
        2
      = (DeVaucouleursModel.new 1 1 GaussLegendre.onePoint).third_derivative_surface_density
          2 := by
  have hs : tableSearch 4 9990 sersicFourTable none = some 7.669249442500804 := by
    refine tableSearch_eq_some 4 9990 sersicFourTable none 0 (by norm_num)
      (4, 7.669249442500804) rfl (by norm_num) ?_
    intro j hj
    exact absurd hj (Nat.not_lt_zero j)
  have hb : (SersicModel.new sersicFourTable 1 1 4 GaussLegendre.onePoint)._b
      = 7.669249442500804 := by
    dsimp only [SersicModel.new, SersicModel.constant_b]
    simp only [hs]
  exact ⟨by norm_num, hb, by norm_num,
    devaucouleurs_is_sersic_four sersicFourTable 1 1 GaussLegendre.onePoint (by norm_num) hb 2
      (by norm_num)⟩

/-- C37: the normalisation of `SigmoidDensityModel`. If the quadrature
`integrate_0_infty` is a finite weighted sum of integrand values and the total
mass computed with unit prefactor is not zero, then after construction with
total mass `Mtot` the model's `total_mass()` equals `Mtot`. -/
theorem sigmoid_density_normalisation (Mtot rb alpha beta gamma : ℝ) (gl : GaussLegendre)
    (hsum : ∃ (n : ℕ) (w x : ℝ → ℕ → ℝ), ∀ (X : ℝ → ℝ) (a : ℝ),
      gl.integrate_0_infty X a = ∑ i in Finset.range n, w a i * X (x a i))
    (hone : (SigmoidDensityModel.mk Mtot rb alpha beta gamma 1 gl).total_mass ≠ 0) :
    (SigmoidDensityModel.new Mtot rb alpha beta gamma gl).total_mass = Mtot := by
  obtain ⟨n, w, x, hq⟩ := hsum
  -- a weighted sum is homogeneous in the integrand
  have hhom : ∀ (c : ℝ) (X : ℝ → ℝ) (a : ℝ),
      gl.integrate_0_infty (fun u => c * X u) a = c * gl.integrate_0_infty X a := by
    intro c X a
    rw [hq, hq, Finset.mul_sum]
    refine Finset.sum_congr rfl ?_
    intro i _
    ring
  generalize hT : (SigmoidDensityModel.mk Mtot rb alpha beta gamma 1 gl).total_mass = T at hone
  have hnew : (SigmoidDensityModel.new Mtot rb alpha beta gamma gl).total_mass
      = 4 * M_PI * gl.integrate_0_infty
          (fun u => Mtot / T
            * ((SigmoidDensityModel.mk Mtot rb alpha beta gamma 1 gl).density u * (u * u))) rb := by
    dsimp only [SigmoidDensityModel.new, SigmoidDensityModel.total_mass,
      DensityModel.total_mass, SigmoidDensityModel.scale_radius] at hT ⊢
    rw [hT]
    congr 2
    funext u
    dsimp only [SigmoidDensityModel.density]
    ring
  rw [hnew, hhom]
  have hT2 : 4 * M_PI * gl.integrate_0_infty
      (fun u => (SigmoidDensityModel.mk Mtot rb alpha beta gamma 1 gl).density u * (u * u)) rb
      = T := hT
  calc 4 * M_PI * (Mtot / T * gl.integrate_0_infty
          (fun u => (SigmoidDensityModel.mk Mtot rb alpha beta gamma 1 gl).density u * (u * u)) rb)
      = Mtot / T * (4 * M_PI * gl.integrate_0_infty
          (fun u => (SigmoidDensityModel.mk Mtot rb alpha beta gamma 1 gl).density u * (u * u))
            rb) := by ring
    _ = Mtot / T * T := by rw [hT2]
    _ = Mtot := div_mul_cancel₀ Mtot hone

/-- C37 for the one-node quadrature and `Mtot = 2`, `rb = 1`, `alpha = 1`,
`beta = 4`, `gamma = 1`. -/
theorem sigmoid_density_normalisation_witness :
    (∃ (n : ℕ) (w x : ℝ → ℕ → ℝ), ∀ (X : ℝ → ℝ) (a : ℝ),
      GaussLegendre.onePoint.integrate_0_infty X a
        = ∑ i in Finset.range n, w a i * X (x a i)) ∧
    (SigmoidDensityModel.mk 2 1 1 4 1 1 GaussLegendre.onePoint).total_mass ≠ 0 ∧
    (SigmoidDensityModel.new 2 1 1 4 1 GaussLegendre.onePoint).total_mass = 2 := by
  have hsum : ∃ (n : ℕ) (w x : ℝ → ℕ → ℝ), ∀ (X : ℝ → ℝ) (a : ℝ),
      GaussLegendre.onePoint.integrate_0_infty X a
        = ∑ i in Finset.range n, w a i * X (x a i) := by
    refine ⟨1, fun _ _ => 1, fun a _ => a, ?_⟩
    intro X a
    rw [Finset.sum_range_one, one_mul]
    rfl
  have hone : (SigmoidDensityModel.mk 2 1 1 4 1 1 GaussLegendre.onePoint).total_mass ≠ 0 := by
    dsimp only [SigmoidDensityModel.total_mass, DensityModel.total_mass,
      SigmoidDensityModel.scale_radius, SigmoidDensityModel.density, GaussLegendre.onePoint,
      M_PI]
    have hp : (0 : ℝ) < (1 / 1 : ℝ) ^ (0.5 * ((4 : ℝ) + 1)) :=
      Real.rpow_pos_of_pos (by norm_num) _
    have he := Real.exp_pos (-((4 : ℝ) - 1) / (2 * 1)
      * Real.sqrt (1 + 1 * Real.log (1 / 1) * (1 * Real.log (1 / 1))))
    have hpi := Real.pi_pos
    positivity
  exact ⟨hsum, hone,
    sigmoid_density_normalisation 2 1 1 4 1 GaussLegendre.onePoint hsum hone⟩

/-- The limit of the `BPLModel` potential as `r → rb` from above: the value at
`t = 1` of the formula of the outer branch that the code takes. -/
theorem bpl_potential_tendsto_at_break (Mtot rb beta gamma : ℝ) (gl : GaussLegendre)
    (hrb : 0 < rb) :
    Filter.Tendsto (BPLModel.new Mtot rb beta gamma gl).potential (nhdsWithin rb (Set.Ioi rb))
      (nhds (if |beta - 3| < 1e-5 then
          Mtot / rb * (BPLModel.new Mtot rb beta gamma gl)._rhoff * (4 * M_PI)
            * ((4 - gamma) / (3 - gamma))
        else
          Mtot / rb * (BPLModel.new Mtot rb beta gamma gl)._rhoff * (4 * M_PI) / (beta - 3)
            * ((beta - gamma) / (3 - gamma) - 1 / (beta - 2)))) := by
  have hrb0 := hrb.ne'
  generalize hD : Mtot / rb * (BPLModel.new Mtot rb beta gamma gl)._rhoff * (4 * M_PI) = D
  have hout : ∀ r : ℝ, rb < r → (BPLModel.new Mtot rb beta gamma gl).potential r
      = if |beta - 3| < 1e-5 then
          D / (r / rb) * ((4 - gamma) / (3 - gamma) + Real.log (r / rb))
        else
          D / (beta - 3) / (r / rb)
            * ((beta - gamma) / (3 - gamma) - (r / rb) ^ (3 - beta) / (beta - 2)) := by
    intro r hr
    have h1 : ¬ (r / rb ≤ 1) := by
      rw [not_le, lt_div_iff₀ hrb]
      linarith
    rw [← hD]
    dsimp only [BPLModel.new, BPLModel.potential]
    rw [if_neg h1]
  have ht : ContinuousAt (fun r : ℝ => r / rb) rb := continuousAt_id.div_const rb
  have ht1 : rb / rb ≠ 0 := by
    rw [div_self hrb0]
    exact one_ne_zero
  have hG : ContinuousAt (fun r : ℝ =>
      if |beta - 3| < 1e-5 then
        D / (r / rb) * ((4 - gamma) / (3 - gamma) + Real.log (r / rb))
      else
        D / (beta - 3) / (r / rb)
          * ((beta - gamma) / (3 - gamma) - (r / rb) ^ (3 - beta) / (beta - 2))) rb := by
    by_cases hβ : |beta - 3| < 1e-5
    · simp only [if_pos hβ]
      exact (continuousAt_const.div ht ht1).mul (continuousAt_const.add (ht.log ht1))
    · simp only [if_neg hβ]
      exact (continuousAt_const.div ht ht1).mul
        (continuousAt_const.sub ((ht.rpow_const (Or.inl ht1)).div_const _))
  have h := (hG.tendsto.mono_left (nhdsWithin_le_nhds (s := Set.Ioi rb))).congr'
    (eventually_nhdsWithin_of_forall fun r hr => (hout r hr).symm)
  beta_reduce at h
  rw [div_self hrb0, Real.log_one, add_zero, div_one, Real.one_rpow, div_one] at h
  exact h

set_option maxHeartbeats 1600000 in
/-- C38, amended: for every `BPLModel` with `Mtot > 0`, `rb > 0` and
`gamma < 3 < beta`, the limit of `potential(r)` as `r → rb` from above equals
`potential(rb)` exactly when either the outer power-law branch is taken
(`|beta-3| ≥ 1e-5`) together with the inner power-law branch (`|gamma-2| ≥ 1e-5`)
or with `gamma = 2`, or both logarithmic branches are taken and
`beta + gamma = 5`. -/
theorem bpl_potential_continuity_at_break (Mtot rb beta gamma : ℝ) (gl : GaussLegendre)
    (hM : 0 < Mtot) (hrb : 0 < rb) (hg : gamma < 3) (hb : 3 < beta) :
    Filter.Tendsto (BPLModel.new Mtot rb beta gamma gl).potential (nhdsWithin rb (Set.Ioi rb))
        (nhds ((BPLModel.new Mtot rb beta gamma gl).potential rb)) ↔
      ((1e-5 ≤ |beta - 3| ∧ (1e-5 ≤ |gamma - 2| ∨ gamma = 2)) ∨
        (|beta - 3| < 1e-5 ∧ |gamma - 2| < 1e-5 ∧ beta + gamma = 5)) := by
  have hlim := bpl_potential_tendsto_at_break Mtot rb beta gamma gl hrb
  have hF : (BPLModel.new Mtot rb beta gamma gl)._rhoff ≠ 0 := bpl_rhoff_ne_zero beta gamma hg hb
  have hrb0 := hrb.ne'
  have hb2 : beta - 2 ≠ 0 := by linarith
  have hb3 : beta - 3 ≠ 0 := by linarith
  have hg3 : 3 - gamma ≠ 0 := by linarith
  have hD0 : Mtot / rb * (BPLModel.new Mtot rb beta gamma gl)._rhoff * (4 * M_PI) ≠ 0 := by
    refine mul_ne_zero (mul_ne_zero (div_ne_zero hM.ne' hrb0) hF) ?_
    dsimp only [M_PI]
    positivity
  -- the potential at the break radius
  have hin : (BPLModel.new Mtot rb beta gamma gl).potential rb
      = if |gamma - 2| < 1e-5 then
          Mtot / rb * (BPLModel.new Mtot rb beta gamma gl)._rhoff * (4 * M_PI)
            * ((beta - 1) / (beta - 2))
        else
          Mtot / rb * (BPLModel.new Mtot rb beta gamma gl)._rhoff * (4 * M_PI) / (2 - gamma)
            * ((beta - gamma) / (beta - 2) - 1 / (3 - gamma)) := by
    dsimp only [BPLModel.new, BPLModel.potential]
    rw [div_self hrb0, if_pos le_rfl, Real.log_one, sub_zero, Real.one_rpow]
  rw [hin]
  generalize Mtot / rb * (BPLModel.new Mtot rb beta gamma gl)._rhoff * (4 * M_PI) = D
    at hlim hD0
  generalize (BPLModel.new Mtot rb beta gamma gl).potential = P at hlim
  -- by uniqueness of limits, continuity is the equality of the two values
  have huniq : ∀ L V : ℝ, Filter.Tendsto P (nhdsWithin rb (Set.Ioi rb)) (nhds L) →
      (Filter.Tendsto P (nhdsWithin rb (Set.Ioi rb)) (nhds V) ↔ L - V = 0) := by
    intro L V hL
    constructor
    · intro hV
      exact sub_eq_zero.mpr (tendsto_nhds_unique hL hV)
    · intro hLV
      rw [← sub_eq_zero.mp hLV]
      exact hL
  by_cases hβ : |beta - 3| < 1e-5
  · by_cases hγ : |gamma - 2| < 1e-5
    · rw [if_pos hβ] at hlim
      rw [if_pos hγ, huniq _ _ hlim]
      have hdiff : D * ((4 - gamma) / (3 - gamma)) - D * ((beta - 1) / (beta - 2))
          = D * (beta + gamma - 5) / ((3 - gamma) * (beta - 2)) := by
        field_simp
        ring
      rw [hdiff]
      constructor
      · intro h
        have h1 := (div_eq_zero_iff.mp h).resolve_right (mul_ne_zero hg3 hb2)
        have h2 := (mul_eq_zero.mp h1).resolve_left hD0
        exact Or.inr ⟨hβ, hγ, by linarith⟩
      · rintro (⟨h1, _⟩ | ⟨_, _, h5⟩)
        · exact absurd hβ (not_lt.mpr h1)
        · rw [show beta + gamma - 5 = 0 by linarith, mul_zero, zero_div]
    · have hg2 : 2 - gamma ≠ 0 := by
        intro h
        apply hγ
        rw [show gamma - 2 = 0 by linarith, abs_zero]
        norm_num
      rw [if_pos hβ] at hlim
      rw [if_neg hγ, huniq _ _ hlim]
      have hdiff : D * ((4 - gamma) / (3 - gamma))
            - D / (2 - gamma) * ((beta - gamma) / (beta - 2) - 1 / (3 - gamma))
          = D * (beta - 3) / (beta - 2) := by
        field_simp
        ring
      rw [hdiff]
      constructor
      · intro h
        have h1 := (div_eq_zero_iff.mp h).resolve_right hb2
        exact absurd h1 (mul_ne_zero hD0 hb3)
      · rintro (⟨h1, _⟩ | ⟨_, h2, _⟩)
        · exact absurd hβ (not_lt.mpr h1)
        · exact absurd h2 hγ
  · by_cases hγ : |gamma - 2| < 1e-5
    · rw [if_neg hβ] at hlim
      rw [if_pos hγ, huniq _ _ hlim]
      have hdiff : D / (beta - 3) * ((beta - gamma) / (3 - gamma) - 1 / (beta - 2))
            - D * ((beta - 1) / (beta - 2))
          = D * (gamma - 2) / (3 - gamma) := by
        field_simp
        ring
      rw [hdiff]
      constructor
      · intro h
        have h1 := (div_eq_zero_iff.mp h).resolve_right hg3
        have h2 := (mul_eq_zero.mp h1).resolve_left hD0
        exact Or.inl ⟨not_lt.mp hβ, Or.inr (by linarith)⟩
      · rintro (⟨_, h1 | h1⟩ | ⟨h1, _, _⟩)
        · exact absurd hγ (not_lt.mpr h1)
        · rw [h1, sub_self, mul_zero, zero_div]
        · exact absurd h1 hβ
    · have hg2 : 2 - gamma ≠ 0 := by
        intro h
        apply hγ
        rw [show gamma - 2 = 0 by linarith, abs_zero]
        norm_num
      rw [if_neg hβ] at hlim
      rw [if_neg hγ, huniq _ _ hlim]
      have hdiff : D / (beta - 3) * ((beta - gamma) / (3 - gamma) - 1 / (beta - 2))
            - D / (2 - gamma) * ((beta - gamma) / (beta - 2) - 1 / (3 - gamma))
          = 0 := by
        field_simp
        ring
      rw [hdiff]
      constructor
      · intro _
        exact Or.inl ⟨not_lt.mp hβ, Or.inl (not_lt.mp hγ)⟩
      · intro _
        rfl

/-- C38, amended, for `BPLModel(1, 1, 4, 1, gl)`, where both power-law branches
are taken: the potential is continuous from above at the break radius. -/
theorem bpl_potential_continuity_at_break_witness :
    (0 : ℝ) < 1 ∧ (0 : ℝ) < 1 ∧ (1 : ℝ) < 3 ∧ (3 : ℝ) < 4 ∧
    Filter.Tendsto (BPLModel.new 1 1 4 1 GaussLegendre.onePoint).potential
      (nhdsWithin 1 (Set.Ioi 1))
      (nhds ((BPLModel.new 1 1 4 1 GaussLegendre.onePoint).potential 1)) :=
  ⟨by norm_num, by norm_num, by norm_num, by norm_num,
    (bpl_potential_continuity_at_break 1 1 4 1 GaussLegendre.onePoint (by norm_num)
      (by norm_num) (by norm_num) (by norm_num)).mpr
      (Or.inl ⟨by rw [abs_of_pos (by norm_num)]; norm_num,
        Or.inl (by rw [abs_of_neg (by norm_num)]; norm_num)⟩)⟩

/-- C38 as stated fails for `BPLModel(1, 1, 3.000001, 1, gl)`, where the
logarithmic outer branch is taken: the limit of the potential from above at the
break radius is not the potential at the break radius. -/
theorem bpl_potential_near_three_discontinuous :
    (0 : ℝ) < 1 ∧ (1 : ℝ) < 3 ∧ (3 : ℝ) < 3.000001 ∧
    ¬ Filter.Tendsto bplNearThree.potential (nhdsWithin 1 (Set.Ioi 1))
      (nhds (bplNearThree.potential 1)) := by
  refine ⟨by norm_num, by norm_num, by norm_num, ?_⟩
  intro h
  have hlim := bpl_potential_tendsto_at_break 1 1 3.000001 1 GaussLegendre.onePoint
    (by norm_num)
  have hβ : |(3.000001 : ℝ) - 3| < 1e-5 := by
    rw [abs_of_pos (by norm_num)]
    norm_num
  have hγ : ¬ |(1 : ℝ) - 2| < 1e-5 := by
    rw [abs_of_neg (by norm_num)]
    norm_num
  rw [if_pos hβ] at hlim
  have heq := tendsto_nhds_unique hlim h
  have hF : (BPLModel.new 1 1 3.000001 1 GaussLegendre.onePoint)._rhoff ≠ 0 :=
    bpl_rhoff_ne_zero 3.000001 1 (by norm_num) (by norm_num)
  have hD0 : (1 : ℝ) / 1 * (BPLModel.new 1 1 3.000001 1 GaussLegendre.onePoint)._rhoff
      * (4 * M_PI) ≠ 0 := by
    refine mul_ne_zero (mul_ne_zero (by norm_num) hF) ?_
    dsimp only [M_PI]
    positivity
  have hval : bplNearThree.potential 1
      = (1 : ℝ) / 1 * (BPLModel.new 1 1 3.000001 1 GaussLegendre.onePoint)._rhoff * (4 * M_PI)
          / (2 - 1) * ((3.000001 - 1) / (3.000001 - 2) - 1 / (3 - 1)) := by
    dsimp only [bplNearThree, BPLModel.new, BPLModel.potential]
    rw [div_self one_ne_zero, if_pos le_rfl, if_neg hγ, Real.one_rpow]
  rw [hval] at heq
  generalize (1 : ℝ) / 1 * (BPLModel.new 1 1 3.000001 1 GaussLegendre.onePoint)._rhoff
    * (4 * M_PI) = D at heq hD0
  have h2 : D * ((4 - 1) / (3 - 1) - ((3.000001 - 1) / (3.000001 - 2) - 1 / (3 - 1))) = 0 := by
    have e : D * ((4 - 1) / (3 - 1) - ((3.000001 - 1) / (3.000001 - 2) - 1 / (3 - 1)))
        = D * ((4 - 1) / (3 - 1))
          - D / (2 - 1) * ((3.000001 - 1) / (3.000001 - 2) - 1 / (3 - 1)) := by
      ring
    rw [e, heq, sub_self]
  rcases mul_eq_zero.mp h2 with h3 | h3
  · exact hD0 h3
  · norm_num at h3

end SpheCow

end
